import Mathlib

/-!
# Pole localization node (`src/locate.cpp`)

A shallow embedding of the class `Loc` and a verification of its specification.

Conventions of the embedding.

* A C++ `double` is an element of a linear ordered field `α` (the reals in the theorems that
  need `sqrt`, `cos`, `sin` or `atan2`): rounding, infinities and NaN are not represented.
  A division whose divisor is zero leaves that model (IEEE gives an infinity or NaN); the
  embedding stops there with `Fault.nonFinite`.
* The C math library and the `tf` yaw helpers are external; they are the fields of
  `CMath` and `Tf`, and the functions that call them take them as arguments.
* `abs` is the absolute value of a `double`, `pow(x, 2)` is `x ^ 2`, `pow(x, 0.5)` is `sqrt x`.
* A `while` loop that is not bounded by a container size runs on fuel: the number of times its
  body may run. Running out is `Fault.fuel`; a failed `assert` is `Fault.assertion`.
* `ros::Time` values are natural numbers; `ros::Time::now()` is an argument.
-/

namespace Localization

/-! ## External libraries -/

/-- The functions of `<cmath>` called by the node. -/
structure CMath (α : Type) where
  /-- Square root, written `pow(x, 0.5)` in the source. -/
  sqrt : α → α
  cos : α → α
  sin : α → α
  /-- Two argument arc tangent, `atan2 y x`. -/
  atan2 : α → α → α

/-- The yaw helpers of `tf/transform_datatypes.h` over a quaternion type `Q`. -/
structure Tf (α Q : Type) where
  getYaw : Q → α
  createQuaternionMsgFromYaw : α → Q

/-- Ways in which a run of the node leaves the embedding. -/
inductive Fault where
  /-- An `assert` failed. -/
  | assertion
  /-- A `while` loop used up its fuel. -/
  | fuel
  /-- A division by zero (an infinity or NaN in IEEE arithmetic). -/
  | nonFinite
  deriving DecidableEq, Repr

/-! ## Data model -/

/-- The message `localization::scan_point`: a polar reading. -/
structure scan_point (α : Type) where
  distance : α
  angle : α
  deriving DecidableEq, Repr

/-- The message `localization::xy_point`. -/
structure xy_point (α : Type) where
  x : α
  y : α
  deriving DecidableEq, Repr

/-- Modelled from the spec: the class `Pole` of `pole.cpp`, which `locate.cpp` includes.
The fields are those of the spec's `Landmark`
(`id`, `map_position`, `last_observation`, `last_seen_at`, `visible`) under the names of the
accessors `i()`, `xy_coords()`, `laser_coords()`, `time()`, `visible()` used in `locate.cpp`. -/
structure Pole (α : Type) where
  xy_coords : xy_point α
  laser_coords : scan_point α
  time : Nat
  i : Nat
  visible : Bool
  deriving DecidableEq, Repr

/-- Modelled from the spec: the constructor `Pole(xy, scan, time, i)` of `pole.cpp`; a landmark
is created from a real reading, so it starts visible. -/
def Pole.mk4 {α : Type} (xy : xy_point α) (scan : scan_point α) (time i : Nat) : Pole α :=
  { xy_coords := xy, laser_coords := scan, time := time, i := i, visible := true }

/-- Modelled from the spec: `Pole::update(scan, time)` of `pole.cpp`, a real match
("update matched landmarks' `last_observation`/`last_seen_at`/`visible=true`"). -/
def Pole.update {α : Type} (p : Pole α) (scan : scan_point α) (time : Nat) : Pole α :=
  { p with laser_coords := scan, time := time, visible := true }

/-- Modelled from the spec: `Pole::update(scan)` of `pole.cpp`, the occlusion estimator's
write: it replaces `last_observation` only. -/
def Pole.update1 {α : Type} (p : Pole α) (scan : scan_point α) : Pole α :=
  { p with laser_coords := scan }

/-- Modelled from the spec: `Pole::disappear()` of `pole.cpp` ("marked `visible=false`"). -/
def Pole.disappear {α : Type} (p : Pole α) : Pole α :=
  { p with visible := false }

/-- The message `geometry_msgs::Pose`: a position and an orientation. -/
structure Pose (α Q : Type) where
  x : α
  y : α
  z : α
  orientation : Q

/-- The message `geometry_msgs::PoseStamped`, the type of the member `pose_`. -/
structure PoseStamped (α Q : Type) where
  seq : Nat
  stamp : Nat
  frame_id : String
  pose : Pose α Q

section Code

variable {α Q : Type} [LinearOrderedField α]

/-- The constant `kPi` (line 12). -/
def kPi : α := 3.141592653589

/-! ## `CorrectAngle` / `correctAngle` (lines 38-41 and 237-240) -/

/-- The loop `while(angle > kPi) angle -= 2*kPi;`. -/
def correctAngleDown : Nat → α → Except Fault α
  | 0, angle => if angle > kPi then .error .fuel else .ok angle
  | n + 1, angle => if angle > kPi then correctAngleDown n (angle - 2 * kPi) else .ok angle

/-- The loop `while(angle < -kPi) angle += 2*kPi;`. -/
def correctAngleUp : Nat → α → Except Fault α
  | 0, angle => if angle < -kPi then .error .fuel else .ok angle
  | n + 1, angle => if angle < -kPi then correctAngleUp n (angle + 2 * kPi) else .ok angle

/-- The member `CorrectAngle`: the two loops in sequence. -/
def CorrectAngle (fuel : Nat) (angle : α) : Except Fault α :=
  correctAngleDown fuel angle >>= correctAngleUp fuel

/-- The member `correctAngle`, a copy of `CorrectAngle`. -/
def correctAngle (fuel : Nat) (angle : α) : Except Fault α :=
  correctAngleDown fuel angle >>= correctAngleUp fuel

/-! ## `calcPose` (lines 242-343) -/

/-- The discriminant `to_root` (lines 260 and 264). -/
def to_root (D a_dist b_dist : α) : α :=
  (D + a_dist + b_dist) * (D + a_dist - b_dist) * (D - a_dist + b_dist) * (-D + a_dist + b_dist)

/-- The loop of lines 261-266: while the discriminant is negative add `0.001` to both ranges.
The result is the pair of ranges at which the loop stops. -/
def inflate (D : α) : Nat → α → α → Except Fault (α × α)
  | 0, a_dist, b_dist =>
    if to_root D a_dist b_dist < 0 then .error .fuel else .ok (a_dist, b_dist)
  | n + 1, a_dist, b_dist =>
    if to_root D a_dist b_dist < 0 then inflate D n (a_dist + 0.001) (b_dist + 0.001)
    else .ok (a_dist, b_dist)

/-- The number of times the body of the loop of lines 261-266 runs within the fuel. -/
def inflateSteps (D : α) : Nat → α → α → Nat
  | 0, _, _ => 0
  | n + 1, a_dist, b_dist =>
    if to_root D a_dist b_dist < 0 then inflateSteps D n (a_dist + 0.001) (b_dist + 0.001) + 1
    else 0

/-- The two intersection candidates of lines 268-271. -/
structure Candidates (α : Type) where
  x1_circle : α
  y1_circle : α
  x2_circle : α
  y2_circle : α

/-- Lines 267-271: the two candidate points from the landmark positions, `D`, the ranges and
`to_root`. -/
def circlePoints (m : CMath α) (xp1 yp1 xp2 yp2 D a_dist b_dist toRoot : α) : Candidates α :=
  let delta := 1 / 4 * m.sqrt toRoot
  { x1_circle := (xp1 + xp2) / 2 + (xp2 - xp1) * (a_dist * a_dist - b_dist * b_dist) / (2 * D * D)
      + 2 * (yp1 - yp2) / (D * D) * delta
    x2_circle := (xp1 + xp2) / 2 + (xp2 - xp1) * (a_dist * a_dist - b_dist * b_dist) / (2 * D * D)
      - 2 * (yp1 - yp2) / (D * D) * delta
    y1_circle := (yp1 + yp2) / 2 + (yp2 - yp1) * (a_dist * a_dist - b_dist * b_dist) / (2 * D * D)
      - 2 * (xp1 - xp2) / (D * D) * delta
    y2_circle := (yp1 + yp2) / 2 + (yp2 - yp1) * (a_dist * a_dist - b_dist * b_dist) / (2 * D * D)
      + 2 * (xp1 - xp2) / (D * D) * delta }

/-- The distance `D` between the two landmarks (line 259). -/
def poleDistance (m : CMath α) (xp1 yp1 xp2 yp2 : α) : α :=
  m.sqrt ((xp2 - xp1) * (xp2 - xp1) + (yp2 - yp1) * (yp2 - yp1))

/-- Lines 259-271: `D`, the inflation loop and the two candidates. The result carries the
ranges after inflation. -/
def intersect (m : CMath α) (fuel : Nat) (xp1 yp1 xp2 yp2 a_dist b_dist : α) :
    Except Fault (α × α × Candidates α) :=
  let D := poleDistance m xp1 yp1 xp2 yp2
  match inflate D fuel a_dist b_dist with
  | .error e => .error e
  | .ok (a, b) =>
    if D * D = 0 then .error .nonFinite
    else .ok (a, b, circlePoints m xp1 yp1 xp2 yp2 D a b (to_root D a b))

/-- The Newton iteration of lines 282-293 on the heading. -/
def newton (m : CMath α) (a_dist a_ang b_dist b_ang xp1 xp2 : α) :
    Nat → α → α → Except Fault α
  | 0, theta_old, theta => if |theta - theta_old| > 0.001 then .error .fuel else .ok theta
  | n + 1, theta_old, theta =>
    if |theta - theta_old| > 0.001 then
      let theta_old := theta
      let f_x := a_dist * m.cos (a_ang + theta_old - kPi) + xp1
        - b_dist * m.cos (b_ang + theta_old - kPi) - xp2
      let f_x_prime := -a_dist * m.sin (a_ang + theta_old - kPi)
        + b_dist * m.sin (b_ang + theta_old - kPi)
      if f_x_prime = 0 then .error .nonFinite
      else newton m a_dist a_ang b_dist b_ang xp1 xp2 n theta_old (theta_old - f_x / f_x_prime)
    else .ok theta

/-- The member `calcPose`: the pairwise estimate pushed onto `pose_vector`. -/
def calcPose (m : CMath α) (t : Tf α Q) (fuel : Nat) (pose_ : PoseStamped α Q)
    (pole1 pole2 : Pole α) : Except Fault (Pose α Q) :=
  let xp1 := pole1.xy_coords.x
  let yp1 := pole1.xy_coords.y
  let xp2 := pole2.xy_coords.x
  let yp2 := pole2.xy_coords.y
  let a_ang := pole1.laser_coords.angle
  let b_ang := pole2.laser_coords.angle
  match intersect m fuel xp1 yp1 xp2 yp2 pole1.laser_coords.distance
      pole2.laser_coords.distance with
  | .error e => .error e
  | .ok (a_dist, b_dist, c) =>
    let theta1_circle := kPi - a_ang + m.atan2 (c.y1_circle - yp1) (c.x1_circle - xp1)
    let theta2_circle := kPi - a_ang + m.atan2 (c.y2_circle - yp1) (c.x2_circle - xp1)
    if pose_.pose.x ≠ -2000 then
      match newton m a_dist a_ang b_dist b_ang xp1 xp2 fuel (-2000)
          (t.getYaw pose_.pose.orientation) with
      | .error e => .error e
      | .ok theta =>
        let alpha1 := a_ang + theta - kPi
        let alpha2 := b_ang + theta - kPi
        let x1_newton := a_dist * m.cos alpha1 + xp1
        let x2_newton := b_dist * m.cos alpha2 + xp2
        let y1_newton := a_dist * m.sin alpha1 + yp1
        let y2_newton := b_dist * m.sin alpha2 + yp2
        let x_newton := (x1_newton + x2_newton) / 2
        let y_newton := (y1_newton + y2_newton) / 2
        let check_dist1 := |(c.x1_circle - x_newton) ^ 2 + (c.y1_circle - y_newton) ^ 2|
        let check_dist2 := |(c.x2_circle - x_newton) ^ 2 + (c.y2_circle - y_newton) ^ 2|
        if check_dist1 < check_dist2 then
          .ok { x := c.x1_circle, y := c.y1_circle, z := 0
                orientation := t.createQuaternionMsgFromYaw theta1_circle }
        else
          .ok { x := c.x2_circle, y := c.y2_circle, z := 0
                orientation := t.createQuaternionMsgFromYaw theta2_circle }
    else
      let first : Bool :=
        decide (kPi + m.atan2 (c.y1_circle - yp2) (c.x1_circle - xp2) - theta1_circle - b_ang < 0.1)
      let second : Bool :=
        decide (kPi + m.atan2 (c.y1_circle - yp2) (c.x1_circle - xp2) - theta2_circle - b_ang < 0.1)
      if !(first || second) then .error .assertion
      else
        match correctAngle fuel theta1_circle with
        | .error e => .error e
        | .ok theta1_circle =>
          match correctAngle fuel theta2_circle with
          | .error e => .error e
          | .ok theta2_circle =>
            if first then
              .ok { x := c.x1_circle, y := c.y1_circle, z := 0
                    orientation := t.createQuaternionMsgFromYaw theta1_circle }
            else
              .ok { x := c.x2_circle, y := c.y2_circle, z := 0
                    orientation := t.createQuaternionMsgFromYaw theta2_circle }

/-! ## `GetPose` (lines 181-209) -/

/-- The read `poles_[j].visible()`. The source does not check `j` first: a read past the end
of the vector yields the flag of an unspecified object, `oob`. -/
def visibleAt (poles : List (Pole α)) (oob : Pole α) (j : Nat) : Bool :=
  (poles.getD j oob).visible

/-- The loop `while (!poles_[j].visible() && j < poles_.size()) j++;` (line 186). Its body
runs at most `poles_.size()` times, which is the fuel `GetPoseLoop` gives it. -/
def skipInvisible (poles : List (Pole α)) (oob : Pole α) : Nat → Nat → Nat
  | 0, j => j
  | n + 1, j =>
    if (!visibleAt poles oob j && decide (j < poles.length)) = true then
      skipInvisible poles oob n (j + 1)
    else j

/-- The pairing loop of lines 183-190 from the loop variable `i` and the `pose_vector` built
so far; `calcP` is the call `calcPose(poles_[i], poles_[j], &pose_vector)`. Every turn
increases `i`, so `poles_.size()` turns of fuel are enough. -/
def GetPoseLoop (calcP : Pole α → Pole α → Except Fault (Pose α Q)) (poles : List (Pole α))
    (oob : Pole α) : Nat → Nat → List (Pose α Q) → Except Fault (List (Pose α Q))
  | 0, _, pose_vector => .ok pose_vector
  | n + 1, i, pose_vector =>
    if hi : i < poles.length then
      if visibleAt poles oob i = false then GetPoseLoop calcP poles oob n (i + 1) pose_vector
      else
        let j := skipInvisible poles oob poles.length (i + 1)
        if hj : j > poles.length - 1 then .ok pose_vector
        else
          have hj2 : j < poles.length := by omega
          match calcP poles[i] poles[j] with
          | .error e => .error e
          | .ok est => GetPoseLoop calcP poles oob n (j + 1) (pose_vector ++ [est])
    else .ok pose_vector

/-- The summation loop of lines 191-198: the sums of `x`, `y` and yaw over `pose_vector`. -/
def sumPoses (t : Tf α Q) (pose_vector : List (Pose α Q)) : α × α × α :=
  pose_vector.foldl
    (fun acc p => (acc.1 + p.x, acc.2.1 + p.y, acc.2.2 + t.getYaw p.orientation)) (0, 0, 0)

/-- Lines 191-208 of `GetPose`: the new value of `pose_` from `pose_vector`. The three
divisions by `pose_vector.size()` are `0.0/0` when no pair was formed. -/
def averagePose (t : Tf α Q) (now : Nat) (pose_vector : List (Pose α Q)) :
    Except Fault (PoseStamped α Q) :=
  let s := sumPoses t pose_vector
  if pose_vector.length = 0 then .error .nonFinite
  else
    .ok { seq := 1, stamp := now, frame_id := "fixed_frame"
          pose := { x := s.1 / (pose_vector.length : α)
                    y := s.2.1 / (pose_vector.length : α)
                    z := 0
                    orientation :=
                      t.createQuaternionMsgFromYaw (s.2.2 / (pose_vector.length : α)) } }

/-- The member `GetPose` with the pairwise estimator as an argument. -/
def GetPoseWith (calcP : Pole α → Pole α → Except Fault (Pose α Q)) (t : Tf α Q) (now : Nat)
    (oob : Pole α) (poles : List (Pole α)) : Except Fault (PoseStamped α Q) :=
  match GetPoseLoop calcP poles oob poles.length 0 [] with
  | .error e => .error e
  | .ok pose_vector => averagePose t now pose_vector

/-- The member `GetPose`: the new value of `pose_`. -/
def GetPose (m : CMath α) (t : Tf α Q) (fuel now : Nat) (oob : Pole α)
    (pose_ : PoseStamped α Q) (poles : List (Pole α)) : Except Fault (PoseStamped α Q) :=
  GetPoseWith (calcPose m t fuel pose_) t now oob poles

/-! ## `EstimateIniviblePoles` (lines 211-226) -/

/-- The body of the loop of `EstimateIniviblePoles` for one landmark. -/
def estimatePole (m : CMath α) (t : Tf α Q) (fuel : Nat) (pose_ : PoseStamped α Q)
    (p : Pole α) : Except Fault (Pole α) :=
  if p.visible = false then
    let dx := pose_.pose.x - p.xy_coords.x
    let dy := pose_.pose.y - p.xy_coords.y
    match CorrectAngle fuel (m.atan2 dy dx + 3.1415927 - t.getYaw pose_.pose.orientation) with
    | .error e => .error e
    | .ok angle => .ok (p.update1 { angle := angle, distance := m.sqrt (dx ^ 2 + dy ^ 2) })
  else .ok p

/-- The member `EstimateIniviblePoles`: the new value of `poles_`. -/
def EstimateIniviblePoles (m : CMath α) (t : Tf α Q) (fuel : Nat) (pose_ : PoseStamped α Q) :
    List (Pole α) → Except Fault (List (Pole α))
  | [] => .ok []
  | p :: ps =>
    match estimatePole m t fuel pose_ p with
    | .error e => .error e
    | .ok p2 =>
      match EstimateIniviblePoles m t fuel pose_ ps with
      | .error e => .error e
      | .ok ps2 => .ok (p2 :: ps2)

/-! ## `UpdatePoles` (lines 155-179) -/

/-- The squared Cartesian distance `current_dist` of lines 162-163. -/
def current_dist (m : CMath α) (scan current_scan : scan_point α) : α :=
  (scan.distance * m.cos scan.angle - current_scan.distance * m.cos current_scan.angle) ^ 2
    + (scan.distance * m.sin scan.angle - current_scan.distance * m.sin current_scan.angle) ^ 2

/-- The inner loop of lines 160-168 over the landmarks from index `j` on, with the running
`(min_dist, index)`. -/
def closestLoop (m : CMath α) (scan : scan_point α) : List (Pole α) → Nat → α × Int → α × Int
  | [], _, st => st
  | p :: ps, j, (min_dist, index) =>
    if current_dist m scan p.laser_coords < min_dist then
      closestLoop m scan ps (j + 1) (current_dist m scan p.laser_coords, (j : Int))
    else closestLoop m scan ps (j + 1) (min_dist, index)

/-- Lines 158-168: the `index` found for one observation, `-1` when no landmark is nearer than
`2000000`. -/
def closestPole (m : CMath α) (poles : List (Pole α)) (scan : scan_point α) : Int :=
  (closestLoop m scan poles 0 (2000000, -1)).2

/-- The association loop of lines 157-171. -/
def associate (m : CMath α) (current_time : Nat) :
    List (scan_point α) → List (Pole α) → Except Fault (List (Pole α))
  | [], poles => .ok poles
  | scan :: rest, poles =>
    if closestPole m poles scan = -1 then .error .assertion
    else
      associate m current_time rest
        (poles.modify (fun p => p.update scan current_time) (closestPole m poles scan).toNat)

/-- The loop of lines 172-174: hide the landmarks whose time is not that of this cycle. -/
def hideMissing (current_time : Nat) (poles : List (Pole α)) : List (Pole α) :=
  poles.map (fun p => if p.time ≠ current_time then p.disappear else p)

/-- Lines 157-174 of `UpdatePoles`: association, then hiding. -/
def track (m : CMath α) (current_time : Nat) (scans_to_sort : List (scan_point α))
    (poles : List (Pole α)) : Except Fault (List (Pole α)) :=
  match associate m current_time scans_to_sort poles with
  | .error e => .error e
  | .ok poles2 => .ok (hideMissing current_time poles2)

/-- The members of `Loc` that the localization cycle reads and writes. -/
structure Loc (α Q : Type) where
  poles_ : List (Pole α)
  pose_ : PoseStamped α Q
  initiation_ : Bool

/-- The member `UpdatePoles`; `current_time` is the clock at line 156, `now` the clock read
by `GetPose`. -/
def UpdatePoles (m : CMath α) (t : Tf α Q) (fuel current_time now : Nat) (oob : Pole α)
    (loc : Loc α Q) (scans_to_sort : List (scan_point α)) : Except Fault (Loc α Q) :=
  match track m current_time scans_to_sort loc.poles_ with
  | .error e => .error e
  | .ok poles2 =>
    match GetPose m t fuel now oob loc.pose_ poles2 with
    | .error e => .error e
    | .ok pose2 =>
      match EstimateIniviblePoles m t fuel pose2 poles2 with
      | .error e => .error e
      | .ok poles3 => .ok { loc with poles_ := poles3, pose_ := pose2 }

/-- The member `UpdatePoles` (lines 155-179) with the call `GetPose()` of line 176 as an
argument: `getPose` gives the value that the call stores in `pose_` from the value held before
and the tracked landmarks (`GetPose` reads `poles_` and writes `pose_` only). With the
embedding `GetPose` for `getPose` this is `UpdatePoles`. Where `GetPose` divides by zero the
embedding stops and the program stores the quotients and goes on: there a `getPose` that
returns a pose stands for the call. -/
def UpdatePolesWith (m : CMath α) (t : Tf α Q) (fuel current_time : Nat)
    (getPose : PoseStamped α Q → List (Pole α) → Except Fault (PoseStamped α Q))
    (loc : Loc α Q) (scans_to_sort : List (scan_point α)) : Except Fault (Loc α Q) :=
  match track m current_time scans_to_sort loc.poles_ with
  | .error e => .error e
  | .ok poles2 =>
    match getPose loc.pose_ poles2 with
    | .error e => .error e
    | .ok pose2 =>
      match EstimateIniviblePoles m t fuel pose2 poles2 with
      | .error e => .error e
      | .ok poles3 => .ok { loc with poles_ := poles3, pose_ := pose2 }

/-! ## `ScanToXY` (lines 119-142) -/

/-- The member `ScanToXY`. The reads `xy_vector[0]` and `xy_vector[1]` are unchecked: past
the end they yield an unspecified point, `oob`. -/
def ScanToXY (m : CMath α) (oob : xy_point α) (scan : List (scan_point α)) :
    List (xy_point α) :=
  let xy_vector : List (xy_point α) :=
    scan.map (fun s => { x := s.distance * m.cos s.angle, y := s.distance * m.sin s.angle })
  let x_dif := (xy_vector.getD 0 oob).x
  let y_dif := (xy_vector.getD 0 oob).y
  let rot_ang := m.atan2 ((xy_vector.getD 1 oob).y - (xy_vector.getD 0 oob).y)
    ((xy_vector.getD 1 oob).x - (xy_vector.getD 0 oob).x)
  xy_vector.map (fun p =>
    let x := p.x - x_dif
    let y := p.y - y_dif
    let temp_x := x
    { x := m.cos rot_ang * temp_x + m.sin rot_ang * y
      y := -m.sin rot_ang * temp_x + m.cos rot_ang * y })

/-! ## `MinimizeScans` (lines 360-398) -/

/-- The test of lines 379-380: `sj` is close enough to the seed `si`. -/
def closeEnough (si sj : scan_point α) : Bool :=
  decide (|(si.angle - sj.angle) * si.distance| < 0.2)
    && decide (|si.distance - sj.distance| < 0.2)

/-- The state of the inner loop of `MinimizeScans`: `ppp`, `trash` and `target.back()`. -/
structure Cluster (α : Type) where
  ppp : Nat
  trash : List Nat
  back : scan_point α

/-- One turn of the inner loop (lines 374-387) for the index `j`, the seed being
`scan->at(i)`. -/
def clusterStep (scan : List (scan_point α)) (si : scan_point α) (c : Cluster α) (j : Nat) :
    Cluster α :=
  if j ∈ c.trash then c
  else
    match scan[j]? with
    | none => c
    | some sj =>
      if closeEnough si sj = true then
        { ppp := c.ppp + 1, trash := c.trash ++ [j]
          back := { angle := c.back.angle + sj.angle, distance := c.back.distance + sj.distance } }
      else c

/-- One turn of the outer loop (lines 366-395) for the index `i`, on `(target, trash)`.
The element pushed at line 372 is kept in `Cluster.back` until it is averaged. -/
def minimizeStep (scan : List (scan_point α)) (st : List (scan_point α) × List Nat) (i : Nat) :
    List (scan_point α) × List Nat :=
  if i ∈ st.2 then st
  else
    match scan[i]? with
    | none => st
    | some si =>
      let c : Cluster α :=
        if i + 1 ≠ scan.length then
          (List.range' (i + 1) (scan.length - (i + 1))).foldl (clusterStep scan si)
            { ppp := 1, trash := st.2, back := si }
        else { ppp := 1, trash := st.2, back := si }
      (st.1 ++ [{ distance := c.back.distance / (c.ppp : α), angle := c.back.angle / (c.ppp : α) }],
        c.trash ++ [i])

/-- The member `MinimizeScans`: the new content of `*scan`. -/
def MinimizeScans (scan : List (scan_point α)) : List (scan_point α) :=
  if scan.isEmpty then []
  else ((List.range scan.length).foldl (minimizeStep scan) ([], [])).1

/-! ## `ExtractPoleScans` (lines 346-358) -/

/-- The fields of `sensor_msgs::LaserScan` read by the node. -/
structure LaserScan (α : Type) where
  angle_min : α
  angle_increment : α
  ranges : List α
  intensities : List α

/-- The member `ExtractPoleScans`; `oob` is what the unchecked read `scan_.ranges[i]` yields
past the end of `ranges`. -/
def ExtractPoleScans (oob : α) (scan_ : LaserScan α) : List (scan_point α) :=
  MinimizeScans
    ((List.range scan_.intensities.length).filterMap (fun i =>
      if scan_.intensities.getD i 0 > 1000 then
        some { distance := scan_.ranges.getD i oob
               angle := scan_.angle_min + scan_.angle_increment * (i : α) }
      else none))

/-! ## `InitiatePoles`, `Locate` and `StateHandler` (lines 16-25, 43-96 and 144-153) -/

/-- The member `InitiatePoles`. `frames` holds the value of `scan_` after each `spinOnce` of
the gathering loop of lines 61-68, one entry per turn of that loop; `now i` is the clock read
at line 91 for landmark `i`. The reads `xy_poles[i]` are within bounds, `ScanToXY` returning
as many points as it is given. -/
def InitiatePoles (m : CMath α) (oobRange : α) (oobXY : xy_point α) (now : Nat → Nat)
    (frames : List (LaserScan α)) (loc : Loc α Q) : Loc α Q :=
  let extracted_scan_points := frames.map (ExtractPoleScans oobRange)
  if extracted_scan_points.length < 25 then loc
  else
    let averaged_scan_points :=
      MinimizeScans (extracted_scan_points.foldl (fun acc l => acc ++ l) [])
    let xy_poles := ScanToXY m oobXY averaged_scan_points
    let created := averaged_scan_points.enum.map
      (fun e => Pole.mk4 (xy_poles.getD e.1 oobXY) e.2 (now e.1) e.1)
    { loc with poles_ := loc.poles_ ++ created, initiation_ := false }

/-- The state set up by the constructor `Loc()` (lines 22-23); `q0` is the orientation of a
default-constructed pose. -/
def Loc.initial (q0 : Q) : Loc α Q :=
  { poles_ := []
    pose_ := { seq := 0, stamp := 0, frame_id := ""
               pose := { x := -2000, y := 0, z := 0, orientation := q0 } }
    initiation_ := true }

/-- Non-overlapping pairs of a list in order: `(v0, v1)`, `(v2, v3)`, ... -/
def pairUp {β : Type} : List β → List (β × β)
  | a :: b :: rest => (a, b) :: pairUp rest
  | _ => []

/-- The landmarks that are visible, in id order. -/
def visiblePoles (poles : List (Pole α)) : List (Pole α) :=
  poles.filter (fun p => p.visible)

/-- The arithmetic mean of a list. -/
def mean (l : List α) : α := l.sum / (l.length : α)

/-- No point of the list is close enough to an earlier point of it (test of lines 379-380). -/
def Separated : List (scan_point α) → Prop
  | [] => True
  | s :: rest => (∀ r ∈ rest, closeEnough s r = false) ∧ Separated rest

/-- The calls of `calcPose` on a list of pairs in order, appending each estimate. -/
def runPairs (calcP : Pole α → Pole α → Except Fault (Pose α Q)) :
    List (Pole α × Pole α) → List (Pose α Q) → Except Fault (List (Pose α Q))
  | [], pose_vector => .ok pose_vector
  | (a, b) :: rest, pose_vector =>
    match calcP a b with
    | .error e => .error e
    | .ok est => runPairs calcP rest (pose_vector ++ [est])

/-! ## Example data -/

/-- Three landmarks on a line, as read by a platform at `(5, 0)` that faces the first one;
`ang` is the bearing of the second one. -/
def examplePoles (ang : α) : List (Pole α) :=
  [ { xy_coords := ⟨0, 0⟩, laser_coords := ⟨5, 0⟩, time := 0, i := 0, visible := true },
    { xy_coords := ⟨10, 0⟩, laser_coords := ⟨5, ang⟩, time := 0, i := 1, visible := true },
    { xy_coords := ⟨-10, 0⟩, laser_coords := ⟨15, 0⟩, time := 0, i := 2, visible := true } ]

/-- Two landmarks on a vertical line and a third one, as read by a platform at `(5, 0)` with
the first landmark at bearing `-ang` and the second at bearing `ang`. -/
def examplePolesVertical (ang : α) : List (Pole α) :=
  [ { xy_coords := ⟨5, 5⟩, laser_coords := ⟨5, -ang⟩, time := 0, i := 0, visible := true },
    { xy_coords := ⟨5, -5⟩, laser_coords := ⟨5, ang⟩, time := 0, i := 1, visible := true },
    { xy_coords := ⟨-10, 0⟩, laser_coords := ⟨15, 0⟩, time := 0, i := 2, visible := true } ]

/-- The value of `pose_` left by the constructor: `x` is the sentinel `-2000`. -/
def initialPose : PoseStamped α α :=
  { seq := 0, stamp := 0, frame_id := "", pose := { x := -2000, y := 0, z := 0, orientation := 0 } }

/-- A quaternion about the vertical axis kept as its yaw. -/
def yawTf : Tf α α := { getYaw := fun q => q, createQuaternionMsgFromYaw := fun yaw => yaw }

/-! ## Records of the association loop -/

/-- The association loop of lines 157-171 as a record: for every observation it processes,
the observation, the landmarks as held when it is processed, and the `index` it is written
to. The record ends where an `assert` fails. -/
def associateTrace (m : CMath α) (current_time : Nat) :
    List (scan_point α) → List (Pole α) → List (scan_point α × List (Pole α) × Int)
  | [], _ => []
  | scan :: rest, poles =>
    if closestPole m poles scan = -1 then []
    else
      (scan, poles, closestPole m poles scan) ::
        associateTrace m current_time rest
          (poles.modify (fun p => p.update scan current_time) (closestPole m poles scan).toNat)

/-- Landmark `k` is a nearest one to `scan` and the first such: no landmark is nearer and
every landmark of lower index is farther. -/
def NearestFirst (m : CMath α) (scan : scan_point α) (poles : List (Pole α)) (k : Nat) : Prop :=
  ∃ hk : k < poles.length,
    (∀ (l : Nat) (hl : l < poles.length),
      current_dist m scan poles[k].laser_coords ≤ current_dist m scan poles[l].laser_coords)
    ∧ (∀ (l : Nat) (hl : l < k),
      current_dist m scan poles[k].laser_coords
        < current_dist m scan (poles[l]).laser_coords)

/-- The part of the landmark set that the map consists of: every landmark's id and
`map_position`, in order. -/
def landmarkMap (poles : List (Pole α)) : List (Nat × xy_point α) :=
  poles.map (fun p => (p.i, p.xy_coords))

/-! ## Records of the reads of `GetPose` -/

/-- The indices at which the loop of line 186 reads `poles_`: every evaluation of its
condition reads `poles_[j]` first and compares `j` with `poles_.size()` afterwards. -/
def skipInvisibleReads (poles : List (Pole α)) (oob : Pole α) : Nat → Nat → List Nat
  | 0, j => [j]
  | n + 1, j =>
    if (!visibleAt poles oob j && decide (j < poles.length)) = true then
      j :: skipInvisibleReads poles oob n (j + 1)
    else [j]

/-- The indices at which the pairing loop of lines 183-190 reads `poles_`, in order, from the
loop variable `i` on, in a run in which every call of `calcPose` returns: `poles_[i]` at line
184, the reads of line 186, and `poles_[i]`, `poles_[j]` at line 188. -/
def GetPoseReads (poles : List (Pole α)) (oob : Pole α) : Nat → Nat → List Nat
  | 0, _ => []
  | n + 1, i =>
    if i < poles.length then
      if visibleAt poles oob i = false then i :: GetPoseReads poles oob n (i + 1)
      else
        i :: (skipInvisibleReads poles oob poles.length (i + 1)
          ++ (if skipInvisible poles oob poles.length (i + 1) > poles.length - 1 then []
              else
                i :: skipInvisible poles oob poles.length (i + 1) ::
                  GetPoseReads poles oob n (skipInvisible poles oob poles.length (i + 1) + 1)))
    else []

end Code

/-! # Verification -/

section Proofs

set_option linter.unusedSectionVars false

variable {α Q : Type} [LinearOrderedField α]

/-! ## The circle intersection of `calcPose` -/

theorem circle_algebra (u v D r a b : ℝ) (hD : D ≠ 0) (hs : u * u + v * v = D * D)
    (hr : r * r = to_root D a b) (sg : ℝ) (hsg : sg * sg = 1) :
    ((u / 2 + u * (a * a - b * b) / (2 * D * D) + sg * (2 * (-v) / (D * D) * (1 / 4 * r))) ^ 2
      + (v / 2 + v * (a * a - b * b) / (2 * D * D) - sg * (2 * (-u) / (D * D) * (1 / 4 * r))) ^ 2
        = a ^ 2) ∧
    ((-u / 2 + u * (a * a - b * b) / (2 * D * D) + sg * (2 * (-v) / (D * D) * (1 / 4 * r))) ^ 2
      + (-v / 2 + v * (a * a - b * b) / (2 * D * D) - sg * (2 * (-u) / (D * D) * (1 / 4 * r))) ^ 2
        = b ^ 2) := by
  have hD2 : D * D ≠ 0 := mul_ne_zero hD hD
  have hD3 : 2 * (D * D) ≠ 0 := mul_ne_zero (by norm_num) hD2
  set c := (a * a - b * b) / (2 * D * D) with hc
  set k := r / (2 * (D * D)) with hk
  have e1 : ∀ w : ℝ, w * (a * a - b * b) / (2 * D * D) = w * c := by
    intro w; rw [hc]; ring
  have e2 : ∀ w : ℝ, sg * (2 * (-w) / (D * D) * (1 / 4 * r)) = - sg * w * k := by
    intro w; rw [hk]; field_simp; ring
  have hcD : c * (2 * (D * D)) = a * a - b * b := by
    rw [hc, show 2 * D * D = 2 * (D * D) by ring, div_mul_cancel₀ _ hD3]
  have hkD : k * (2 * (D * D)) = r := by
    rw [hk, div_mul_cancel₀ _ hD3]
  have hT : r * r = 4 * (D * D) * (a * a) - (D * D + a * a - b * b) ^ 2 := by
    rw [hr, to_root]; ring
  have key : (D * D) * ((1 / 2 + c) ^ 2 + k ^ 2) = a ^ 2 := by
    have h1 : (2 * (D * D)) ^ 2 * ((1 / 2 + c) ^ 2 + k ^ 2)
        = (D * D + c * (2 * (D * D))) ^ 2 + (k * (2 * (D * D))) ^ 2 := by ring
    rw [hcD, hkD] at h1
    have h2 : (2 * (D * D)) ^ 2 * ((1 / 2 + c) ^ 2 + k ^ 2) = 4 * (D * D) * a ^ 2 := by
      rw [h1]; nlinarith [hT]
    have h3 : (4 * (D * D)) * ((D * D) * ((1 / 2 + c) ^ 2 + k ^ 2)) = (4 * (D * D)) * a ^ 2 := by
      rw [← h2]; ring
    exact mul_left_cancel₀ (mul_ne_zero (by norm_num) hD2) h3
  have key2 : (D * D) * ((-1 / 2 + c) ^ 2 + k ^ 2) = b ^ 2 := by
    have : (D * D) * ((-1 / 2 + c) ^ 2 + k ^ 2)
        = (D * D) * ((1 / 2 + c) ^ 2 + k ^ 2) - c * (2 * (D * D)) := by ring
    rw [this, key, hcD]; ring
  simp only [e1, e2]
  constructor
  · have : (u / 2 + u * c + -sg * v * k) ^ 2 + (v / 2 + v * c - -sg * u * k) ^ 2
        = (u * u + v * v) * ((1 / 2 + c) ^ 2 + (sg * sg) * k ^ 2) := by ring
    rw [this, hs, hsg, one_mul, key]
  · have : (-u / 2 + u * c + -sg * v * k) ^ 2 + (-v / 2 + v * c - -sg * u * k) ^ 2
        = (u * u + v * v) * ((-1 / 2 + c) ^ 2 + (sg * sg) * k ^ 2) := by ring
    rw [this, hs, hsg, one_mul, key2]

theorem inflate_of_nonneg (D a b : α) (fuel : Nat) (h : 0 ≤ to_root D a b) :
    inflate D fuel a b = .ok (a, b) := by
  cases fuel <;> simp [inflate, not_lt.mpr h]

/-- C1: for landmarks `A = (xp1, yp1)`, `B = (xp2, yp2)` at distance `D > 0` and ranges `a`, `b`
with a non-negative discriminant, `calcPose` inflates nothing and each of its two candidate
points lies on the circle of radius `a` around `A` and on the circle of radius `b` around
`B`. -/
theorem calcPose_circle_intersection (m : CMath ℝ) (hsqrt : ∀ x, m.sqrt x = Real.sqrt x)
    (fuel : Nat) (xp1 yp1 xp2 yp2 a b : ℝ)
    (hD : 0 < poleDistance m xp1 yp1 xp2 yp2)
    (hdisc : 0 ≤ to_root (poleDistance m xp1 yp1 xp2 yp2) a b) :
    ∃ c : Candidates ℝ, intersect m fuel xp1 yp1 xp2 yp2 a b = .ok (a, b, c)
      ∧ (c.x1_circle - xp1) ^ 2 + (c.y1_circle - yp1) ^ 2 = a ^ 2
      ∧ (c.x1_circle - xp2) ^ 2 + (c.y1_circle - yp2) ^ 2 = b ^ 2
      ∧ (c.x2_circle - xp1) ^ 2 + (c.y2_circle - yp1) ^ 2 = a ^ 2
      ∧ (c.x2_circle - xp2) ^ 2 + (c.y2_circle - yp2) ^ 2 = b ^ 2 := by
  set D := poleDistance m xp1 yp1 xp2 yp2 with hDdef
  have hD0 : D ≠ 0 := ne_of_gt hD
  have hs0 : 0 ≤ (xp2 - xp1) * (xp2 - xp1) + (yp2 - yp1) * (yp2 - yp1) :=
    add_nonneg (mul_self_nonneg _) (mul_self_nonneg _)
  have hs : (xp2 - xp1) * (xp2 - xp1) + (yp2 - yp1) * (yp2 - yp1) = D * D := by
    rw [hDdef, poleDistance, hsqrt, Real.mul_self_sqrt hs0]
  have hr : Real.sqrt (to_root D a b) * Real.sqrt (to_root D a b) = to_root D a b :=
    Real.mul_self_sqrt hdisc
  have h1 := circle_algebra (xp2 - xp1) (yp2 - yp1) D _ a b hD0 hs hr 1 (by norm_num)
  have h2 := circle_algebra (xp2 - xp1) (yp2 - yp1) D _ a b hD0 hs hr (-1) (by norm_num)
  refine ⟨circlePoints m xp1 yp1 xp2 yp2 D a b (to_root D a b), ?_, ?_, ?_, ?_, ?_⟩
  · simp only [intersect, ← hDdef, inflate_of_nonneg D a b fuel hdisc]
    rw [if_neg (mul_ne_zero hD0 hD0)]
  · rw [← h1.1]; simp only [circlePoints, hsqrt]; ring
  · rw [← h1.2]; simp only [circlePoints, hsqrt]; ring
  · rw [← h2.1]; simp only [circlePoints, hsqrt]; ring
  · rw [← h2.2]; simp only [circlePoints, hsqrt]; ring

theorem poleDistance_example (m : CMath ℝ) (hsqrt : ∀ x, m.sqrt x = Real.sqrt x) :
    poleDistance m 0 0 10 0 = 10 := by
  rw [poleDistance, hsqrt, show ((10 : ℝ) - 0) * (10 - 0) + (0 - 0) * (0 - 0) = 10 ^ 2 by norm_num,
    Real.sqrt_sq (by norm_num)]

theorem to_root_example : to_root (10 : ℝ) (Real.sqrt 50) (Real.sqrt 50) = 100 ^ 2 := by
  have h50 : Real.sqrt 50 * Real.sqrt 50 = 50 := Real.mul_self_sqrt (by norm_num)
  have : to_root (10 : ℝ) (Real.sqrt 50) (Real.sqrt 50)
      = 100 * (4 * (Real.sqrt 50 * Real.sqrt 50) - 100) := by
    rw [to_root]; ring
  rw [this, h50]; norm_num

theorem intersect_example (m : CMath ℝ) (hsqrt : ∀ x, m.sqrt x = Real.sqrt x) (fuel : Nat) :
    intersect m fuel 0 0 10 0 (Real.sqrt 50) (Real.sqrt 50)
      = .ok (Real.sqrt 50, Real.sqrt 50,
          { x1_circle := 5, y1_circle := 5, x2_circle := 5, y2_circle := -5 }) := by
  have hT : (0 : ℝ) ≤ to_root 10 (Real.sqrt 50) (Real.sqrt 50) := by
    rw [to_root_example]; norm_num
  simp only [intersect, poleDistance_example m hsqrt, inflate_of_nonneg _ _ _ fuel hT]
  rw [if_neg (by norm_num)]
  simp only [circlePoints, hsqrt, to_root_example, Real.sqrt_sq (show (0 : ℝ) ≤ 100 by norm_num)]
  norm_num

/-- C1 at the input of the specification: `A = (0, 0)`, `B = (10, 0)`, `a = b = sqrt 50` give
the candidates `(5, 5)` and `(5, -5)`. -/
theorem calcPose_circle_intersection_witness :
    0 < poleDistance (CMath.mk Real.sqrt Real.cos Real.sin (fun y x => Complex.arg ⟨x, y⟩))
        0 0 10 0
    ∧ 0 ≤ to_root
        (poleDistance (CMath.mk Real.sqrt Real.cos Real.sin (fun y x => Complex.arg ⟨x, y⟩))
          0 0 10 0) (Real.sqrt 50) (Real.sqrt 50)
    ∧ (∃ c : Candidates ℝ,
        intersect (CMath.mk Real.sqrt Real.cos Real.sin (fun y x => Complex.arg ⟨x, y⟩))
            10000 0 0 10 0 (Real.sqrt 50) (Real.sqrt 50)
          = .ok (Real.sqrt 50, Real.sqrt 50, c)
        ∧ (c.x1_circle - 0) ^ 2 + (c.y1_circle - 0) ^ 2 = Real.sqrt 50 ^ 2
        ∧ (c.x1_circle - 10) ^ 2 + (c.y1_circle - 0) ^ 2 = Real.sqrt 50 ^ 2
        ∧ (c.x2_circle - 0) ^ 2 + (c.y2_circle - 0) ^ 2 = Real.sqrt 50 ^ 2
        ∧ (c.x2_circle - 10) ^ 2 + (c.y2_circle - 0) ^ 2 = Real.sqrt 50 ^ 2)
    ∧ intersect (CMath.mk Real.sqrt Real.cos Real.sin (fun y x => Complex.arg ⟨x, y⟩))
          10000 0 0 10 0 (Real.sqrt 50) (Real.sqrt 50)
        = .ok (Real.sqrt 50, Real.sqrt 50,
            { x1_circle := 5, y1_circle := 5, x2_circle := 5, y2_circle := -5 }) := by
  have hD : 0 < poleDistance
      (CMath.mk Real.sqrt Real.cos Real.sin (fun y x => Complex.arg ⟨x, y⟩)) 0 0 10 0 := by
    rw [poleDistance_example _ (fun _ => rfl)]; norm_num
  have hT : 0 ≤ to_root
      (poleDistance (CMath.mk Real.sqrt Real.cos Real.sin (fun y x => Complex.arg ⟨x, y⟩))
        0 0 10 0) (Real.sqrt 50) (Real.sqrt 50) := by
    rw [poleDistance_example _ (fun _ => rfl), to_root_example]; norm_num
  exact ⟨hD, hT,
    calcPose_circle_intersection _ (fun _ => rfl) 10000 0 0 10 0 _ _ hD hT,
    intersect_example _ (fun _ => rfl) 10000⟩

/-! ## The inflation loop of `calcPose` -/

theorem to_root_factor (D a b : α) :
    to_root D a b = ((a + b) ^ 2 - D ^ 2) * (D ^ 2 - (a - b) ^ 2) := by
  rw [to_root]; ring

theorem to_root_nonneg_of_reach (D a b : α) (hD : 0 < D) (hab : |a - b| ≤ D) (h : D ≤ a + b) :
    0 ≤ to_root D a b := by
  rw [to_root_factor]
  have h1 : D ^ 2 ≤ (a + b) ^ 2 := pow_le_pow_left₀ hD.le h 2
  have h2 : (a - b) ^ 2 ≤ D ^ 2 := by
    rw [← sq_abs (a - b)]
    exact pow_le_pow_left₀ (abs_nonneg _) hab 2
  exact mul_nonneg (sub_nonneg.mpr h1) (sub_nonneg.mpr h2)

theorem to_root_neg_of_nested (D a b : α) (hD : 0 < D) (hab : D < |a - b|)
    (h : |a - b| ≤ a + b) : to_root D a b < 0 := by
  rw [to_root_factor]
  have h2 : D ^ 2 < (a - b) ^ 2 := by
    rw [← sq_abs (a - b)]
    exact pow_lt_pow_left₀ hab hD.le (by norm_num)
  have h1 : D ^ 2 < (a + b) ^ 2 :=
    pow_lt_pow_left₀ (lt_of_lt_of_le hab h) hD.le (by norm_num)
  exact mul_neg_of_pos_of_neg (sub_pos.mpr h1) (sub_neg.mpr h2)

theorem to_root_neg_of_apart (D a b : α) (ha : 0 ≤ a) (hb : 0 ≤ b) (hab : |a - b| < D)
    (h : a + b < D) : to_root D a b < 0 := by
  rw [to_root_factor]
  have hD : 0 < D := lt_of_le_of_lt (abs_nonneg _) hab
  have h2 : (a - b) ^ 2 < D ^ 2 := by
    rw [← sq_abs (a - b)]
    exact pow_lt_pow_left₀ hab (abs_nonneg _) (by norm_num)
  have h1 : (a + b) ^ 2 < D ^ 2 :=
    pow_lt_pow_left₀ h (add_nonneg ha hb) (by norm_num)
  exact mul_neg_of_neg_of_pos (sub_neg.mpr h1) (sub_pos.mpr h2)

theorem inflate_reaches (D : α) (hD : 0 < D) :
    ∀ (n : Nat) (a b : α), |a - b| ≤ D → D ≤ a + b + 0.002 * (n : α) →
      ∃ r : α × α, inflate D n a b = .ok r ∧ 0 ≤ to_root D r.1 r.2 := by
  intro n
  induction n with
  | zero =>
    intro a b hab h
    have h0 : D ≤ a + b := by simpa using h
    have hT := to_root_nonneg_of_reach D a b hD hab h0
    exact ⟨(a, b), by simp [inflate, not_lt.mpr hT], hT⟩
  | succ n ih =>
    intro a b hab h
    by_cases hT : to_root D a b < 0
    · have hab2 : |(a + 0.001) - (b + 0.001)| ≤ D := by
        rw [show (a + 0.001) - (b + 0.001) = a - b by ring]; exact hab
      have h2 : D ≤ (a + 0.001) + (b + 0.001) + 0.002 * (n : α) := by
        have e : (a + 0.001) + (b + 0.001) + 0.002 * (n : α)
            = a + b + 0.002 * ((n + 1 : Nat) : α) := by
          push_cast; ring
        rw [e]; exact h
      obtain ⟨r, hr, hr2⟩ := ih _ _ hab2 h2
      exact ⟨r, by simp [inflate, hT, hr], hr2⟩
    · exact ⟨(a, b), by simp [inflate, hT], not_lt.mp hT⟩

theorem inflate_stuck (D : α) :
    ∀ (n : Nat) (a b : α),
      (∀ k : Nat, k ≤ n → to_root D (a + 0.001 * (k : α)) (b + 0.001 * (k : α)) < 0) →
      inflate D n a b = .error .fuel := by
  intro n
  induction n with
  | zero =>
    intro a b h
    have h0 := h 0 le_rfl
    simp only [Nat.cast_zero, mul_zero, add_zero] at h0
    simp [inflate, h0]
  | succ n ih =>
    intro a b h
    have h0 := h 0 (Nat.zero_le _)
    simp only [Nat.cast_zero, mul_zero, add_zero] at h0
    simp only [inflate, h0, if_true]
    apply ih
    intro k hk
    have := h (k + 1) (Nat.succ_le_succ hk)
    have e : ∀ x : α, x + 0.001 + 0.001 * (k : α) = x + 0.001 * ((k + 1 : Nat) : α) := by
      intro x; push_cast; ring
    rw [e, e]; exact this

theorem inflate_ok_steps (D : α) :
    ∀ (n : Nat) (a b : α) (r : α × α), inflate D n a b = .ok r →
      inflateSteps D n a b ≤ n
        ∧ r = (a + 0.001 * (inflateSteps D n a b : α), b + 0.001 * (inflateSteps D n a b : α)) := by
  intro n
  induction n with
  | zero =>
    intro a b r h
    by_cases hT : to_root D a b < 0
    · simp [inflate, hT] at h
    · simp only [inflate, hT, if_false, Except.ok.injEq] at h
      simp [inflateSteps, ← h]
  | succ n ih =>
    intro a b r h
    by_cases hT : to_root D a b < 0
    · simp only [inflate, hT, if_true] at h
      obtain ⟨h1, h2⟩ := ih _ _ r h
      simp only [inflateSteps, hT, if_true]
      refine ⟨Nat.succ_le_succ h1, ?_⟩
      rw [h2]; push_cast; ext <;> simp <;> ring
    · simp only [inflate, hT, if_false, Except.ok.injEq] at h
      simp [inflateSteps, hT, ← h]

/-- C2, as stated, fails twice. With `D = 100`, `a = b = 1` the circles are `98` apart and
`10000` steps of `0.001` on each range do not close the gap. With `D = 1`, `a = 10`, `b = 1`
one circle lies inside the other and no number of steps makes the discriminant non-negative. -/
theorem inflate_bound_counterexample :
    ((0 : ℝ) < 100 ∧ (100 : ℝ) ≤ 100 ∧ (0 : ℝ) < 1 ∧ (1 : ℝ) ≤ 100
        ∧ to_root (100 : ℝ) 1 1 < 0 ∧ inflate (100 : ℝ) 10000 1 1 = .error .fuel)
    ∧ ((0 : ℝ) < 1 ∧ (0 : ℝ) < 10 ∧ (10 : ℝ) ≤ 100 ∧ to_root (1 : ℝ) 10 1 < 0
        ∧ ∀ n : Nat, inflate (1 : ℝ) n 10 1 = .error .fuel) := by
  refine ⟨⟨by norm_num, by norm_num, by norm_num, by norm_num, by norm_num [to_root], ?_⟩,
    ⟨by norm_num, by norm_num, by norm_num, by norm_num [to_root], ?_⟩⟩
  · apply inflate_stuck
    intro k hk
    have hk2 : (k : ℝ) ≤ 10000 := by exact_mod_cast hk
    have hk0 : (0 : ℝ) ≤ (k : ℝ) := Nat.cast_nonneg k
    apply to_root_neg_of_apart
    · nlinarith
    · nlinarith
    · rw [show (1 : ℝ) + 0.001 * (k : ℝ) - (1 + 0.001 * (k : ℝ)) = 0 by ring]; norm_num
    · norm_num; nlinarith
  · intro n
    apply inflate_stuck
    intro k _
    have hk0 : (0 : ℝ) ≤ (k : ℝ) := Nat.cast_nonneg k
    apply to_root_neg_of_nested
    · norm_num
    · rw [show (10 : ℝ) + 0.001 * (k : ℝ) - (1 + 0.001 * (k : ℝ)) = 9 by ring]; norm_num
    · rw [show (10 : ℝ) + 0.001 * (k : ℝ) - (1 + 0.001 * (k : ℝ)) = 9 by ring]
      norm_num; nlinarith

/-- C2, amended: for `0 < D, a, b <= 100` with `|a - b| <= D` (neither circle inside the other)
and a negative discriminant, the inflation loop of `calcPose` stops after at most `50000` steps,
at ranges `a + 0.001 * k`, `b + 0.001 * k` with a non-negative discriminant. -/
theorem inflate_terminates_when_apart (D a b : ℝ) (hD : 0 < D) (hD2 : D ≤ 100)
    (ha : 0 < a) (_ha2 : a ≤ 100) (hb : 0 < b) (_hb2 : b ≤ 100) (hab : |a - b| ≤ D)
    (_hneg : to_root D a b < 0) :
    ∃ r : ℝ × ℝ, inflate D 50000 a b = .ok r ∧ 0 ≤ to_root D r.1 r.2
      ∧ inflateSteps D 50000 a b ≤ 50000
      ∧ r = (a + 0.001 * (inflateSteps D 50000 a b : ℝ),
          b + 0.001 * (inflateSteps D 50000 a b : ℝ)) := by
  obtain ⟨r, hr, hr2⟩ := inflate_reaches D hD 50000 a b hab (by push_cast; nlinarith)
  exact ⟨r, hr, hr2, (inflate_ok_steps D 50000 a b r hr).1, (inflate_ok_steps D 50000 a b r hr).2⟩

/-- C2 at a concrete input: `D = 10`, `a = b = 1`. -/
theorem inflate_terminates_when_apart_witness :
    to_root (10 : ℝ) 1 1 < 0
    ∧ ∃ r : ℝ × ℝ, inflate (10 : ℝ) 50000 1 1 = .ok r ∧ 0 ≤ to_root 10 r.1 r.2
      ∧ inflateSteps (10 : ℝ) 50000 1 1 ≤ 50000
      ∧ r = (1 + 0.001 * (inflateSteps (10 : ℝ) 50000 1 1 : ℝ),
          1 + 0.001 * (inflateSteps (10 : ℝ) 50000 1 1 : ℝ)) :=
  have h : to_root (10 : ℝ) 1 1 < 0 := by norm_num [to_root]
  ⟨h, inflate_terminates_when_apart 10 1 1 (by norm_num) (by norm_num) (by norm_num)
    (by norm_num) (by norm_num) (by norm_num) (by norm_num) h⟩

/-! ## The pairing loop of `GetPose` -/

theorem visibleAt_of_lt (poles : List (Pole α)) (oob : Pole α) (j : Nat) (h : j < poles.length) :
    visibleAt poles oob j = poles[j].visible := by
  simp [visibleAt, List.getD, List.getElem?_eq_getElem h]

theorem visiblePoles_drop_of_invisible (poles : List (Pole α)) (j : Nat) (h : j < poles.length)
    (hv : poles[j].visible = false) :
    visiblePoles (poles.drop j) = visiblePoles (poles.drop (j + 1)) := by
  unfold visiblePoles
  rw [List.drop_eq_getElem_cons h, List.filter_cons]
  simp only [hv, Bool.false_eq_true, if_false]

theorem visiblePoles_drop_of_visible (poles : List (Pole α)) (j : Nat) (h : j < poles.length)
    (hv : poles[j].visible = true) :
    visiblePoles (poles.drop j) = poles[j] :: visiblePoles (poles.drop (j + 1)) := by
  unfold visiblePoles
  rw [List.drop_eq_getElem_cons h, List.filter_cons]
  simp only [hv, if_true]

theorem skipInvisible_stop (poles : List (Pole α)) (oob : Pole α) (n j : Nat)
    (hc : ¬ ((!visibleAt poles oob j && decide (j < poles.length)) = true)) :
    skipInvisible poles oob n j = j := by
  cases n with
  | zero => rfl
  | succ n => simp [skipInvisible, hc]

theorem skipInvisible_spec (poles : List (Pole α)) (oob : Pole α) :
    ∀ (fuel j : Nat), poles.length ≤ fuel + j → j ≤ poles.length →
      j ≤ skipInvisible poles oob fuel j
      ∧ skipInvisible poles oob fuel j ≤ poles.length
      ∧ visiblePoles (poles.drop j) = visiblePoles (poles.drop (skipInvisible poles oob fuel j))
      ∧ (∀ h : skipInvisible poles oob fuel j < poles.length,
          poles[skipInvisible poles oob fuel j].visible = true) := by
  intro fuel
  induction fuel with
  | zero =>
    intro j h1 h2
    have e : skipInvisible poles oob 0 j = j := rfl
    refine ⟨by rw [e], by rw [e]; exact h2, by rw [e], ?_⟩
    intro h; rw [e] at h; omega
  | succ n ih =>
    intro j h1 h2
    by_cases hj : j < poles.length
    · by_cases hv : poles[j].visible = true
      · have hc : ¬ ((!visibleAt poles oob j && decide (j < poles.length)) = true) := by
          simp [visibleAt_of_lt poles oob j hj, hv]
        have e := skipInvisible_stop poles oob (n + 1) j hc
        refine ⟨by rw [e], by rw [e]; exact h2, by rw [e], ?_⟩
        intro _; simp only [e]; exact hv
      · have hv2 : poles[j].visible = false := by simpa using hv
        have hc : (!visibleAt poles oob j && decide (j < poles.length)) = true := by
          simp [visibleAt_of_lt poles oob j hj, hv2, hj]
        have e : skipInvisible poles oob (n + 1) j = skipInvisible poles oob n (j + 1) := by
          simp only [skipInvisible, hc, if_true]
        obtain ⟨a1, a2, a3, a4⟩ := ih (j + 1) (by omega) (by omega)
        refine ⟨by rw [e]; omega, by rw [e]; exact a2, ?_, ?_⟩
        · rw [e, visiblePoles_drop_of_invisible poles j hj hv2, a3]
        · intro h; simp only [e] at h ⊢; exact a4 h
    · have hc : ¬ ((!visibleAt poles oob j && decide (j < poles.length)) = true) := by
        simp [hj]
      have e := skipInvisible_stop poles oob (n + 1) j hc
      refine ⟨by rw [e], by rw [e]; exact h2, by rw [e], ?_⟩
      intro h; rw [e] at h; omega

theorem GetPoseLoop_eq_runPairs (calcP : Pole α → Pole α → Except Fault (Pose α Q))
    (poles : List (Pole α)) (oob : Pole α) :
    ∀ (n i : Nat) (pose_vector : List (Pose α Q)), poles.length ≤ n + i →
      GetPoseLoop calcP poles oob n i pose_vector
        = runPairs calcP (pairUp (visiblePoles (poles.drop i))) pose_vector := by
  intro n
  induction n with
  | zero =>
    intro i pv h
    have : poles.drop i = [] := List.drop_eq_nil_of_le (by omega)
    simp [GetPoseLoop, this, visiblePoles, pairUp, runPairs]
  | succ n ih =>
    intro i pv h
    by_cases hi : i < poles.length
    · by_cases hv : poles[i].visible = true
      · have hva : ¬ (visibleAt poles oob i = false) := by
          simp [visibleAt_of_lt poles oob i hi, hv]
        obtain ⟨s1, s2, s3, s4⟩ :=
          skipInvisible_spec poles oob poles.length (i + 1) (by omega) (by omega)
        rw [visiblePoles_drop_of_visible poles i hi hv, s3]
        by_cases hj : skipInvisible poles oob poles.length (i + 1) > poles.length - 1
        · have hd : poles.drop (skipInvisible poles oob poles.length (i + 1)) = [] :=
            List.drop_eq_nil_of_le (by omega)
          simp [GetPoseLoop, hi, hva, hj, hd, visiblePoles, pairUp, runPairs]
        · have hj2 : skipInvisible poles oob poles.length (i + 1) < poles.length := by omega
          rw [visiblePoles_drop_of_visible poles _ hj2 (s4 hj2)]
          simp only [GetPoseLoop, hi, hva, hj, dite_true, dite_false, if_false, pairUp, runPairs]
          cases hc : calcP poles[i] poles[skipInvisible poles oob poles.length (i + 1)] with
          | error e => rfl
          | ok est =>
            simp only []
            exact ih _ _ (by omega)
      · have hv2 : poles[i].visible = false := by simpa using hv
        have hva : visibleAt poles oob i = false := by
          simp [visibleAt_of_lt poles oob i hi, hv2]
        simp only [GetPoseLoop, hi, hva, dite_true, if_true]
        rw [visiblePoles_drop_of_invisible poles i hi hv2]
        exact ih _ _ (by omega)
    · have : poles.drop i = [] := List.drop_eq_nil_of_le (by omega)
      simp [GetPoseLoop, hi, this, visiblePoles, pairUp, runPairs]

/-! ## Pairs and means of `GetPose` -/

theorem runPairs_eq_mapM (calcP : Pole α → Pole α → Except Fault (Pose α Q)) :
    ∀ (l : List (Pole α × Pole α)) (pv : List (Pose α Q)),
      runPairs calcP l pv = (fun r => pv ++ r) <$> l.mapM (fun p => calcP p.1 p.2) := by
  intro l
  induction l with
  | nil =>
    intro pv
    rw [List.mapM_nil]
    simp [runPairs, Functor.map, Except.map, pure, Except.pure]
  | cons p rest ih =>
    intro pv
    obtain ⟨a, b⟩ := p
    rw [List.mapM_cons]
    simp only [runPairs]
    cases hc : calcP a b with
    | error e => rfl
    | ok est =>
      simp only [ih]
      cases hm : List.mapM (fun p => calcP p.1 p.2) rest with
      | error e => rfl
      | ok r => simp [hm, Functor.map, Except.map, bind, Except.bind, pure, Except.pure]

theorem runPairs_of_forall₂ (calcP : Pole α → Pole α → Except Fault (Pose α Q)) :
    ∀ (l : List (Pole α × Pole α)) (ests pv : List (Pose α Q)),
      List.Forall₂ (fun p e => calcP p.1 p.2 = .ok e) l ests →
      runPairs calcP l pv = .ok (pv ++ ests) := by
  intro l
  induction l with
  | nil => intro ests pv h; cases h; simp [runPairs]
  | cons p rest ih =>
    intro ests pv h
    obtain ⟨a, b⟩ := p
    cases h with
    | cons h1 h2 =>
      simp only at h1
      simp only [runPairs, h1]
      rw [ih _ _ h2]; simp

theorem pairUp_length {β : Type} : ∀ (n : Nat) (l : List β), l.length = n →
    (pairUp l).length = n / 2 := by
  intro n
  induction n using Nat.strong_induction_on with
  | _ n ih =>
    intro l hl
    match l, hl with
    | [], hl => simp at hl; subst hl; simp [pairUp]
    | [a], hl => simp at hl; subst hl; simp [pairUp]
    | a :: b :: rest, hl =>
      simp only [List.length_cons] at hl
      simp only [pairUp, List.length_cons]
      rw [ih rest.length (by omega) rest rfl]
      omega

theorem sumPoses_eq (t : Tf α Q) (l : List (Pose α Q)) :
    sumPoses t l = ((l.map (fun e => e.x)).sum, (l.map (fun e => e.y)).sum,
      (l.map (fun e => t.getYaw e.orientation)).sum) := by
  have key : ∀ (l : List (Pose α Q)) (acc : α × α × α),
      l.foldl (fun acc p => (acc.1 + p.x, acc.2.1 + p.y, acc.2.2 + t.getYaw p.orientation)) acc
        = (acc.1 + (l.map (fun e => e.x)).sum, acc.2.1 + (l.map (fun e => e.y)).sum,
            acc.2.2 + (l.map (fun e => t.getYaw e.orientation)).sum) := by
    intro l
    induction l with
    | nil => intro acc; simp
    | cons p rest ih => intro acc; simp [ih, add_assoc]
  rw [sumPoses, key]; simp

theorem arg_pos_real (x : ℝ) (h : 0 < x) : Complex.arg ⟨x, 0⟩ = 0 := by
  have : (⟨x, 0⟩ : ℂ) = ((x : ℝ) : ℂ) := by apply Complex.ext <;> simp
  rw [this, Complex.arg_ofReal_of_nonneg h.le]

theorem arg_neg_real (x : ℝ) (h : x < 0) : Complex.arg ⟨x, 0⟩ = Real.pi := by
  have : (⟨x, 0⟩ : ℂ) = ((x : ℝ) : ℂ) := by apply Complex.ext <;> simp
  rw [this, Complex.arg_ofReal_of_neg h]

theorem correctAngle_kPi (fuel : Nat) : correctAngle fuel (kPi : ℝ) = .ok kPi := by
  have h1 : correctAngleDown fuel (kPi : ℝ) = .ok kPi := by
    cases fuel <;> simp [correctAngleDown]
  have h2 : correctAngleUp fuel (kPi : ℝ) = .ok kPi := by
    have : ¬ ((kPi : ℝ) < -kPi) := by norm_num [kPi]
    cases fuel <;> simp [correctAngleUp, this]
  simp [correctAngle, h1, h2, bind, Except.bind]

theorem calcPose_example (m : CMath ℝ) (hsqrt : ∀ x, m.sqrt x = Real.sqrt x)
    (hatan2 : ∀ y x, m.atan2 y x = Complex.arg ⟨x, y⟩) (t : Tf ℝ Q) (fuel : Nat)
    (pose_ : PoseStamped ℝ Q) (hp : pose_.pose.x = -2000) (p1 p2 : Pole ℝ)
    (h1 : p1.xy_coords = ⟨0, 0⟩) (h2 : p2.xy_coords = ⟨10, 0⟩)
    (h3 : p1.laser_coords = ⟨5, 0⟩) (h4 : p2.laser_coords = ⟨5, Real.pi⟩) :
    calcPose m t fuel pose_ p1 p2
      = .ok { x := 5, y := 0, z := 0, orientation := t.createQuaternionMsgFromYaw kPi } := by
  have hD : poleDistance m 0 0 10 0 = 10 := poleDistance_example m hsqrt
  have hT : to_root (10 : ℝ) 5 5 = 0 := by norm_num [to_root]
  have hI : intersect m fuel 0 0 10 0 5 5
      = .ok (5, 5, { x1_circle := 5, y1_circle := 0, x2_circle := 5, y2_circle := 0 }) := by
    simp only [intersect, hD, inflate_of_nonneg (10 : ℝ) 5 5 fuel (by rw [hT])]
    rw [if_neg (by norm_num)]
    simp only [circlePoints, hsqrt, hT, Real.sqrt_zero]
    norm_num
  simp only [calcPose, h1, h2, h3, h4, hI, hp, hatan2]
  simp only [ne_eq, not_true_eq_false, if_false, sub_zero]
  rw [show ((5 : ℝ) - 10) = -5 by norm_num, arg_pos_real 5 (by norm_num),
    arg_neg_real (-5) (by norm_num)]
  simp only [add_zero, correctAngle_kPi]
  norm_num

theorem GetPoseWith_eq (calcP : Pole α → Pole α → Except Fault (Pose α Q)) (t : Tf α Q)
    (now : Nat) (oob : Pole α) (poles : List (Pole α)) :
    GetPoseWith calcP t now oob poles
      = match runPairs calcP (pairUp (visiblePoles poles)) [] with
        | .error e => .error e
        | .ok pose_vector => averagePose t now pose_vector := by
  rw [GetPoseWith, GetPoseLoop_eq_runPairs calcP poles oob poles.length 0 [] (by omega)]
  rfl

theorem pairUp_of_short {β : Type} (l : List β) (h : l.length < 2) : pairUp l = [] := by
  match l, h with
  | [], _ => rfl
  | [_], _ => rfl
  | _ :: _ :: _, h => simp only [List.length_cons] at h; omega

/-- C3: with fewer than two visible landmarks `GetPose` forms no pair and does not hold the
previous pose: lines 199-201 divide the zero sums by `pose_vector.size() = 0` and lines 202-205
store the quotients `0.0/0` in `pose_`, whatever it held before. -/
theorem GetPose_without_pair_divides_by_zero (m : CMath α) (t : Tf α Q) (fuel now : Nat)
    (oob : Pole α) (pose_ : PoseStamped α Q) (poles : List (Pole α))
    (h : (visiblePoles poles).length < 2) :
    GetPoseLoop (calcPose m t fuel pose_) poles oob poles.length 0 [] = .ok []
      ∧ GetPose m t fuel now oob pose_ poles = .error .nonFinite := by
  constructor
  · rw [GetPoseLoop_eq_runPairs _ poles oob poles.length 0 [] (by omega)]
    simp [pairUp_of_short _ h, runPairs]
  · rw [GetPose, GetPoseWith_eq]
    simp [pairUp_of_short _ h, runPairs, averagePose]

/-- C3 at a concrete input: one visible and one hidden landmark, previous pose `(1, 2)`. -/
theorem GetPose_without_pair_divides_by_zero_witness :
    (visiblePoles
        [ ({ xy_coords := ⟨0, 0⟩, laser_coords := ⟨5, 0⟩, time := 1, i := 0, visible := true } :
            Pole ℝ),
          { xy_coords := ⟨10, 0⟩, laser_coords := ⟨5, 3⟩, time := 0, i := 1,
            visible := false } ]).length < 2
    ∧ GetPoseLoop
        (calcPose (CMath.mk Real.sqrt Real.cos Real.sin (fun y x => Complex.arg ⟨x, y⟩)) yawTf 100
          { seq := 1, stamp := 0, frame_id := "fixed_frame"
            pose := { x := 1, y := 2, z := 0, orientation := 0 } })
        [ ({ xy_coords := ⟨0, 0⟩, laser_coords := ⟨5, 0⟩, time := 1, i := 0, visible := true } :
            Pole ℝ),
          { xy_coords := ⟨10, 0⟩, laser_coords := ⟨5, 3⟩, time := 0, i := 1, visible := false } ]
        { xy_coords := ⟨0, 0⟩, laser_coords := ⟨0, 0⟩, time := 0, i := 0, visible := false }
        2 0 [] = .ok []
    ∧ GetPose (CMath.mk Real.sqrt Real.cos Real.sin (fun y x => Complex.arg ⟨x, y⟩)) yawTf 100 1
        { xy_coords := ⟨0, 0⟩, laser_coords := ⟨0, 0⟩, time := 0, i := 0, visible := false }
        { seq := 1, stamp := 0, frame_id := "fixed_frame"
          pose := { x := 1, y := 2, z := 0, orientation := 0 } }
        [ ({ xy_coords := ⟨0, 0⟩, laser_coords := ⟨5, 0⟩, time := 1, i := 0, visible := true } :
            Pole ℝ),
          { xy_coords := ⟨10, 0⟩, laser_coords := ⟨5, 3⟩, time := 0, i := 1, visible := false } ]
      = .error .nonFinite :=
  have h : (visiblePoles
        [ ({ xy_coords := ⟨0, 0⟩, laser_coords := ⟨5, 0⟩, time := 1, i := 0, visible := true } :
            Pole ℝ),
          { xy_coords := ⟨10, 0⟩, laser_coords := ⟨5, 3⟩, time := 0, i := 1,
            visible := false } ]).length < 2 := by
    simp [visiblePoles]
  ⟨h, GetPose_without_pair_divides_by_zero _ _ _ _ _ _ _ h⟩

/-! ## The map frame of `ScanToXY` -/

theorem rotate_to_axis (u v : ℝ) :
    Real.cos (Complex.arg ⟨u, v⟩) * u + Real.sin (Complex.arg ⟨u, v⟩) * v
        = Real.sqrt (u ^ 2 + v ^ 2)
    ∧ -Real.sin (Complex.arg ⟨u, v⟩) * u + Real.cos (Complex.arg ⟨u, v⟩) * v = 0 := by
  have habs : Complex.abs ⟨u, v⟩ = Real.sqrt (u ^ 2 + v ^ 2) := by
    rw [Complex.abs_apply, Complex.normSq_mk]; congr 1; ring
  by_cases hz : (⟨u, v⟩ : ℂ) = 0
  · have hu : u = 0 := by simpa using congrArg Complex.re hz
    have hv : v = 0 := by simpa using congrArg Complex.im hz
    subst hu; subst hv
    simp
  · have hpos : 0 < Complex.abs ⟨u, v⟩ := Complex.abs.pos hz
    have hsq : Complex.abs ⟨u, v⟩ * Complex.abs ⟨u, v⟩ = u ^ 2 + v ^ 2 := by
      rw [habs]; exact Real.mul_self_sqrt (by positivity)
    rw [Complex.cos_arg hz, Complex.sin_arg]
    simp only []
    constructor
    · rw [← habs]
      field_simp
      linarith [hsq]
    · field_simp
      ring

/-- C5: for a list of at least two polar observations `ScanToXY` puts the first landmark at
`(0, 0)` and the second at `(d, 0)`, where `d >= 0` is the Euclidean distance between the
Cartesian points `(distance * cos angle, distance * sin angle)` of the first two
observations. -/
theorem ScanToXY_anchors_frame (m : CMath ℝ) (hcos : ∀ x, m.cos x = Real.cos x)
    (hsin : ∀ x, m.sin x = Real.sin x)
    (hatan2 : ∀ y x, m.atan2 y x = Complex.arg ⟨x, y⟩) (oob : xy_point ℝ)
    (scan : List (scan_point ℝ)) (h : 2 ≤ scan.length) :
    ∃ (s0 s1 : scan_point ℝ) (d : ℝ),
      scan[0]? = some s0 ∧ scan[1]? = some s1
      ∧ d = Real.sqrt ((s1.distance * Real.cos s1.angle - s0.distance * Real.cos s0.angle) ^ 2
            + (s1.distance * Real.sin s1.angle - s0.distance * Real.sin s0.angle) ^ 2)
      ∧ 0 ≤ d
      ∧ (ScanToXY m oob scan).length = scan.length
      ∧ (ScanToXY m oob scan)[0]? = some ⟨0, 0⟩
      ∧ (ScanToXY m oob scan)[1]? = some ⟨d, 0⟩ := by
  match scan, h with
  | s0 :: s1 :: rest, _ =>
    refine ⟨s0, s1, _, by simp, by simp, rfl, Real.sqrt_nonneg _, by simp [ScanToXY], ?_, ?_⟩
    · simp [ScanToXY]
    · obtain ⟨r1, r2⟩ := rotate_to_axis
        (s1.distance * Real.cos s1.angle - s0.distance * Real.cos s0.angle)
        (s1.distance * Real.sin s1.angle - s0.distance * Real.sin s0.angle)
      simp only [ScanToXY, List.map_cons, List.getD_cons_zero, List.getD_cons_succ, hcos, hsin,
        hatan2, List.getElem?_cons_succ, List.getElem?_cons_zero, Option.some.injEq]
      rw [r1, r2]

/-- C5 at a concrete input: the readings `(5, 0)` and `(5, pi)`. -/
theorem ScanToXY_anchors_frame_witness :
    2 ≤ ([⟨5, 0⟩, ⟨5, Real.pi⟩] : List (scan_point ℝ)).length
    ∧ ∃ (s0 s1 : scan_point ℝ) (d : ℝ),
      ([⟨5, 0⟩, ⟨5, Real.pi⟩] : List (scan_point ℝ))[0]? = some s0
      ∧ ([⟨5, 0⟩, ⟨5, Real.pi⟩] : List (scan_point ℝ))[1]? = some s1
      ∧ d = Real.sqrt ((s1.distance * Real.cos s1.angle - s0.distance * Real.cos s0.angle) ^ 2
            + (s1.distance * Real.sin s1.angle - s0.distance * Real.sin s0.angle) ^ 2)
      ∧ 0 ≤ d
      ∧ (ScanToXY (CMath.mk Real.sqrt Real.cos Real.sin (fun y x => Complex.arg ⟨x, y⟩)) ⟨0, 0⟩
          [⟨5, 0⟩, ⟨5, Real.pi⟩]).length = ([⟨5, 0⟩, ⟨5, Real.pi⟩] : List (scan_point ℝ)).length
      ∧ (ScanToXY (CMath.mk Real.sqrt Real.cos Real.sin (fun y x => Complex.arg ⟨x, y⟩)) ⟨0, 0⟩
          [⟨5, 0⟩, ⟨5, Real.pi⟩])[0]? = some ⟨0, 0⟩
      ∧ (ScanToXY (CMath.mk Real.sqrt Real.cos Real.sin (fun y x => Complex.arg ⟨x, y⟩)) ⟨0, 0⟩
          [⟨5, 0⟩, ⟨5, Real.pi⟩])[1]? = some ⟨d, 0⟩ :=
  ⟨by simp, ScanToXY_anchors_frame _ (fun _ => rfl) (fun _ => rfl) (fun _ _ => rfl) ⟨0, 0⟩
    [⟨5, 0⟩, ⟨5, Real.pi⟩] (by simp)⟩

/-! ## Nearest-neighbour association -/

theorem closestLoop_spec (m : CMath α) (scan : scan_point α) :
    ∀ (ps : List (Pole α)) (j : Nat) (min_dist : α) (index : Int),
      ((∀ p ∈ ps, ¬ current_dist m scan p.laser_coords < min_dist)
          ∧ closestLoop m scan ps j (min_dist, index) = (min_dist, index))
      ∨ ∃ k : Nat, NearestFirst m scan ps k
          ∧ (∃ hk : k < ps.length, current_dist m scan ps[k].laser_coords < min_dist
              ∧ closestLoop m scan ps j (min_dist, index)
                = (current_dist m scan ps[k].laser_coords, ((j + k : Nat) : Int))) := by
  intro ps
  induction ps with
  | nil =>
    intro j min_dist index
    left
    exact ⟨by simp, rfl⟩
  | cons p ps ih =>
    intro j min_dist index
    by_cases hlt : current_dist m scan p.laser_coords < min_dist
    · rcases ih (j + 1) (current_dist m scan p.laser_coords) (j : Int) with
        ⟨h1, h2⟩ | ⟨k, hN, hk, h3, h4⟩
      · right
        refine ⟨0, ⟨by simp, ?_, ?_⟩, by simp, by simpa using hlt, ?_⟩
        · intro l hl
          cases l with
          | zero => simp
          | succ l =>
            simp only [List.getElem_cons_zero, List.getElem_cons_succ]
            exact not_lt.mp (h1 _ (List.getElem_mem _))
        · intro l hl; omega
        · simp only [closestLoop, hlt, if_true, h2]
          simp
      · right
        obtain ⟨_, hN1, hN2⟩ := hN
        refine ⟨k + 1, ⟨by simp; omega, ?_, ?_⟩, by simp; omega, ?_, ?_⟩
        · intro l hl
          cases l with
          | zero => simpa using h3.le
          | succ l =>
            simp only [List.getElem_cons_succ]
            exact hN1 l (by simpa using hl)
        · intro l hl
          cases l with
          | zero => simpa using h3
          | succ l =>
            simp only [List.getElem_cons_succ]
            exact hN2 l (by omega)
        · simpa using lt_trans h3 hlt
        · simp only [closestLoop, hlt, if_true, h4, List.getElem_cons_succ]
          congr 2; omega
    · rcases ih (j + 1) min_dist index with ⟨h1, h2⟩ | ⟨k, hN, hk, h3, h4⟩
      · left
        refine ⟨?_, ?_⟩
        · intro q hq
          rcases List.mem_cons.mp hq with rfl | hq
          · exact hlt
          · exact h1 q hq
        · simp only [closestLoop, hlt, if_false, h2]
      · right
        obtain ⟨_, hN1, hN2⟩ := hN
        have hp : current_dist m scan ps[k].laser_coords < current_dist m scan p.laser_coords :=
          lt_of_lt_of_le h3 (not_lt.mp hlt)
        refine ⟨k + 1, ⟨by simp; omega, ?_, ?_⟩, by simp; omega, ?_, ?_⟩
        · intro l hl
          cases l with
          | zero => simpa using hp.le
          | succ l =>
            simp only [List.getElem_cons_succ]
            exact hN1 l (by simpa using hl)
        · intro l hl
          cases l with
          | zero => simpa using hp
          | succ l =>
            simp only [List.getElem_cons_succ]
            exact hN2 l (by omega)
        · simpa using h3
        · simp only [closestLoop, hlt, if_false, h4, List.getElem_cons_succ]
          congr 2; omega

theorem closestPole_spec (m : CMath α) (scan : scan_point α) (poles : List (Pole α))
    (hne : poles ≠ []) (hd : ∀ p ∈ poles, current_dist m scan p.laser_coords < 2000000) :
    ∃ k : Nat, closestPole m poles scan = (k : Int) ∧ NearestFirst m scan poles k := by
  rcases closestLoop_spec m scan poles 0 2000000 (-1) with ⟨h1, _⟩ | ⟨k, hN, hk, _, h4⟩
  · obtain ⟨p, hp⟩ := List.exists_mem_of_ne_nil poles hne
    exact absurd (hd p hp) (h1 p hp)
  · refine ⟨k, ?_, hN⟩
    rw [closestPole, h4]; simp

theorem mem_modify {β : Type} (f : β → β) : ∀ (l : List β) (n : Nat) (x : β),
    x ∈ l.modify f n → x ∈ l ∨ ∃ y ∈ l, x = f y := by
  intro l
  induction l with
  | nil => intro n x h; simp at h
  | cons a l ih =>
    intro n x h
    cases n with
    | zero =>
      simp only [List.modify_zero_cons, List.mem_cons] at h
      rcases h with rfl | h
      · right; exact ⟨a, by simp, rfl⟩
      · left; simp [h]
    | succ n =>
      simp only [List.modify_succ_cons, List.mem_cons] at h
      rcases h with rfl | h
      · left; simp
      · rcases ih n x h with h | ⟨y, hy, rfl⟩
        · left; simp [h]
        · right; exact ⟨y, by simp [hy], rfl⟩

/-- C6: on a non-empty landmark set, with all squared distances below `2000000`, the
association loop of `UpdatePoles` processes every observation, and each observation is written
to the landmark whose `last_observation`, as held when the observation is processed, is nearest
in squared Cartesian distance; among equally near landmarks the lowest index is taken. -/
theorem associate_nearest_neighbour (m : CMath α) (current_time : Nat) :
    ∀ (scans : List (scan_point α)) (poles : List (Pole α)), poles ≠ [] →
      (∀ s ∈ scans, ∀ p ∈ poles, current_dist m s p.laser_coords < 2000000) →
      (∀ s ∈ scans, ∀ s2 ∈ scans, current_dist m s s2 < 2000000) →
      (associateTrace m current_time scans poles).map (fun e => e.1) = scans
      ∧ (∀ e ∈ associateTrace m current_time scans poles,
          ∃ k : Nat, e.2.2 = (k : Int) ∧ NearestFirst m e.1 e.2.1 k)
      ∧ associate m current_time scans poles
          = .ok ((associateTrace m current_time scans poles).foldl
              (fun ps e => ps.modify (fun p => p.update e.1 current_time) e.2.2.toNat) poles) := by
  intro scans
  induction scans with
  | nil => intro poles _ _ _; simp [associateTrace, associate]
  | cons scan rest ih =>
    intro poles hne hp hs
    obtain ⟨k, hk, hN⟩ := closestPole_spec m scan poles hne (hp scan (by simp))
    have hk1 : ¬ ((k : Int) = -1) := by omega
    have hne2 : poles.modify (fun p => p.update scan current_time) k ≠ [] := by
      simpa using hne
    have hp2 : ∀ s ∈ rest, ∀ p ∈ poles.modify (fun p => p.update scan current_time) k,
        current_dist m s p.laser_coords < 2000000 := by
      intro s hsr p hpm
      rcases mem_modify _ poles k p hpm with h | ⟨y, _, rfl⟩
      · exact hp s (by simp [hsr]) p h
      · exact hs s (by simp [hsr]) scan (by simp)
    have hs2 : ∀ s ∈ rest, ∀ s2 ∈ rest, current_dist m s s2 < 2000000 := by
      intro s hsr s2 hs2; exact hs s (by simp [hsr]) s2 (by simp [hs2])
    obtain ⟨i1, i2, i3⟩ := ih _ hne2 hp2 hs2
    simp only [associateTrace, associate, hk, hk1, if_false, Int.toNat_ofNat, List.map_cons,
      List.foldl_cons]
    refine ⟨by rw [i1], ?_, i3⟩
    intro e he
    rcases List.mem_cons.mp he with rfl | he
    · exact ⟨k, rfl, hN⟩
    · exact i2 e he

/-- C6 at a concrete input: the readings `(5, 0)` and `(5, pi)` against `examplePoles`. -/
theorem associate_nearest_neighbour_witness :
    examplePoles Real.pi ≠ []
    ∧ (∀ s ∈ ([⟨5, 0⟩, ⟨5, Real.pi⟩] : List (scan_point ℝ)), ∀ p ∈ examplePoles Real.pi,
        current_dist (CMath.mk Real.sqrt Real.cos Real.sin (fun y x => Complex.arg ⟨x, y⟩)) s
          p.laser_coords < 2000000)
    ∧ (∀ s ∈ ([⟨5, 0⟩, ⟨5, Real.pi⟩] : List (scan_point ℝ)),
        ∀ s2 ∈ ([⟨5, 0⟩, ⟨5, Real.pi⟩] : List (scan_point ℝ)),
        current_dist (CMath.mk Real.sqrt Real.cos Real.sin (fun y x => Complex.arg ⟨x, y⟩)) s s2
          < 2000000)
    ∧ (associateTrace (CMath.mk Real.sqrt Real.cos Real.sin (fun y x => Complex.arg ⟨x, y⟩)) 1
          [⟨5, 0⟩, ⟨5, Real.pi⟩] (examplePoles Real.pi)).map (fun e => e.1)
        = [⟨5, 0⟩, ⟨5, Real.pi⟩] := by
  have h1 : examplePoles Real.pi ≠ [] := by simp [examplePoles]
  have h2 : ∀ s ∈ ([⟨5, 0⟩, ⟨5, Real.pi⟩] : List (scan_point ℝ)), ∀ p ∈ examplePoles Real.pi,
      current_dist (CMath.mk Real.sqrt Real.cos Real.sin (fun y x => Complex.arg ⟨x, y⟩)) s
        p.laser_coords < 2000000 := by
    simp [examplePoles, current_dist]; norm_num
  have h3 : ∀ s ∈ ([⟨5, 0⟩, ⟨5, Real.pi⟩] : List (scan_point ℝ)),
      ∀ s2 ∈ ([⟨5, 0⟩, ⟨5, Real.pi⟩] : List (scan_point ℝ)),
      current_dist (CMath.mk Real.sqrt Real.cos Real.sin (fun y x => Complex.arg ⟨x, y⟩)) s s2
        < 2000000 := by
    simp [current_dist]; norm_num
  exact ⟨h1, h2, h3, (associate_nearest_neighbour _ 1 _ _ h1 h2 h3).1⟩

/-! ## Visibility after tracking -/

theorem closestPole_cases (m : CMath α) (scan : scan_point α) (poles : List (Pole α)) :
    closestPole m poles scan = -1
      ∨ ∃ k : Nat, k < poles.length ∧ closestPole m poles scan = (k : Int) := by
  rcases closestLoop_spec m scan poles 0 2000000 (-1) with ⟨_, h2⟩ | ⟨k, _, hk, _, h4⟩
  · left; rw [closestPole, h2]
  · right; exact ⟨k, hk, by rw [closestPole, h4]; simp⟩

theorem associate_effect (m : CMath α) (current_time : Nat) :
    ∀ (scans : List (scan_point α)) (poles final : List (Pole α)),
      associate m current_time scans poles = .ok final →
      final.length = poles.length
      ∧ ∀ (k : Nat) (hk : k < poles.length) (hk2 : k < final.length),
          if (k : Int) ∈ (associateTrace m current_time scans poles).map (fun e => e.2.2) then
            final[k].time = current_time ∧ final[k].visible = true
          else final[k] = poles[k] := by
  intro scans
  induction scans with
  | nil =>
    intro poles final h
    simp only [associate, Except.ok.injEq] at h
    subst h
    simp [associateTrace]
  | cons scan rest ih =>
    intro poles final h
    rcases closestPole_cases m scan poles with hc | ⟨j, hj, hc⟩
    · simp [associate, hc] at h
    · have hj1 : ¬ ((j : Int) = -1) := by omega
      simp only [associate, hc, hj1, if_false, Int.toNat_ofNat] at h
      obtain ⟨i1, i2⟩ := ih _ _ h
      rw [List.length_modify] at i1
      refine ⟨i1, ?_⟩
      intro k hk hk2
      have hk3 : k < (poles.modify (fun p => p.update scan current_time) j).length := by
        rw [List.length_modify]; exact hk
      have := i2 k hk3 hk2
      simp only [associateTrace, hc, hj1, if_false, Int.toNat_ofNat, List.map_cons,
        List.mem_cons]
      by_cases hin : (k : Int) ∈ (associateTrace m current_time rest
          (poles.modify (fun p => p.update scan current_time) j)).map (fun e => e.2.2)
      · rw [if_pos hin] at this
        rw [if_pos (Or.inr hin)]; exact this
      · rw [if_neg hin] at this
        by_cases hkj : k = j
        · subst hkj
          rw [if_pos (Or.inl rfl), this, List.getElem_modify_eq]
          simp [Pole.update]
        · have hkj2 : ¬ ((k : Int) = (j : Int)) := by omega
          rw [if_neg (by simp [hkj2, hin]), this,
            List.getElem_modify_ne _ _ (fun h => hkj h.symm)]

theorem track_effect (m : CMath α) (current_time : Nat) (scans : List (scan_point α))
    (poles poles2 : List (Pole α)) (h : track m current_time scans poles = .ok poles2) :
    poles2.length = poles.length
    ∧ ∀ (k : Nat) (hk : k < poles.length) (hk2 : k < poles2.length),
        (poles2[k].visible = true ↔
          ((k : Int) ∈ (associateTrace m current_time scans poles).map (fun e => e.2.2)
            ∨ (poles[k].visible = true ∧ poles[k].time = current_time))) := by
  cases ha : associate m current_time scans poles with
  | error e => simp [track, ha] at h
  | ok final =>
    simp only [track, ha, Except.ok.injEq] at h
    obtain ⟨i1, i2⟩ := associate_effect m current_time scans poles final ha
    subst h
    refine ⟨by simp [hideMissing, i1], ?_⟩
    intro k hk hk2
    have hk3 : k < final.length := by rw [i1]; exact hk
    have := i2 k hk hk3
    simp only [hideMissing, List.getElem_map]
    by_cases hin : (k : Int) ∈ (associateTrace m current_time scans poles).map (fun e => e.2.2)
    · rw [if_pos hin] at this
      simp [this.1, this.2, hin]
    · rw [if_neg hin] at this
      rw [this]
      by_cases ht : poles[k].time = current_time
      · simp [ht, hin]
      · simp [ht, hin, Pole.disappear]

/-- C7, as stated, fails: a landmark that is visible and whose `last_seen_at` equals the
current timestamp stays visible through a cycle that assigns no observation to it. -/
theorem track_visibility_counterexample :
    track (CMath.mk Real.sqrt Real.cos Real.sin (fun y x => Complex.arg ⟨x, y⟩)) 3 []
        [{ xy_coords := ⟨0, 0⟩, laser_coords := ⟨5, 0⟩, time := 3, i := 0, visible := true }]
      = .ok [{ xy_coords := ⟨0, 0⟩, laser_coords := ⟨5, 0⟩, time := 3, i := 0, visible := true }]
    ∧ associateTrace (CMath.mk Real.sqrt Real.cos Real.sin (fun y x => Complex.arg ⟨x, y⟩)) 3 []
        [{ xy_coords := ⟨0, 0⟩, laser_coords := ⟨5, 0⟩, time := 3, i := 0, visible := true }]
      = [] := by
  simp [track, associate, hideMissing, associateTrace]

/-- C7, amended: when the current timestamp differs from the `last_seen_at` of every landmark,
after the tracking step of `UpdatePoles` a landmark is visible if and only if at least one
observation of this cycle was assigned to it. -/
theorem track_visibility (m : CMath α) (current_time : Nat) (scans : List (scan_point α))
    (poles poles2 : List (Pole α)) (h : track m current_time scans poles = .ok poles2)
    (hfresh : ∀ p ∈ poles, p.time ≠ current_time) :
    poles2.length = poles.length
    ∧ ∀ (k : Nat) (hk2 : k < poles2.length),
        (poles2[k].visible = true ↔
          (k : Int) ∈ (associateTrace m current_time scans poles).map (fun e => e.2.2)) := by
  obtain ⟨i1, i2⟩ := track_effect m current_time scans poles poles2 h
  refine ⟨i1, ?_⟩
  intro k hk2
  have hk : k < poles.length := by rw [← i1]; exact hk2
  rw [i2 k hk hk2]
  have := hfresh poles[k] (List.getElem_mem _)
  simp [this]

/-! ## A localization cycle on the example data -/

theorem closestPole_example_first (m : CMath ℝ) (hcos : ∀ x, m.cos x = Real.cos x)
    (hsin : ∀ x, m.sin x = Real.sin x) :
    closestPole m (examplePoles Real.pi) ⟨5, 0⟩ = 0 := by
  simp [closestPole, closestLoop, examplePoles, current_dist, hcos, hsin]
  norm_num

theorem closestPole_example_second (m : CMath ℝ) (hcos : ∀ x, m.cos x = Real.cos x)
    (hsin : ∀ x, m.sin x = Real.sin x) (ct : Nat) :
    closestPole m
      [ { xy_coords := ⟨0, 0⟩, laser_coords := ⟨5, 0⟩, time := ct, i := 0, visible := true },
        { xy_coords := ⟨10, 0⟩, laser_coords := ⟨5, Real.pi⟩, time := 0, i := 1, visible := true },
        { xy_coords := ⟨-10, 0⟩, laser_coords := ⟨15, 0⟩, time := 0, i := 2, visible := true } ]
      ⟨5, Real.pi⟩ = 1 := by
  simp [closestPole, closestLoop, current_dist, hcos, hsin]
  norm_num

/-- The landmarks of `examplePoles` after the readings `(5, 0)` and `(5, pi)` at time `1`. -/
theorem track_example (m : CMath ℝ) (hcos : ∀ x, m.cos x = Real.cos x)
    (hsin : ∀ x, m.sin x = Real.sin x) :
    track m 1 [⟨5, 0⟩, ⟨5, Real.pi⟩] (examplePoles Real.pi)
      = .ok [ { xy_coords := ⟨0, 0⟩, laser_coords := ⟨5, 0⟩, time := 1, i := 0, visible := true },
              { xy_coords := ⟨10, 0⟩, laser_coords := ⟨5, Real.pi⟩, time := 1, i := 1,
                visible := true },
              { xy_coords := ⟨-10, 0⟩, laser_coords := ⟨15, 0⟩, time := 0, i := 2,
                visible := false } ] := by
  simp only [track, associate, closestPole_example_first m hcos hsin]
  simp [examplePoles, hideMissing, Pole.update, Pole.disappear,
    closestPole_example_second m hcos hsin 1]

theorem CorrectAngle_of_mem (fuel : Nat) (x : α) (h1 : ¬ x > kPi) (h2 : ¬ x < -kPi) :
    CorrectAngle fuel x = .ok x := by
  have e1 : correctAngleDown fuel x = .ok x := by
    cases fuel <;> simp [correctAngleDown, h1]
  have e2 : correctAngleUp fuel x = .ok x := by
    cases fuel <;> simp [correctAngleUp, h2]
  simp [CorrectAngle, e1, e2, bind, Except.bind]

/-- The pose computed by `GetPose` from the tracked `examplePoles`. -/
theorem GetPose_example (m : CMath ℝ) (hsqrt : ∀ x, m.sqrt x = Real.sqrt x)
    (hatan2 : ∀ y x, m.atan2 y x = Complex.arg ⟨x, y⟩) (fuel now : Nat) (oob : Pole ℝ) :
    GetPose m yawTf fuel now oob initialPose
        [ { xy_coords := ⟨0, 0⟩, laser_coords := ⟨5, 0⟩, time := 1, i := 0, visible := true },
          { xy_coords := ⟨10, 0⟩, laser_coords := ⟨5, Real.pi⟩, time := 1, i := 1,
            visible := true },
          { xy_coords := ⟨-10, 0⟩, laser_coords := ⟨15, 0⟩, time := 0, i := 2,
            visible := false } ]
      = .ok { seq := 1, stamp := now, frame_id := "fixed_frame"
              pose := { x := 5, y := 0, z := 0, orientation := kPi } } := by
  rw [GetPose, GetPoseWith_eq]
  simp only [visiblePoles, List.filter_cons, if_true, Bool.false_eq_true, if_false,
    List.filter_nil, pairUp, runPairs]
  rw [calcPose_example m hsqrt hatan2 yawTf fuel initialPose rfl _ _ rfl rfl rfl rfl]
  simp [averagePose, sumPoses, yawTf]

/-- The landmarks after `EstimateIniviblePoles` at the pose of `GetPose_example`. -/
theorem EstimateIniviblePoles_example (m : CMath ℝ) (hsqrt : ∀ x, m.sqrt x = Real.sqrt x)
    (hatan2 : ∀ y x, m.atan2 y x = Complex.arg ⟨x, y⟩) (fuel now : Nat) :
    EstimateIniviblePoles m yawTf fuel
        { seq := 1, stamp := now, frame_id := "fixed_frame"
          pose := { x := 5, y := 0, z := 0, orientation := kPi } }
        [ { xy_coords := ⟨0, 0⟩, laser_coords := ⟨5, 0⟩, time := 1, i := 0, visible := true },
          { xy_coords := ⟨10, 0⟩, laser_coords := ⟨5, Real.pi⟩, time := 1, i := 1,
            visible := true },
          { xy_coords := ⟨-10, 0⟩, laser_coords := ⟨15, 0⟩, time := 0, i := 2,
            visible := false } ]
      = .ok [ { xy_coords := ⟨0, 0⟩, laser_coords := ⟨5, 0⟩, time := 1, i := 0, visible := true },
              { xy_coords := ⟨10, 0⟩, laser_coords := ⟨5, Real.pi⟩, time := 1, i := 1,
                visible := true },
              { xy_coords := ⟨-10, 0⟩, laser_coords := ⟨15, 3.1415927 - kPi⟩, time := 0, i := 2,
                visible := false } ] := by
  have hs : Real.sqrt ((5 - (-10 : ℝ)) ^ 2 + (0 - 0) ^ 2) = 15 := by
    rw [show ((5 - (-10 : ℝ)) ^ 2 + (0 - 0) ^ 2) = 15 ^ 2 by norm_num,
      Real.sqrt_sq (by norm_num)]
  have ha : Complex.arg ⟨5 - (-10 : ℝ), 0 - 0⟩ = 0 := by
    rw [show (5 - (-10 : ℝ)) = 15 by norm_num, sub_zero]
    exact arg_pos_real 15 (by norm_num)
  have hc : CorrectAngle fuel ((0 : ℝ) + 3.1415927 - kPi) = .ok (0 + 3.1415927 - kPi) :=
    CorrectAngle_of_mem fuel _ (by norm_num [kPi]) (by norm_num [kPi])
  simp only [EstimateIniviblePoles, estimatePole, if_true, Bool.true_eq_false, if_false,
    hatan2, hsqrt, yawTf, hs, ha, hc, Pole.update1]
  simp

/-- One localization cycle from the constructor state over `examplePoles`. -/
theorem UpdatePoles_example (m : CMath ℝ) (hsqrt : ∀ x, m.sqrt x = Real.sqrt x)
    (hcos : ∀ x, m.cos x = Real.cos x) (hsin : ∀ x, m.sin x = Real.sin x)
    (hatan2 : ∀ y x, m.atan2 y x = Complex.arg ⟨x, y⟩) (fuel now : Nat) (oob : Pole ℝ) :
    UpdatePoles m yawTf fuel 1 now oob
        { poles_ := examplePoles Real.pi, pose_ := initialPose, initiation_ := false }
        [⟨5, 0⟩, ⟨5, Real.pi⟩]
      = .ok { poles_ :=
                [ { xy_coords := ⟨0, 0⟩, laser_coords := ⟨5, 0⟩, time := 1, i := 0,
                    visible := true },
                  { xy_coords := ⟨10, 0⟩, laser_coords := ⟨5, Real.pi⟩, time := 1, i := 1,
                    visible := true },
                  { xy_coords := ⟨-10, 0⟩, laser_coords := ⟨15, 3.1415927 - kPi⟩, time := 0,
                    i := 2, visible := false } ]
              pose_ := { seq := 1, stamp := now, frame_id := "fixed_frame"
                         pose := { x := 5, y := 0, z := 0, orientation := kPi } }
              initiation_ := false } := by
  simp only [UpdatePoles, track_example m hcos hsin, GetPose_example m hsqrt hatan2,
    EstimateIniviblePoles_example m hsqrt hatan2]

/-- C7 at a concrete input: `examplePoles`, last seen at time `0`, tracked at time `1`. -/
theorem track_visibility_witness :
    track (CMath.mk Real.sqrt Real.cos Real.sin (fun y x => Complex.arg ⟨x, y⟩)) 1
        [⟨5, 0⟩, ⟨5, Real.pi⟩] (examplePoles Real.pi)
      = .ok [ { xy_coords := ⟨0, 0⟩, laser_coords := ⟨5, 0⟩, time := 1, i := 0, visible := true },
              { xy_coords := ⟨10, 0⟩, laser_coords := ⟨5, Real.pi⟩, time := 1, i := 1,
                visible := true },
              { xy_coords := ⟨-10, 0⟩, laser_coords := ⟨15, 0⟩, time := 0, i := 2,
                visible := false } ]
    ∧ (∀ p ∈ examplePoles Real.pi, p.time ≠ 1)
    ∧ ∀ (k : Nat) (hk2 : k < 3),
        (([ { xy_coords := ⟨0, 0⟩, laser_coords := ⟨5, 0⟩, time := 1, i := 0, visible := true },
            { xy_coords := ⟨10, 0⟩, laser_coords := ⟨5, Real.pi⟩, time := 1, i := 1,
              visible := true },
            { xy_coords := ⟨-10, 0⟩, laser_coords := ⟨15, 0⟩, time := 0, i := 2,
              visible := false } ] : List (Pole ℝ))[k].visible = true ↔
          (k : Int) ∈ (associateTrace
            (CMath.mk Real.sqrt Real.cos Real.sin (fun y x => Complex.arg ⟨x, y⟩)) 1
            [⟨5, 0⟩, ⟨5, Real.pi⟩] (examplePoles Real.pi)).map (fun e => e.2.2)) :=
  have h := track_example (CMath.mk Real.sqrt Real.cos Real.sin (fun y x => Complex.arg ⟨x, y⟩))
    (fun _ => rfl) (fun _ => rfl)
  have hf : ∀ p ∈ examplePoles Real.pi, p.time ≠ 1 := by simp [examplePoles]
  ⟨h, hf, (track_visibility _ 1 _ _ _ h hf).2⟩

/-! ## The map is never changed -/

theorem landmarkMap_modify_update (scan : scan_point α) (ct : Nat) :
    ∀ (poles : List (Pole α)) (k : Nat),
      landmarkMap (poles.modify (fun p => p.update scan ct) k) = landmarkMap poles := by
  intro poles
  induction poles with
  | nil => intro k; simp
  | cons p ps ih =>
    intro k
    cases k with
    | zero => simp [landmarkMap, Pole.update]
    | succ k =>
      have := ih k
      simp only [landmarkMap] at this
      simp [landmarkMap, this]

theorem landmarkMap_associate (m : CMath α) (ct : Nat) :
    ∀ (scans : List (scan_point α)) (poles final : List (Pole α)),
      associate m ct scans poles = .ok final → landmarkMap final = landmarkMap poles := by
  intro scans
  induction scans with
  | nil =>
    intro poles final h
    simp only [associate, Except.ok.injEq] at h
    rw [h]
  | cons scan rest ih =>
    intro poles final h
    by_cases hc : closestPole m poles scan = -1
    · simp [associate, hc] at h
    · simp only [associate, hc, if_false] at h
      rw [ih _ _ h, landmarkMap_modify_update]

theorem landmarkMap_hideMissing (ct : Nat) (poles : List (Pole α)) :
    landmarkMap (hideMissing ct poles) = landmarkMap poles := by
  simp only [landmarkMap, hideMissing, List.map_map]
  apply List.map_congr_left
  intro p _
  by_cases h : p.time = ct <;> simp [h, Pole.disappear]

theorem landmarkMap_track (m : CMath α) (ct : Nat) (scans : List (scan_point α))
    (poles poles2 : List (Pole α)) (h : track m ct scans poles = .ok poles2) :
    landmarkMap poles2 = landmarkMap poles := by
  cases ha : associate m ct scans poles with
  | error e => simp [track, ha] at h
  | ok final =>
    simp only [track, ha, Except.ok.injEq] at h
    rw [← h, landmarkMap_hideMissing, landmarkMap_associate m ct scans poles final ha]

theorem EstimateIniviblePoles_forall₂ (m : CMath α) (t : Tf α Q) (fuel : Nat)
    (pose_ : PoseStamped α Q) :
    ∀ (poles ps : List (Pole α)), EstimateIniviblePoles m t fuel pose_ poles = .ok ps →
      List.Forall₂ (fun p q => estimatePole m t fuel pose_ p = .ok q) poles ps := by
  intro poles
  induction poles with
  | nil =>
    intro ps h
    simp only [EstimateIniviblePoles, Except.ok.injEq] at h
    subst h; exact List.Forall₂.nil
  | cons p rest ih =>
    intro ps h
    simp only [EstimateIniviblePoles] at h
    cases h1 : estimatePole m t fuel pose_ p with
    | error e => simp [h1] at h
    | ok p2 =>
      cases h2 : EstimateIniviblePoles m t fuel pose_ rest with
      | error e => simp [h1, h2] at h
      | ok ps2 =>
        simp only [h1, h2, Except.ok.injEq] at h
        subst h
        exact List.Forall₂.cons h1 (ih _ h2)

theorem estimatePole_map (m : CMath α) (t : Tf α Q) (fuel : Nat) (pose_ : PoseStamped α Q)
    (p q : Pole α) (h : estimatePole m t fuel pose_ p = .ok q) :
    q.i = p.i ∧ q.xy_coords = p.xy_coords ∧ q.visible = p.visible ∧ q.time = p.time := by
  unfold estimatePole at h
  by_cases hv : p.visible = false
  · simp only [hv, if_true] at h
    split at h
    · simp at h
    · simp only [Except.ok.injEq] at h
      subst h
      simp [Pole.update1, hv]
  · have hv2 : p.visible = true := by simpa using hv
    simp only [hv2, Bool.true_eq_false, if_false, Except.ok.injEq] at h
    subst h; simp

theorem landmarkMap_EstimateIniviblePoles (m : CMath α) (t : Tf α Q) (fuel : Nat)
    (pose_ : PoseStamped α Q) (poles ps : List (Pole α))
    (h : EstimateIniviblePoles m t fuel pose_ poles = .ok ps) :
    landmarkMap ps = landmarkMap poles := by
  have hf := EstimateIniviblePoles_forall₂ m t fuel pose_ poles ps h
  clear h
  induction hf with
  | nil => rfl
  | cons h1 _ ih =>
    obtain ⟨e1, e2, _, _⟩ := estimatePole_map m t fuel pose_ _ _ h1
    simp only [landmarkMap, List.map_cons, e1, e2] at ih ⊢
    rw [ih]

/-! ## Re-association of an occlusion estimate -/

theorem current_dist_self (m : CMath α) (s : scan_point α) : current_dist m s s = 0 := by
  simp [current_dist]

theorem current_dist_nonneg (m : CMath α) (s c : scan_point α) : 0 ≤ current_dist m s c := by
  unfold current_dist; positivity

theorem closestPole_of_own_reading (m : CMath α) (ps : List (Pole α)) (k : Nat)
    (obs : scan_point α) (hobs : ps[k]?.map (fun p => p.laser_coords) = some obs)
    (hlow : ∀ l < k, ∀ pl : Pole α, ps[l]? = some pl → 0 < current_dist m obs pl.laser_coords) :
    closestPole m ps obs = (k : Int) := by
  have hk : k < ps.length := by
    by_contra hc
    rw [List.getElem?_eq_none (by omega)] at hobs
    simp at hobs
  have hobs2 : ps[k].laser_coords = obs := by
    rw [List.getElem?_eq_getElem hk] at hobs
    simpa using hobs
  rcases closestLoop_spec m obs ps 0 2000000 (-1) with ⟨h1, _⟩ | ⟨k2, hN, hk2, _, h4⟩
  · exfalso
    apply h1 ps[k] (List.getElem_mem _)
    rw [hobs2, current_dist_self]; norm_num
  · obtain ⟨_, hN1, hN2⟩ := hN
    have hz : current_dist m obs ps[k2].laser_coords ≤ 0 := by
      have := hN1 k hk
      rwa [hobs2, current_dist_self] at this
    have hkk : k2 = k := by
      rcases lt_trichotomy k2 k with hlt | heq | hgt
      · exact absurd (hlow k2 hlt ps[k2] (List.getElem?_eq_getElem hk2)) (not_lt.mpr hz)
      · exact heq
      · have := hN2 k hgt
        rw [hobs2, current_dist_self] at this
        exact absurd this (not_lt.mpr (current_dist_nonneg m obs _))
    rw [closestPole, h4]; simp [hkk]

theorem closestPole_far_reading (θ : ℝ) (hc : 0 < Real.cos θ) :
    closestPole (CMath.mk Real.sqrt Real.cos Real.sin (fun y x => Complex.arg ⟨x, y⟩))
      [ { xy_coords := ⟨0, 0⟩, laser_coords := ⟨5, 0⟩, time := 1, i := 0, visible := true },
        { xy_coords := ⟨10, 0⟩, laser_coords := ⟨5, Real.pi⟩, time := 1, i := 1, visible := true },
        { xy_coords := ⟨-10, 0⟩, laser_coords := ⟨15, θ⟩, time := 0, i := 2, visible := false } ]
      ⟨40, θ⟩ = 2 := by
  have h1 := Real.cos_le_one θ
  have h2 := Real.sin_sq_add_cos_sq θ
  have a1 : (40 * Real.cos θ - 5 * 1) ^ 2 + (40 * Real.sin θ - 5 * 0) ^ 2 < 2000000 := by
    nlinarith
  have a2 : ¬ ((40 * Real.cos θ - 5 * -1) ^ 2 + (40 * Real.sin θ - 5 * 0) ^ 2
      < (40 * Real.cos θ - 5 * 1) ^ 2 + (40 * Real.sin θ - 5 * 0) ^ 2) := by
    rw [not_lt]; nlinarith
  have a3 : (40 * Real.cos θ - 15 * Real.cos θ) ^ 2 + (40 * Real.sin θ - 15 * Real.sin θ) ^ 2
      < (40 * Real.cos θ - 5 * 1) ^ 2 + (40 * Real.sin θ - 5 * 0) ^ 2 := by
    nlinarith
  simp only [closestPole, closestLoop, current_dist, Real.cos_zero, Real.sin_zero, Real.cos_pi,
    Real.sin_pi]
  rw [if_pos a1, if_neg a2, if_pos a3]
  norm_num

theorem closestPole_after_far_reading (θ : ℝ) (hc : 0 < Real.cos θ) (ct : Nat) :
    closestPole (CMath.mk Real.sqrt Real.cos Real.sin (fun y x => Complex.arg ⟨x, y⟩))
      [ { xy_coords := ⟨0, 0⟩, laser_coords := ⟨5, 0⟩, time := 1, i := 0, visible := true },
        { xy_coords := ⟨10, 0⟩, laser_coords := ⟨5, Real.pi⟩, time := 1, i := 1, visible := true },
        { xy_coords := ⟨-10, 0⟩, laser_coords := ⟨40, θ⟩, time := ct, i := 2, visible := true } ]
      ⟨15, θ⟩ = 0 := by
  have h1 := Real.cos_le_one θ
  have h2 := Real.sin_sq_add_cos_sq θ
  have a1 : (15 * Real.cos θ - 5 * 1) ^ 2 + (15 * Real.sin θ - 5 * 0) ^ 2 < 2000000 := by
    nlinarith
  have a2 : ¬ ((15 * Real.cos θ - 5 * -1) ^ 2 + (15 * Real.sin θ - 5 * 0) ^ 2
      < (15 * Real.cos θ - 5 * 1) ^ 2 + (15 * Real.sin θ - 5 * 0) ^ 2) := by
    rw [not_lt]; nlinarith
  have a3 : ¬ ((15 * Real.cos θ - 40 * Real.cos θ) ^ 2 + (15 * Real.sin θ - 40 * Real.sin θ) ^ 2
      < (15 * Real.cos θ - 5 * 1) ^ 2 + (15 * Real.sin θ - 5 * 0) ^ 2) := by
    rw [not_lt]; nlinarith
  simp only [closestPole, closestLoop, current_dist, Real.cos_zero, Real.sin_zero, Real.cos_pi,
    Real.sin_pi]
  rw [if_pos a1, if_neg a2, if_neg a3]
  norm_num

theorem cos_estimate_pos : 0 < Real.cos ((3.1415927 : ℝ) - kPi) := by
  apply Real.cos_pos_of_mem_Ioo
  have := Real.pi_gt_three
  constructor <;> norm_num [kPi] <;> linarith

theorem current_dist_comm (m : CMath α) (s c : scan_point α) :
    current_dist m s c = current_dist m c s := by
  unfold current_dist; ring

theorem current_dist_of_same_point (m : CMath α) (s r : scan_point α)
    (h : current_dist m s r = 0) (c : scan_point α) :
    current_dist m r c = current_dist m s c := by
  unfold current_dist at h ⊢
  have hx : (s.distance * m.cos s.angle - r.distance * m.cos r.angle) ^ 2 = 0 := by
    nlinarith [sq_nonneg (s.distance * m.cos s.angle - r.distance * m.cos r.angle),
      sq_nonneg (s.distance * m.sin s.angle - r.distance * m.sin r.angle)]
  have hy : (s.distance * m.sin s.angle - r.distance * m.sin r.angle) ^ 2 = 0 := by
    nlinarith [sq_nonneg (s.distance * m.cos s.angle - r.distance * m.cos r.angle),
      sq_nonneg (s.distance * m.sin s.angle - r.distance * m.sin r.angle)]
  have ex : r.distance * m.cos r.angle = s.distance * m.cos s.angle := by
    have := pow_eq_zero_iff (two_ne_zero) |>.mp hx
    linarith
  have ey : r.distance * m.sin r.angle = s.distance * m.sin s.angle := by
    have := pow_eq_zero_iff (two_ne_zero) |>.mp hy
    linarith
  rw [ex, ey]

theorem closestPole_of_zero_dist (m : CMath α) (ps : List (Pole α)) (k : Nat)
    (obs : scan_point α) (pk : Pole α) (hk : ps[k]? = some pk)
    (hz : current_dist m obs pk.laser_coords = 0)
    (hlow : ∀ l < k, ∀ pl : Pole α, ps[l]? = some pl → 0 < current_dist m obs pl.laser_coords) :
    closestPole m ps obs = (k : Int) := by
  have hkl : k < ps.length := by
    by_contra hc
    rw [List.getElem?_eq_none (by omega)] at hk
    simp at hk
  have hpk : ps[k] = pk := by
    rw [List.getElem?_eq_getElem hkl] at hk
    simpa using hk
  rcases closestLoop_spec m obs ps 0 2000000 (-1) with ⟨h1, _⟩ | ⟨k2, hN, hk2, _, h4⟩
  · exfalso
    apply h1 ps[k] (List.getElem_mem _)
    rw [hpk, hz]; norm_num
  · obtain ⟨_, hN1, hN2⟩ := hN
    have hz2 : current_dist m obs ps[k2].laser_coords ≤ 0 := by
      have := hN1 k hkl
      rwa [hpk, hz] at this
    have hkk : k2 = k := by
      rcases lt_trichotomy k2 k with hlt | heq | hgt
      · exact absurd (hlow k2 hlt ps[k2] (List.getElem?_eq_getElem hk2)) (not_lt.mpr hz2)
      · exact heq
      · have := hN2 k hgt
        rw [hpk, hz] at this
        exact absurd this (not_lt.mpr (current_dist_nonneg m obs _))
    rw [closestPole, h4]; simp [hkk]

/-- The association of the observations `pre`, none of which is written to landmark `k`,
leaves the `last_observation` `obs` of landmark `k` in place and brings no landmark of lower
index to the Cartesian point of `obs`. -/
theorem associate_keeps_estimate (m : CMath α) (ct k : Nat) (obs : scan_point α) :
    ∀ (pre : List (scan_point α)) (cur held : List (Pole α)),
      cur[k]?.map (fun p => p.laser_coords) = some obs →
      (∀ l < k, ∀ pl : Pole α, cur[l]? = some pl → 0 < current_dist m obs pl.laser_coords) →
      associate m ct pre cur = .ok held →
      (∀ e ∈ associateTrace m ct pre cur, e.2.2 ≠ (k : Int)) →
      held[k]?.map (fun p => p.laser_coords) = some obs
      ∧ (∀ l < k, ∀ pl : Pole α, held[l]? = some pl → 0 < current_dist m obs pl.laser_coords)
      ∧ ∀ tail : List (scan_point α),
          associateTrace m ct (pre ++ tail) cur
            = associateTrace m ct pre cur ++ associateTrace m ct tail held
          ∧ associate m ct (pre ++ tail) cur = associate m ct tail held := by
  intro pre
  induction pre with
  | nil =>
    intro cur held hobs hlow h _
    simp only [associate, Except.ok.injEq] at h
    subst h
    exact ⟨hobs, hlow, fun tail => by simp [associateTrace]⟩
  | cons r pre ih =>
    intro cur held hobs hlow h hnot
    rcases closestPole_cases m r cur with hc | ⟨j, hj, hc⟩
    · simp [associate, hc] at h
    · have hj1 : ¬ ((j : Int) = -1) := by omega
      simp only [associate, hc, hj1, if_false, Int.toNat_ofNat] at h
      have htr : associateTrace m ct (r :: pre) cur
          = (r, cur, (j : Int)) ::
              associateTrace m ct pre (cur.modify (fun p => p.update r ct) j) := by
        simp only [associateTrace, hc, hj1, if_false, Int.toNat_ofNat]
      have hjk : j ≠ k := by
        intro hjk
        apply hnot (r, cur, (j : Int)) (by rw [htr]; simp)
        simp [hjk]
      have hobs2 : (cur.modify (fun p => p.update r ct) j)[k]?.map (fun p => p.laser_coords)
          = some obs := by
        rw [List.getElem?_modify_ne _ _ hjk]; exact hobs
      have hlow2 : ∀ l < k, ∀ pl : Pole α,
          (cur.modify (fun p => p.update r ct) j)[l]? = some pl →
          0 < current_dist m obs pl.laser_coords := by
        intro l hl pl hpl
        by_cases hlj : j = l
        · subst hlj
          rw [List.getElem?_modify_eq, List.getElem?_eq_getElem hj] at hpl
          simp only [Option.map_eq_map, Option.map_some', Option.some.injEq] at hpl
          subst hpl
          simp only [Pole.update]
          rcases lt_or_eq_of_le (current_dist_nonneg m obs r) with hpos | hzero
          · exact hpos
          · exfalso
            obtain ⟨pk, hpk, hpk2⟩ : ∃ pk, cur[k]? = some pk ∧ pk.laser_coords = obs := by
              cases hck : cur[k]? with
              | none => simp [hck] at hobs
              | some pk => exact ⟨pk, rfl, by simpa [hck] using hobs⟩
            have hc2 := closestPole_of_zero_dist m cur k r pk hpk
              (by rw [hpk2, current_dist_comm]; exact hzero.symm)
              (by
                intro l2 hl2 pl2 hpl2
                rw [current_dist_of_same_point m obs r hzero.symm]
                exact hlow l2 hl2 pl2 hpl2)
            rw [hc] at hc2
            have : j = k := by exact_mod_cast hc2
            exact absurd hl (by omega)
        · rw [List.getElem?_modify_ne _ _ hlj] at hpl
          exact hlow l hl pl hpl
      have hnot2 : ∀ e ∈ associateTrace m ct pre (cur.modify (fun p => p.update r ct) j),
          e.2.2 ≠ (k : Int) := by
        intro e he
        exact hnot e (by rw [htr]; simp [he])
      obtain ⟨i1, i2, i3⟩ := ih _ held hobs2 hlow2 h hnot2
      refine ⟨i1, i2, ?_⟩
      intro tail
      obtain ⟨t1, t2⟩ := i3 tail
      constructor
      · have e : associateTrace m ct (r :: (pre ++ tail)) cur
            = (r, cur, (j : Int)) ::
                associateTrace m ct (pre ++ tail) (cur.modify (fun p => p.update r ct) j) := by
          simp only [associateTrace, hc, hj1, if_false, Int.toNat_ofNat]
        rw [htr, List.cons_append, e, t1, List.cons_append]
      · have e : associate m ct (r :: (pre ++ tail)) cur
            = associate m ct (pre ++ tail) (cur.modify (fun p => p.update r ct) j) := by
          simp only [associate, hc, hj1, if_false, Int.toNat_ofNat]
        rw [List.cons_append, e, t2]

/-- C9, amended: when landmark `k` was invisible, so that its `last_observation` is the range
and bearing written by `EstimateIniviblePoles`, and the next cycle has, at any place of its
list, an observation equal to that estimate, then, if every earlier observation of that cycle
is assigned to a landmark other than `k` and no landmark of lower index holds a
`last_observation` at the same Cartesian point, the association loop of `UpdatePoles` assigns
that observation to landmark `k`. -/
theorem occlusion_estimate_reassociates (m : CMath α) (t : Tf α Q) (fuel ct : Nat)
    (pose_ : PoseStamped α Q) (poles ps held : List (Pole α)) (k : Nat) (pk : Pole α)
    (obs : scan_point α) (pre rest : List (scan_point α))
    (hest : EstimateIniviblePoles m t fuel pose_ poles = .ok ps)
    (hk : poles[k]? = some pk) (hinv : pk.visible = false)
    (hobs : ps[k]?.map (fun p => p.laser_coords) = some obs)
    (hlow : ∀ l < k, ∀ pl : Pole α, ps[l]? = some pl → 0 < current_dist m obs pl.laser_coords)
    (hpre : associate m ct pre ps = .ok held)
    (hnot : ∀ e ∈ associateTrace m ct pre ps, e.2.2 ≠ (k : Int)) :
    (obs.distance
        = m.sqrt ((pose_.pose.x - pk.xy_coords.x) ^ 2 + (pose_.pose.y - pk.xy_coords.y) ^ 2)
      ∧ CorrectAngle fuel
          (m.atan2 (pose_.pose.y - pk.xy_coords.y) (pose_.pose.x - pk.xy_coords.x) + 3.1415927
            - t.getYaw pose_.pose.orientation) = .ok obs.angle)
    ∧ closestPole m held obs = (k : Int)
    ∧ associateTrace m ct (pre ++ obs :: rest) ps
        = associateTrace m ct pre ps ++ (obs, held, (k : Int)) ::
            associateTrace m ct rest (held.modify (fun p => p.update obs ct) k)
    ∧ associate m ct (pre ++ obs :: rest) ps
        = associate m ct rest (held.modify (fun p => p.update obs ct) k) := by
  obtain ⟨i1, i2, i3⟩ := associate_keeps_estimate m ct k obs pre ps held hobs hlow hpre hnot
  have hc := closestPole_of_own_reading m held k obs i1 i2
  have hk1 : ¬ ((k : Int) = -1) := by omega
  obtain ⟨t1, t2⟩ := i3 (obs :: rest)
  refine ⟨?_, hc, ?_, ?_⟩
  · have hf := EstimateIniviblePoles_forall₂ m t fuel pose_ poles ps hest
    have hlen := hf.length_eq
    have hkl : k < poles.length := by
      by_contra hcon
      rw [List.getElem?_eq_none (by omega)] at hk
      simp at hk
    have hkl2 : k < ps.length := by omega
    have hpk : poles[k] = pk := by
      rw [List.getElem?_eq_getElem hkl] at hk; simpa using hk
    have hstep : estimatePole m t fuel pose_ poles[k] = .ok ps[k] :=
      (List.forall₂_iff_get.mp hf).2 k hkl hkl2
    rw [List.getElem?_eq_getElem hkl2] at hobs
    simp only [Option.map_some', Option.some.injEq] at hobs
    rw [hpk] at hstep
    unfold estimatePole at hstep
    simp only [hinv, if_true] at hstep
    split at hstep
    · simp at hstep
    · rename_i angle hangle
      simp only [Except.ok.injEq] at hstep
      rw [← hobs, ← hstep]
      exact ⟨rfl, hangle⟩
  · rw [t1]
    simp only [associateTrace, hc, hk1, if_false, Int.toNat_ofNat]
  · rw [t2]
    simp only [associate, hc, hk1, if_false, Int.toNat_ofNat]

/-- The landmarks after `EstimateIniviblePoles` at the pose `(5, 0)` with yaw `kPi`, when the
first two landmarks are visible and the third, at `(-10, 0)`, is hidden. -/
theorem EstimateIniviblePoles_hidden_third (m : CMath ℝ) (hsqrt : ∀ x, m.sqrt x = Real.sqrt x)
    (hatan2 : ∀ y x, m.atan2 y x = Complex.arg ⟨x, y⟩) (fuel now : Nat) (p0 p1 : Pole ℝ)
    (h0 : p0.visible = true) (h1 : p1.visible = true) (sC : scan_point ℝ) (tC : Nat) :
    EstimateIniviblePoles m yawTf fuel
        { seq := 1, stamp := now, frame_id := "fixed_frame"
          pose := { x := 5, y := 0, z := 0, orientation := kPi } }
        [ p0, p1,
          { xy_coords := ⟨-10, 0⟩, laser_coords := sC, time := tC, i := 2, visible := false } ]
      = .ok [ p0, p1,
              { xy_coords := ⟨-10, 0⟩, laser_coords := ⟨15, 3.1415927 - kPi⟩, time := tC, i := 2,
                visible := false } ] := by
  have hs : Real.sqrt ((5 - (-10 : ℝ)) ^ 2 + (0 - 0) ^ 2) = 15 := by
    rw [show ((5 - (-10 : ℝ)) ^ 2 + (0 - 0) ^ 2) = 15 ^ 2 by norm_num,
      Real.sqrt_sq (by norm_num)]
  have ha : Complex.arg ⟨5 - (-10 : ℝ), 0 - 0⟩ = 0 := by
    rw [show (5 - (-10 : ℝ)) = 15 by norm_num, sub_zero]
    exact arg_pos_real 15 (by norm_num)
  have hc : CorrectAngle fuel ((0 : ℝ) + 3.1415927 - kPi) = .ok (0 + 3.1415927 - kPi) :=
    CorrectAngle_of_mem fuel _ (by norm_num [kPi]) (by norm_num [kPi])
  simp only [EstimateIniviblePoles, estimatePole, h0, h1, if_true, Bool.true_eq_false, if_false,
    hatan2, hsqrt, yawTf, hs, ha, hc, Pole.update1]
  simp

/-- C9, as stated, fails. In the first cycle over `examplePoles` landmark 2 is not matched and
`EstimateIniviblePoles` writes the estimate `(15, 3.1415927 - kPi)` to it. In the next cycle
the reading `(40, 3.1415927 - kPi)` comes first and is assigned to landmark 2, which is the
nearest; the reading equal to the estimate then finds landmark 0 nearest and is assigned to
landmark 0, not to landmark 2. Second input: landmark 0 holds a reading at the point of the
estimate of landmark 2; the observation equal to the estimate is at distance zero from both
and is assigned to landmark 0, the lower index. -/
theorem occlusion_roundtrip_counterexample :
    (∃ loc1 : Loc ℝ ℝ,
      UpdatePoles (CMath.mk Real.sqrt Real.cos Real.sin (fun y x => Complex.arg ⟨x, y⟩)) yawTf
          100 1 1
          { xy_coords := ⟨0, 0⟩, laser_coords := ⟨0, 0⟩, time := 0, i := 0, visible := false }
          { poles_ := examplePoles Real.pi, pose_ := initialPose, initiation_ := false }
          [⟨5, 0⟩, ⟨5, Real.pi⟩] = .ok loc1
      ∧ loc1.poles_[2]?
          = some { xy_coords := ⟨-10, 0⟩, laser_coords := ⟨15, 3.1415927 - kPi⟩, time := 0,
                   i := 2, visible := false }
      ∧ (associateTrace
            (CMath.mk Real.sqrt Real.cos Real.sin (fun y x => Complex.arg ⟨x, y⟩)) 2
            [⟨40, 3.1415927 - kPi⟩, ⟨15, 3.1415927 - kPi⟩] loc1.poles_).map
              (fun e => (e.1, e.2.2))
          = [(⟨40, 3.1415927 - kPi⟩, 2), (⟨15, 3.1415927 - kPi⟩, 0)])
    ∧ (EstimateIniviblePoles
          (CMath.mk Real.sqrt Real.cos Real.sin (fun y x => Complex.arg ⟨x, y⟩)) yawTf 100
          { seq := 1, stamp := 1, frame_id := "fixed_frame"
            pose := { x := 5, y := 0, z := 0, orientation := kPi } }
          [ { xy_coords := ⟨0, 0⟩, laser_coords := ⟨15, 3.1415927 - kPi⟩, time := 1, i := 0,
              visible := true },
            { xy_coords := ⟨10, 0⟩, laser_coords := ⟨5, Real.pi⟩, time := 1, i := 1,
              visible := true },
            { xy_coords := ⟨-10, 0⟩, laser_coords := ⟨15, 0⟩, time := 0, i := 2,
              visible := false } ]
        = .ok [ { xy_coords := ⟨0, 0⟩, laser_coords := ⟨15, 3.1415927 - kPi⟩, time := 1, i := 0,
                  visible := true },
                { xy_coords := ⟨10, 0⟩, laser_coords := ⟨5, Real.pi⟩, time := 1, i := 1,
                  visible := true },
                { xy_coords := ⟨-10, 0⟩, laser_coords := ⟨15, 3.1415927 - kPi⟩, time := 0,
                  i := 2, visible := false } ]
      ∧ (associateTrace
            (CMath.mk Real.sqrt Real.cos Real.sin (fun y x => Complex.arg ⟨x, y⟩)) 2
            [⟨15, 3.1415927 - kPi⟩]
            [ { xy_coords := ⟨0, 0⟩, laser_coords := ⟨15, 3.1415927 - kPi⟩, time := 1, i := 0,
                visible := true },
              { xy_coords := ⟨10, 0⟩, laser_coords := ⟨5, Real.pi⟩, time := 1, i := 1,
                visible := true },
              { xy_coords := ⟨-10, 0⟩, laser_coords := ⟨15, 3.1415927 - kPi⟩, time := 0,
                i := 2, visible := false } ]).map (fun e => (e.1, e.2.2))
          = [(⟨15, 3.1415927 - kPi⟩, 0)]) := by
  refine ⟨⟨_, UpdatePoles_example _ (fun _ => rfl) (fun _ => rfl) (fun _ => rfl)
    (fun _ _ => rfl) 100 1 _, by simp, ?_⟩,
    EstimateIniviblePoles_hidden_third _ (fun _ => rfl) (fun _ _ => rfl) 100 1 _ _ rfl rfl
      ⟨15, 0⟩ 0, ?_⟩
  · simp only [associateTrace, closestPole_far_reading _ cos_estimate_pos]
    simp [Pole.update, closestPole_after_far_reading _ cos_estimate_pos 2, associateTrace]
  · have hc := closestPole_of_own_reading
      (CMath.mk Real.sqrt Real.cos Real.sin (fun y x => Complex.arg ⟨x, y⟩))
      [ { xy_coords := ⟨0, 0⟩, laser_coords := ⟨15, 3.1415927 - kPi⟩, time := 1, i := 0,
          visible := true },
        { xy_coords := ⟨10, 0⟩, laser_coords := ⟨5, Real.pi⟩, time := 1, i := 1,
          visible := true },
        { xy_coords := ⟨-10, 0⟩, laser_coords := ⟨15, 3.1415927 - kPi⟩, time := 0,
          i := 2, visible := false } ] 0 ⟨15, 3.1415927 - kPi⟩ (by simp)
      (by intro l hl; omega)
    simp only [associateTrace, hc]
    simp

/-- C9 at a concrete input: the landmarks of `examplePoles` after the first cycle; the next
cycle reads `(5, 0)`, assigned to landmark 0, and then the estimate of landmark 2, assigned to
landmark 2. -/
theorem occlusion_estimate_reassociates_witness :
    EstimateIniviblePoles (CMath.mk Real.sqrt Real.cos Real.sin (fun y x => Complex.arg ⟨x, y⟩))
        yawTf 100
        { seq := 1, stamp := 1, frame_id := "fixed_frame"
          pose := { x := 5, y := 0, z := 0, orientation := kPi } }
        [ { xy_coords := ⟨0, 0⟩, laser_coords := ⟨5, 0⟩, time := 1, i := 0, visible := true },
          { xy_coords := ⟨10, 0⟩, laser_coords := ⟨5, Real.pi⟩, time := 1, i := 1,
            visible := true },
          { xy_coords := ⟨-10, 0⟩, laser_coords := ⟨15, 0⟩, time := 0, i := 2,
            visible := false } ]
      = .ok [ { xy_coords := ⟨0, 0⟩, laser_coords := ⟨5, 0⟩, time := 1, i := 0, visible := true },
              { xy_coords := ⟨10, 0⟩, laser_coords := ⟨5, Real.pi⟩, time := 1, i := 1,
                visible := true },
              { xy_coords := ⟨-10, 0⟩, laser_coords := ⟨15, 3.1415927 - kPi⟩, time := 0, i := 2,
                visible := false } ]
    ∧ associate (CMath.mk Real.sqrt Real.cos Real.sin (fun y x => Complex.arg ⟨x, y⟩)) 2
        [⟨5, 0⟩]
        [ { xy_coords := ⟨0, 0⟩, laser_coords := ⟨5, 0⟩, time := 1, i := 0, visible := true },
          { xy_coords := ⟨10, 0⟩, laser_coords := ⟨5, Real.pi⟩, time := 1, i := 1,
            visible := true },
          { xy_coords := ⟨-10, 0⟩, laser_coords := ⟨15, 3.1415927 - kPi⟩, time := 0, i := 2,
            visible := false } ]
      = .ok [ { xy_coords := ⟨0, 0⟩, laser_coords := ⟨5, 0⟩, time := 2, i := 0, visible := true },
              { xy_coords := ⟨10, 0⟩, laser_coords := ⟨5, Real.pi⟩, time := 1, i := 1,
                visible := true },
              { xy_coords := ⟨-10, 0⟩, laser_coords := ⟨15, 3.1415927 - kPi⟩, time := 0, i := 2,
                visible := false } ]
    ∧ (associateTrace (CMath.mk Real.sqrt Real.cos Real.sin (fun y x => Complex.arg ⟨x, y⟩)) 2
        ([⟨5, 0⟩] ++ [⟨15, 3.1415927 - kPi⟩])
        [ { xy_coords := ⟨0, 0⟩, laser_coords := ⟨5, 0⟩, time := 1, i := 0, visible := true },
          { xy_coords := ⟨10, 0⟩, laser_coords := ⟨5, Real.pi⟩, time := 1, i := 1,
            visible := true },
          { xy_coords := ⟨-10, 0⟩, laser_coords := ⟨15, 3.1415927 - kPi⟩, time := 0, i := 2,
            visible := false } ]).map (fun e => (e.1, e.2.2))
      = [(⟨5, 0⟩, 0), (⟨15, 3.1415927 - kPi⟩, 2)] := by
  have hest := EstimateIniviblePoles_example
    (CMath.mk Real.sqrt Real.cos Real.sin (fun y x => Complex.arg ⟨x, y⟩))
    (fun _ => rfl) (fun _ _ => rfl) 100 1
  have hc := Real.cos_le_one ((3.1415927 : ℝ) - kPi)
  have hc2 := Real.neg_one_le_cos ((3.1415927 : ℝ) - kPi)
  have hs := Real.sin_sq_add_cos_sq ((3.1415927 : ℝ) - kPi)
  have hlow : ∀ l < 2, ∀ pl : Pole ℝ,
      ([ { xy_coords := ⟨0, 0⟩, laser_coords := ⟨5, 0⟩, time := 1, i := 0, visible := true },
         { xy_coords := ⟨10, 0⟩, laser_coords := ⟨5, Real.pi⟩, time := 1, i := 1,
           visible := true },
         { xy_coords := ⟨-10, 0⟩, laser_coords := ⟨15, 3.1415927 - kPi⟩, time := 0, i := 2,
           visible := false } ] : List (Pole ℝ))[l]? = some pl →
      0 < current_dist (CMath.mk Real.sqrt Real.cos Real.sin (fun y x => Complex.arg ⟨x, y⟩))
        ⟨15, 3.1415927 - kPi⟩ pl.laser_coords := by
    intro l hl pl hpl
    have hl2 : l = 0 ∨ l = 1 := by omega
    rcases hl2 with rfl | rfl
    · simp only [List.getElem?_cons_zero, Option.some.injEq] at hpl
      subst hpl
      simp only [current_dist, Real.cos_zero, Real.sin_zero]
      nlinarith
    · simp only [List.getElem?_cons_succ, List.getElem?_cons_zero, Option.some.injEq] at hpl
      subst hpl
      simp only [current_dist, Real.cos_pi, Real.sin_pi]
      nlinarith
  have hfirst := closestPole_of_own_reading
    (CMath.mk Real.sqrt Real.cos Real.sin (fun y x => Complex.arg ⟨x, y⟩))
    [ { xy_coords := ⟨0, 0⟩, laser_coords := ⟨5, 0⟩, time := 1, i := 0, visible := true },
      { xy_coords := ⟨10, 0⟩, laser_coords := ⟨5, Real.pi⟩, time := 1, i := 1,
        visible := true },
      { xy_coords := ⟨-10, 0⟩, laser_coords := ⟨15, 3.1415927 - kPi⟩, time := 0, i := 2,
        visible := false } ] 0 ⟨5, 0⟩ (by simp) (by intro l hl; omega)
  have hpre : associate (CMath.mk Real.sqrt Real.cos Real.sin (fun y x => Complex.arg ⟨x, y⟩)) 2
      [⟨5, 0⟩]
      [ { xy_coords := ⟨0, 0⟩, laser_coords := ⟨5, 0⟩, time := 1, i := 0, visible := true },
        { xy_coords := ⟨10, 0⟩, laser_coords := ⟨5, Real.pi⟩, time := 1, i := 1,
          visible := true },
        { xy_coords := ⟨-10, 0⟩, laser_coords := ⟨15, 3.1415927 - kPi⟩, time := 0, i := 2,
          visible := false } ]
      = .ok [ { xy_coords := ⟨0, 0⟩, laser_coords := ⟨5, 0⟩, time := 2, i := 0, visible := true },
              { xy_coords := ⟨10, 0⟩, laser_coords := ⟨5, Real.pi⟩, time := 1, i := 1,
                visible := true },
              { xy_coords := ⟨-10, 0⟩, laser_coords := ⟨15, 3.1415927 - kPi⟩, time := 0, i := 2,
                visible := false } ] := by
    simp only [associate, hfirst]
    simp [Pole.update]
  have hnot : ∀ e ∈ associateTrace
      (CMath.mk Real.sqrt Real.cos Real.sin (fun y x => Complex.arg ⟨x, y⟩)) 2 [⟨5, 0⟩]
      [ { xy_coords := ⟨0, 0⟩, laser_coords := ⟨5, 0⟩, time := 1, i := 0, visible := true },
        { xy_coords := ⟨10, 0⟩, laser_coords := ⟨5, Real.pi⟩, time := 1, i := 1,
          visible := true },
        { xy_coords := ⟨-10, 0⟩, laser_coords := ⟨15, 3.1415927 - kPi⟩, time := 0, i := 2,
          visible := false } ], e.2.2 ≠ ((2 : Nat) : Int) := by
    intro e he
    simp only [associateTrace, hfirst] at he
    simp at he
    rw [he]; simp
  obtain ⟨_, _, h3, _⟩ := @occlusion_estimate_reassociates ℝ ℝ _ _ yawTf 100 2 _ _ _ _ 2
      { xy_coords := ⟨-10, 0⟩, laser_coords := ⟨15, 0⟩, time := 0, i := 2, visible := false }
      ⟨15, 3.1415927 - kPi⟩ [⟨5, 0⟩] [] hest (by simp) rfl (by simp) hlow hpre hnot
  refine ⟨hest, hpre, ?_⟩
  rw [h3]
  simp only [associateTrace, hfirst]
  simp

/-! ## Clustering a clustered list -/

theorem closeEnough_example_1 :
    closeEnough (⟨1, 0⟩ : scan_point ℚ) ⟨1.19, 0⟩ = true := by
  simp only [closeEnough, Bool.and_eq_true, decide_eq_true_eq, abs_lt]; norm_num

theorem closeEnough_example_2 :
    closeEnough (⟨1, 0⟩ : scan_point ℚ) ⟨1.25, 0⟩ = false := by
  simp only [closeEnough, Bool.and_eq_false_iff, decide_eq_false_iff_not, abs_lt]; norm_num

theorem closeEnough_example_3 :
    closeEnough (⟨1.095, 0⟩ : scan_point ℚ) ⟨1.25, 0⟩ = true := by
  simp only [closeEnough, Bool.and_eq_true, decide_eq_true_eq, abs_lt]; norm_num

theorem MinimizeScans_example_first :
    MinimizeScans ([⟨1, 0⟩, ⟨1.19, 0⟩, ⟨1.25, 0⟩] : List (scan_point ℚ))
      = [⟨1.095, 0⟩, ⟨1.25, 0⟩] := by
  simp [MinimizeScans, minimizeStep, clusterStep, List.range, List.range.loop,
    List.range', closeEnough_example_1, closeEnough_example_2]
  norm_num

theorem MinimizeScans_example_second :
    MinimizeScans ([⟨1.095, 0⟩, ⟨1.25, 0⟩] : List (scan_point ℚ)) = [⟨1.1725, 0⟩] := by
  simp [MinimizeScans, minimizeStep, clusterStep, List.range, List.range.loop,
    List.range', closeEnough_example_3]
  norm_num

theorem foldl_fixed {β γ : Type} (f : β → γ → β) (c : β) :
    ∀ (js : List γ), (∀ j ∈ js, f c j = c) → js.foldl f c = c := by
  intro js
  induction js with
  | nil => intro _; rfl
  | cons j js ih =>
    intro h
    rw [List.foldl_cons, h j (by simp)]
    exact ih (fun j2 hj2 => h j2 (by simp [hj2]))

theorem Separated_getElem : ∀ (l : List (scan_point α)), Separated l →
    ∀ (i j : Nat) (hi : i < l.length) (hj : j < l.length), i < j →
      closeEnough l[i] l[j] = false := by
  intro l
  induction l with
  | nil => intro _ i j hi; simp at hi
  | cons s rest ih =>
    intro h i j hi hj hij
    obtain ⟨h1, h2⟩ := h
    cases j with
    | zero => omega
    | succ j =>
      cases i with
      | zero =>
        simp only [List.getElem_cons_zero, List.getElem_cons_succ]
        exact h1 _ (List.getElem_mem _)
      | succ i =>
        simp only [List.getElem_cons_succ]
        exact ih h2 i j (by simpa using hi) (by simpa using hj) (by omega)

theorem minimizeStep_of_separated (l : List (scan_point α)) (hsep : Separated l) (i : Nat)
    (hi : i < l.length) :
    minimizeStep l (l.take i, List.range i) i = (l.take (i + 1), List.range (i + 1)) := by
  have hnot : i ∉ List.range i := by simp
  have hinner : (List.range' (i + 1) (l.length - (i + 1))).foldl (clusterStep l l[i])
      { ppp := 1, trash := List.range i, back := l[i] }
        = { ppp := 1, trash := List.range i, back := l[i] } := by
    apply foldl_fixed
    intro j hj
    rw [List.mem_range'_1] at hj
    have hjl : j < l.length := by omega
    have hjt : j ∉ List.range i := by simp; omega
    simp only [clusterStep, hjt, if_false, List.getElem?_eq_getElem hjl,
      Separated_getElem l hsep i j hi hjl (by omega), Bool.false_eq_true]
  simp only [minimizeStep, hnot, if_false, List.getElem?_eq_getElem hi, hinner, ite_self,
    Nat.cast_one, div_one]
  refine Prod.ext ?_ ?_
  · simp only [List.take_succ, List.getElem?_eq_getElem hi, Option.toList]
  · simp only [List.range_succ]

theorem minimize_fold_of_separated (l : List (scan_point α)) (hsep : Separated l) :
    ∀ n : Nat, n ≤ l.length →
      (List.range n).foldl (minimizeStep l) ([], []) = (l.take n, List.range n) := by
  intro n
  induction n with
  | zero => intro _; simp
  | succ n ih =>
    intro hn
    rw [List.range_succ, List.foldl_append, ih (by omega)]
    simp only [List.foldl_cons, List.foldl_nil]
    have h := minimizeStep_of_separated l hsep n (by omega)
    rw [List.range_succ] at h
    exact h

theorem MinimizeScans_of_separated (l : List (scan_point α)) (hsep : Separated l) :
    MinimizeScans l = l := by
  unfold MinimizeScans
  cases l with
  | nil => simp
  | cons s rest =>
    rw [minimize_fold_of_separated _ hsep _ le_rfl]
    simp

/-- C10, as stated, fails: the readings at distances `1`, `1.19`, `1.25` and angle `0` are
clustered to `1.095` and `1.25` (the third is `0.25` away from the seed), and clustering that
list again merges the two (they are `0.155` apart) into `1.1725`. -/
theorem MinimizeScans_idempotence_counterexample :
    MinimizeScans ([⟨1, 0⟩, ⟨1.19, 0⟩, ⟨1.25, 0⟩] : List (scan_point ℚ))
        = [⟨1.095, 0⟩, ⟨1.25, 0⟩]
    ∧ MinimizeScans (MinimizeScans ([⟨1, 0⟩, ⟨1.19, 0⟩, ⟨1.25, 0⟩] : List (scan_point ℚ)))
        = [⟨1.1725, 0⟩]
    ∧ MinimizeScans (MinimizeScans ([⟨1, 0⟩, ⟨1.19, 0⟩, ⟨1.25, 0⟩] : List (scan_point ℚ)))
        ≠ MinimizeScans ([⟨1, 0⟩, ⟨1.19, 0⟩, ⟨1.25, 0⟩] : List (scan_point ℚ)) := by
  refine ⟨MinimizeScans_example_first, ?_, ?_⟩
  · rw [MinimizeScans_example_first, MinimizeScans_example_second]
  · rw [MinimizeScans_example_first, MinimizeScans_example_second]
    simp

/-- C10, amended: on a list in which no point is within both thresholds of an earlier point
(one point per landmark) `MinimizeScans` returns the list unchanged, so clustering it twice
is the same as clustering it once. -/
theorem MinimizeScans_fixes_separated (l : List (scan_point α)) (hsep : Separated l) :
    MinimizeScans l = l ∧ MinimizeScans (MinimizeScans l) = MinimizeScans l := by
  have h := MinimizeScans_of_separated l hsep
  exact ⟨h, by rw [h, h]⟩

/-- C10 at a concrete input: two readings `0.25` apart in distance. -/
theorem MinimizeScans_fixes_separated_witness :
    Separated ([⟨1, 0⟩, ⟨1.25, 0⟩] : List (scan_point ℚ))
    ∧ MinimizeScans ([⟨1, 0⟩, ⟨1.25, 0⟩] : List (scan_point ℚ)) = [⟨1, 0⟩, ⟨1.25, 0⟩]
    ∧ MinimizeScans (MinimizeScans ([⟨1, 0⟩, ⟨1.25, 0⟩] : List (scan_point ℚ)))
        = MinimizeScans ([⟨1, 0⟩, ⟨1.25, 0⟩] : List (scan_point ℚ)) :=
  have h : Separated ([⟨1, 0⟩, ⟨1.25, 0⟩] : List (scan_point ℚ)) := by
    simp [Separated, closeEnough_example_2]
  ⟨h, MinimizeScans_fixes_separated _ h⟩

/-! ## Angle normalization -/

theorem kPi_pos : (0 : ℝ) < kPi := by norm_num [kPi]

theorem kPi_lt_pi : (kPi : ℝ) < Real.pi := by
  have := Real.pi_gt_d20
  have h : (kPi : ℝ) < 3.14159265358979323846 := by norm_num [kPi]
  linarith

theorem correctAngleDown_spec :
    ∀ (N : Nat) (x : ℝ), x ≤ kPi + 2 * kPi * (N : ℝ) →
      ∃ n : Nat, n ≤ N
        ∧ (∀ fuel : Nat, n ≤ fuel → correctAngleDown fuel x = .ok (x - 2 * kPi * (n : ℝ)))
        ∧ x - 2 * kPi * (n : ℝ) ≤ kPi
        ∧ (n = 0 ∨ -kPi < x - 2 * kPi * (n : ℝ)) := by
  intro N
  induction N with
  | zero =>
    intro x hx
    have hx2 : ¬ x > kPi := by simpa using hx
    refine ⟨0, le_rfl, ?_, by simpa using hx, Or.inl rfl⟩
    intro fuel _
    cases fuel <;> simp [correctAngleDown, hx2]
  | succ N ih =>
    intro x hx
    by_cases hgt : x > kPi
    · have hx2 : x - 2 * kPi ≤ kPi + 2 * kPi * (N : ℝ) := by
        push_cast at hx; linarith
      obtain ⟨n, hn, h1, h2, h3⟩ := ih _ hx2
      have e : x - 2 * kPi - 2 * kPi * (n : ℝ) = x - 2 * kPi * ((n + 1 : Nat) : ℝ) := by
        push_cast; ring
      refine ⟨n + 1, by omega, ?_, by rw [← e]; exact h2, Or.inr ?_⟩
      · intro fuel hf
        obtain ⟨f, rfl⟩ : ∃ f, fuel = f + 1 := ⟨fuel - 1, by omega⟩
        simp only [correctAngleDown, hgt, if_true]
        rw [h1 f (by omega), e]
      · rw [← e]
        rcases h3 with h0 | h3
        · subst h0
          have := kPi_pos
          simp only [Nat.cast_zero, mul_zero, sub_zero]
          linarith
        · exact h3
    · refine ⟨0, Nat.zero_le _, ?_, by simpa using not_lt.mp hgt, Or.inl rfl⟩
      intro fuel _
      cases fuel <;> simp [correctAngleDown, hgt]

theorem correctAngleUp_spec :
    ∀ (N : Nat) (x : ℝ), -kPi - 2 * kPi * (N : ℝ) ≤ x →
      ∃ n : Nat, n ≤ N
        ∧ (∀ fuel : Nat, n ≤ fuel → correctAngleUp fuel x = .ok (x + 2 * kPi * (n : ℝ)))
        ∧ -kPi ≤ x + 2 * kPi * (n : ℝ)
        ∧ (n = 0 ∨ x + 2 * kPi * (n : ℝ) < kPi) := by
  intro N
  induction N with
  | zero =>
    intro x hx
    have hx1 : -kPi ≤ x := by simpa using hx
    have hx2 : ¬ x < -kPi := not_lt.mpr hx1
    refine ⟨0, le_rfl, ?_, by simpa using hx1, Or.inl rfl⟩
    intro fuel _
    cases fuel <;> simp [correctAngleUp, hx2]
  | succ N ih =>
    intro x hx
    by_cases hlt : x < -kPi
    · have hx2 : -kPi - 2 * kPi * (N : ℝ) ≤ x + 2 * kPi := by
        push_cast at hx; linarith
      obtain ⟨n, hn, h1, h2, h3⟩ := ih _ hx2
      have e : x + 2 * kPi + 2 * kPi * (n : ℝ) = x + 2 * kPi * ((n + 1 : Nat) : ℝ) := by
        push_cast; ring
      refine ⟨n + 1, by omega, ?_, by rw [← e]; exact h2, Or.inr ?_⟩
      · intro fuel hf
        obtain ⟨f, rfl⟩ : ∃ f, fuel = f + 1 := ⟨fuel - 1, by omega⟩
        simp only [correctAngleUp, hlt, if_true]
        rw [h1 f (by omega), e]
      · rw [← e]
        rcases h3 with h0 | h3
        · subst h0
          have := kPi_pos
          simp only [Nat.cast_zero, mul_zero, add_zero]
          linarith
        · exact h3
    · refine ⟨0, Nat.zero_le _, ?_, by simpa using not_lt.mp hlt, Or.inl rfl⟩
      intro fuel _
      cases fuel <;> simp [correctAngleUp, hlt]

/-- Both members normalise alike: enough fuel gives one value `r = theta + 2 * kPi * j` in
`[-kPi, kPi]`. -/
theorem CorrectAngle_spec (theta : ℝ) :
    ∃ (fuel0 : Nat) (r : ℝ) (j : ℤ),
      (∀ fuel : Nat, fuel0 ≤ fuel →
        CorrectAngle fuel theta = .ok r ∧ correctAngle fuel theta = .ok r)
      ∧ -kPi ≤ r ∧ r ≤ kPi ∧ r = theta + 2 * kPi * (j : ℝ) := by
  have hk := kPi_pos
  obtain ⟨N1, hN1⟩ := exists_nat_ge ((theta - kPi) / (2 * kPi))
  have hb1 : theta ≤ kPi + 2 * kPi * (N1 : ℝ) := by
    rw [div_le_iff₀ (by linarith)] at hN1; linarith
  obtain ⟨n1, _, d1, d2, d3⟩ := correctAngleDown_spec N1 theta hb1
  obtain ⟨N2, hN2⟩ := exists_nat_ge ((-kPi - (theta - 2 * kPi * (n1 : ℝ))) / (2 * kPi))
  have hb2 : -kPi - 2 * kPi * (N2 : ℝ) ≤ theta - 2 * kPi * (n1 : ℝ) := by
    rw [div_le_iff₀ (by linarith)] at hN2; linarith
  obtain ⟨n2, _, u1, u2, u3⟩ := correctAngleUp_spec N2 _ hb2
  refine ⟨max n1 n2, theta - 2 * kPi * (n1 : ℝ) + 2 * kPi * (n2 : ℝ), (n2 : ℤ) - (n1 : ℤ),
    ?_, u2, ?_, by push_cast; ring⟩
  · intro fuel hf
    have e1 := d1 fuel (le_trans (le_max_left _ _) hf)
    have e2 := u1 fuel (le_trans (le_max_right _ _) hf)
    simp [CorrectAngle, correctAngle, e1, e2, bind, Except.bind]
  · rcases u3 with h0 | h3
    · subst h0; simpa using d2
    · exact h3.le

/-- C11: for every real angle `CorrectAngle` and its copy `correctAngle` terminate (every
amount of fuel from some `fuel0` on gives the same value) and leave a value in `(-pi, pi]`;
more precisely in `[-kPi, kPi]`, and `kPi < pi`. -/
theorem CorrectAngle_range (theta : ℝ) :
    ∃ (fuel0 : Nat) (r : ℝ),
      (∀ fuel : Nat, fuel0 ≤ fuel →
        CorrectAngle fuel theta = .ok r ∧ correctAngle fuel theta = .ok r)
      ∧ -Real.pi < r ∧ r ≤ Real.pi ∧ -kPi ≤ r ∧ r ≤ kPi := by
  obtain ⟨fuel0, r, _, h1, h2, h3, _⟩ := CorrectAngle_spec theta
  have := kPi_lt_pi
  exact ⟨fuel0, r, h1, by linarith, by linarith, h2, h3⟩

theorem CorrectAngle_one_step_down (x : ℝ) (h1 : x > kPi) (h2 : ¬ x - 2 * kPi > kPi)
    (h3 : ¬ x - 2 * kPi < -kPi) (fuel : Nat) (hf : 1 ≤ fuel) :
    CorrectAngle fuel x = .ok (x - 2 * kPi) := by
  obtain ⟨f, rfl⟩ : ∃ f, fuel = f + 1 := ⟨fuel - 1, by omega⟩
  have e1 : correctAngleDown (f + 1) x = .ok (x - 2 * kPi) := by
    cases f <;> simp [correctAngleDown, h1, h2]
  have e2 : correctAngleUp (f + 1) (x - 2 * kPi) = .ok (x - 2 * kPi) := by
    simp [correctAngleUp, h3]
  simp [CorrectAngle, e1, e2, bind, Except.bind]

/-- C12, as stated, fails. The loops subtract and add `2 * kPi` with
`kPi = 3.141592653589 < pi`: `CorrectAngle(0 + 2 * pi * 1)` is `2 * pi - 2 * kPi`, which is
not `CorrectAngle(0) = 0`. At the ends of the range not even `2 * kPi` is a period:
`CorrectAngle(-kPi)` is `-kPi` and `CorrectAngle(-kPi + 2 * kPi * 1)` is `kPi`. -/
theorem CorrectAngle_periodicity_counterexample :
    (∀ fuel : Nat, 1 ≤ fuel →
        CorrectAngle fuel ((0 : ℝ) + 2 * Real.pi * ((1 : ℤ) : ℝ)) = .ok (2 * Real.pi - 2 * kPi)
        ∧ CorrectAngle fuel (0 : ℝ) = .ok 0)
    ∧ (2 * Real.pi - 2 * kPi : ℝ) ≠ 0
    ∧ (∀ fuel : Nat,
        CorrectAngle fuel (-kPi : ℝ) = .ok (-kPi)
        ∧ CorrectAngle fuel ((-kPi : ℝ) + 2 * kPi * ((1 : ℤ) : ℝ)) = .ok kPi)
    ∧ (-kPi : ℝ) ≠ kPi := by
  have hk := kPi_pos
  have hp := kPi_lt_pi
  have hp4 := Real.pi_lt_four
  have hk3 : (3 : ℝ) < kPi := by norm_num [kPi]
  refine ⟨?_, by linarith, ?_, by linarith⟩
  · intro fuel hf
    constructor
    · have e : (0 : ℝ) + 2 * Real.pi * ((1 : ℤ) : ℝ) = 2 * Real.pi := by push_cast; ring
      rw [e]
      exact CorrectAngle_one_step_down _ (by linarith) (by rw [not_lt]; linarith)
        (by rw [not_lt]; linarith) fuel hf
    · exact CorrectAngle_of_mem fuel 0 (by rw [not_lt]; linarith) (by rw [not_lt]; linarith)
  · intro fuel
    constructor
    · exact CorrectAngle_of_mem fuel _ (by rw [not_lt]; linarith) (by simp)
    · have e : (-kPi : ℝ) + 2 * kPi * ((1 : ℤ) : ℝ) = kPi := by push_cast; ring
      rw [e]
      exact CorrectAngle_of_mem fuel _ (by simp) (by rw [not_lt]; linarith)

/-- C12, amended: with the constant of the code, `kPi = 3.141592653589`, in the place of `pi`,
and for an angle that is not an odd multiple of `kPi`: for every integer `k`,
`CorrectAngle(theta + 2 * kPi * k)` equals `CorrectAngle(theta)`. -/
theorem CorrectAngle_periodic (theta : ℝ)
    (hodd : ∀ j : ℤ, theta ≠ kPi * (2 * (j : ℝ) + 1)) (k : ℤ) :
    ∃ (fuel0 : Nat) (r : ℝ), ∀ fuel : Nat, fuel0 ≤ fuel →
      CorrectAngle fuel (theta + 2 * kPi * (k : ℝ)) = .ok r ∧ CorrectAngle fuel theta = .ok r := by
  have hk := kPi_pos
  obtain ⟨f1, r1, j1, a1, a2, a3, a4⟩ := CorrectAngle_spec theta
  obtain ⟨f2, r2, j2, b1, b2, b3, b4⟩ := CorrectAngle_spec (theta + 2 * kPi * (k : ℝ))
  have ha : -kPi < r1 ∧ r1 < kPi := by
    constructor
    · rcases lt_or_eq_of_le a2 with h | h
      · exact h
      · exfalso
        apply hodd (-j1 - 1)
        push_cast; linarith
    · rcases lt_or_eq_of_le a3 with h | h
      · exact h
      · exfalso
        apply hodd (-j1)
        push_cast; linarith
  have hb : -kPi < r2 ∧ r2 < kPi := by
    constructor
    · rcases lt_or_eq_of_le b2 with h | h
      · exact h
      · exfalso
        apply hodd (-j2 - k - 1)
        push_cast; linarith
    · rcases lt_or_eq_of_le b3 with h | h
      · exact h
      · exfalso
        apply hodd (-j2 - k)
        push_cast; linarith
  have hd : r2 - r1 = 2 * kPi * (((k + j2 - j1 : ℤ)) : ℝ) := by
    push_cast; linarith
  have hz : k + j2 - j1 = 0 := by
    by_contra hne
    rcases lt_or_gt_of_ne hne with hlt | hgt
    · have h1 : ((k + j2 - j1 : ℤ) : ℝ) ≤ -1 := by exact_mod_cast (by omega : k + j2 - j1 ≤ -1)
      nlinarith
    · have h1 : (1 : ℝ) ≤ ((k + j2 - j1 : ℤ) : ℝ) := by exact_mod_cast (by omega : 1 ≤ k + j2 - j1)
      nlinarith
  have hr : r2 = r1 := by
    rw [hz] at hd; simp at hd; linarith
  refine ⟨max f1 f2, r1, ?_⟩
  intro fuel hf
  have e1 := (a1 fuel (le_trans (le_max_left _ _) hf)).1
  have e2 := (b1 fuel (le_trans (le_max_right _ _) hf)).1
  rw [hr] at e2
  exact ⟨e2, e1⟩

/-- C12 at a concrete input: `theta = 1`, `k = 3`. -/
theorem CorrectAngle_periodic_witness :
    (∀ j : ℤ, (1 : ℝ) ≠ kPi * (2 * (j : ℝ) + 1))
    ∧ ∃ (fuel0 : Nat) (r : ℝ), ∀ fuel : Nat, fuel0 ≤ fuel →
      CorrectAngle fuel ((1 : ℝ) + 2 * kPi * ((3 : ℤ) : ℝ)) = .ok r
        ∧ CorrectAngle fuel (1 : ℝ) = .ok r :=
  have h : ∀ j : ℤ, (1 : ℝ) ≠ kPi * (2 * (j : ℝ) + 1) := by
    intro j hj
    have hk3 : (3 : ℝ) < kPi := by norm_num [kPi]
    rcases le_or_lt 0 j with h0 | h0
    · have : (0 : ℝ) ≤ (j : ℝ) := by exact_mod_cast h0
      nlinarith
    · have : ((j : ℝ)) ≤ -1 := by exact_mod_cast (by omega : j ≤ -1)
      nlinarith
  ⟨h, CorrectAngle_periodic 1 h 3⟩

/-! ## The first pose of `calcPose` -/

theorem arg_polar (r θ : ℝ) (hr : 0 < r) (h1 : -Real.pi < θ) (h2 : θ ≤ Real.pi) :
    Complex.arg ⟨r * Real.cos θ, r * Real.sin θ⟩ = θ := by
  have e : (⟨r * Real.cos θ, r * Real.sin θ⟩ : ℂ)
      = (r : ℂ) * (Complex.cos θ + Complex.sin θ * Complex.I) := by
    apply Complex.ext
    · simp [← Complex.ofReal_cos, ← Complex.ofReal_sin]
    · simp [← Complex.ofReal_cos, ← Complex.ofReal_sin]
  rw [e]
  exact Complex.arg_mul_cos_add_sin_mul_I hr ⟨h1, h2⟩

theorem arg_diag (x : ℝ) (hx : 0 < x) :
    Complex.arg ⟨x, x⟩ = Real.pi / 4 ∧ Complex.arg ⟨-x, x⟩ = 3 * Real.pi / 4
      ∧ Complex.arg ⟨x, -x⟩ = -(Real.pi / 4) := by
  have hp := Real.pi_pos
  have h2 : Real.sqrt 2 * Real.sqrt 2 = 2 := Real.mul_self_sqrt (by norm_num)
  have hr : 0 < x * Real.sqrt 2 := mul_pos hx (Real.sqrt_pos.mpr (by norm_num))
  have c1 : x * Real.sqrt 2 * (Real.sqrt 2 / 2) = x := by
    rw [mul_assoc, ← mul_div_assoc, h2]; ring
  refine ⟨?_, ?_, ?_⟩
  · have := arg_polar (x * Real.sqrt 2) (Real.pi / 4) hr (by linarith) (by linarith)
    rwa [Real.cos_pi_div_four, Real.sin_pi_div_four, c1] at this
  · have := arg_polar (x * Real.sqrt 2) (3 * Real.pi / 4) hr (by linarith) (by linarith)
    rw [show 3 * Real.pi / 4 = Real.pi - Real.pi / 4 by ring, Real.cos_pi_sub, Real.sin_pi_sub,
      Real.cos_pi_div_four, Real.sin_pi_div_four, mul_neg, c1] at this
    rw [this]; ring
  · have := arg_polar (x * Real.sqrt 2) (-(Real.pi / 4)) hr (by linarith) (by linarith)
    rwa [Real.cos_neg, Real.sin_neg, Real.cos_pi_div_four, Real.sin_pi_div_four, mul_neg, c1]
      at this

theorem inflate_mono (D : α) :
    ∀ (n : Nat) (a b : α) (r : α × α), inflate D n a b = .ok r →
      ∀ k : Nat, n ≤ k → inflate D k a b = .ok r := by
  intro n
  induction n with
  | zero =>
    intro a b r h k _
    by_cases hT : to_root D a b < 0
    · simp [inflate, hT] at h
    · simp only [inflate, hT, if_false] at h
      cases k <;> simp only [inflate, hT, if_false, h]
  | succ n ih =>
    intro a b r h k hk
    obtain ⟨k2, rfl⟩ : ∃ k2, k = k2 + 1 := ⟨k - 1, by omega⟩
    by_cases hT : to_root D a b < 0
    · simp only [inflate, hT, if_true] at h ⊢
      exact ih _ _ r h k2 (by omega)
    · simp only [inflate, hT, if_false] at h ⊢
      exact h

theorem intersect_mono (m : CMath α) (n : Nat) (xp1 yp1 xp2 yp2 a_dist b_dist : α)
    (r : α × α × Candidates α) (h : intersect m n xp1 yp1 xp2 yp2 a_dist b_dist = .ok r)
    (k : Nat) (hk : n ≤ k) : intersect m k xp1 yp1 xp2 yp2 a_dist b_dist = .ok r := by
  simp only [intersect] at h ⊢
  cases hi : inflate (poleDistance m xp1 yp1 xp2 yp2) n a_dist b_dist with
  | error e => simp [hi] at h
  | ok ab =>
    rw [inflate_mono _ n a_dist b_dist ab hi k hk]
    rw [hi] at h
    exact h

/-- The branch of `calcPose` for the first pose (lines 320-338), once the candidates `c` are
known and both calls of `correctAngle` have returned. -/
theorem calcPose_first_branch (m : CMath α) (t : Tf α Q) (fuel : Nat) (pose_ : PoseStamped α Q)
    (pole1 pole2 : Pole α) (a b : α) (c : Candidates α) (r1 r2 : α)
    (hp : pose_.pose.x = -2000)
    (hI : intersect m fuel pole1.xy_coords.x pole1.xy_coords.y pole2.xy_coords.x
      pole2.xy_coords.y pole1.laser_coords.distance pole2.laser_coords.distance = .ok (a, b, c))
    (h1 : correctAngle fuel (kPi - pole1.laser_coords.angle
      + m.atan2 (c.y1_circle - pole1.xy_coords.y) (c.x1_circle - pole1.xy_coords.x)) = .ok r1)
    (h2 : correctAngle fuel (kPi - pole1.laser_coords.angle
      + m.atan2 (c.y2_circle - pole1.xy_coords.y) (c.x2_circle - pole1.xy_coords.x)) = .ok r2) :
    calcPose m t fuel pose_ pole1 pole2
      = if kPi + m.atan2 (c.y1_circle - pole2.xy_coords.y) (c.x1_circle - pole2.xy_coords.x)
            - (kPi - pole1.laser_coords.angle
                + m.atan2 (c.y1_circle - pole1.xy_coords.y) (c.x1_circle - pole1.xy_coords.x))
            - pole2.laser_coords.angle < 0.1 then
          .ok { x := c.x1_circle, y := c.y1_circle, z := 0
                orientation := t.createQuaternionMsgFromYaw r1 }
        else if kPi + m.atan2 (c.y1_circle - pole2.xy_coords.y) (c.x1_circle - pole2.xy_coords.x)
            - (kPi - pole1.laser_coords.angle
                + m.atan2 (c.y2_circle - pole1.xy_coords.y) (c.x2_circle - pole1.xy_coords.x))
            - pole2.laser_coords.angle < 0.1 then
          .ok { x := c.x2_circle, y := c.y2_circle, z := 0
                orientation := t.createQuaternionMsgFromYaw r2 }
        else .error .assertion := by
  simp only [calcPose, hI, hp, h1, h2, ne_eq, not_true_eq_false, if_false]
  split_ifs <;> simp_all

theorem intersect_tangent_example (m : CMath ℝ) (hsqrt : ∀ x, m.sqrt x = Real.sqrt x)
    (fuel : Nat) :
    intersect m fuel 0 0 10 0 5 5
      = .ok (5, 5, { x1_circle := 5, y1_circle := 0, x2_circle := 5, y2_circle := 0 }) := by
  have hT : to_root (10 : ℝ) 5 5 = 0 := by norm_num [to_root]
  simp only [intersect, poleDistance_example m hsqrt,
    inflate_of_nonneg (10 : ℝ) 5 5 fuel (by rw [hT])]
  rw [if_neg (by norm_num)]
  simp only [circlePoints, hsqrt, hT, Real.sqrt_zero]
  norm_num

theorem calcPose_diagonal_example (b_ang : ℝ) (hb : Real.pi / 2 - 0.1 < b_ang) (fuel : Nat)
    (hf : 1 ≤ fuel) :
    calcPose (CMath.mk Real.sqrt Real.cos Real.sin (fun y x => Complex.arg ⟨x, y⟩)) yawTf fuel
        initialPose
        { xy_coords := ⟨0, 0⟩, laser_coords := ⟨Real.sqrt 50, 0⟩, time := 0, i := 0,
          visible := true }
        { xy_coords := ⟨10, 0⟩, laser_coords := ⟨Real.sqrt 50, b_ang⟩, time := 0, i := 1,
          visible := true }
      = .ok { x := 5, y := 5, z := 0, orientation := Real.pi / 4 - kPi } := by
  have hk := kPi_pos
  have hkp := kPi_lt_pi
  have hp4 := Real.pi_lt_four
  have hk3 : (3 : ℝ) < kPi := by norm_num [kPi]
  obtain ⟨d1, d2, d3⟩ := arg_diag 5 (by norm_num)
  have hI := intersect_example
    (CMath.mk Real.sqrt Real.cos Real.sin (fun y x => Complex.arg ⟨x, y⟩)) (fun _ => rfl) fuel
  have e1 : ((5 : ℝ) - 0) = 5 := by norm_num
  have e2 : ((-5 : ℝ) - 0) = -5 := by norm_num
  have e3 : ((5 : ℝ) - 10) = -5 := by norm_num
  have h1 : correctAngle fuel ((kPi : ℝ) - 0 + Complex.arg ⟨5 - 0, 5 - 0⟩)
      = .ok (Real.pi / 4 - kPi) := by
    rw [e1, d1]
    have := CorrectAngle_one_step_down (kPi - 0 + Real.pi / 4) (by linarith)
      (by rw [not_lt]; linarith) (by rw [not_lt]; linarith) fuel hf
    rw [show (kPi : ℝ) - 0 + Real.pi / 4 - 2 * kPi = Real.pi / 4 - kPi by ring] at this
    exact this
  have h2 : correctAngle fuel ((kPi : ℝ) - 0 + Complex.arg ⟨5 - 0, -5 - 0⟩)
      = .ok (kPi - 0 + -(Real.pi / 4)) := by
    rw [e1, e2, d3]
    exact CorrectAngle_of_mem fuel _ (by rw [not_lt]; linarith) (by rw [not_lt]; linarith)
  rw [calcPose_first_branch _ yawTf fuel initialPose _ _ _ _ _ _ _ rfl hI h1 h2]
  simp only [e1, e3, d1, d2, yawTf]
  rw [if_pos (by linarith)]

/-! ## One cluster and its mean -/

theorem cluster_fold_all_close (scan : List (scan_point α)) (p0 : scan_point α)
    (h0 : scan[0]? = some p0)
    (hclose : ∀ (j : Nat) (hj : j < scan.length), 1 ≤ j → closeEnough p0 scan[j] = true) :
    ∀ k : Nat, k + 1 ≤ scan.length →
      (List.range' 1 k).foldl (clusterStep scan p0) { ppp := 1, trash := [], back := p0 }
        = { ppp := k + 1, trash := List.range' 1 k
            back := { distance := ((scan.take (k + 1)).map (fun s => s.distance)).sum
                      angle := ((scan.take (k + 1)).map (fun s => s.angle)).sum } } := by
  intro k
  induction k with
  | zero =>
    intro hk
    have hlen : 0 < scan.length := by omega
    rw [List.getElem?_eq_getElem hlen] at h0
    simp only [Option.some.injEq] at h0
    simp [List.take_succ, List.getElem?_eq_getElem hlen, h0]
  | succ k ih =>
    intro hk
    have hj : k + 1 < scan.length := by omega
    rw [List.range'_1_concat, List.foldl_append, ih (by omega)]
    have hnot : 1 + k ∉ List.range' 1 k := by simp [List.mem_range'_1]
    have hj2 : 1 + k < scan.length := by omega
    simp only [List.foldl_cons, List.foldl_nil, clusterStep, hnot, if_false,
      List.getElem?_eq_getElem hj2, hclose (1 + k) hj2 (by omega), if_true]
    have e : 1 + k = k + 1 := by omega
    simp only [e]
    have key : ∀ f : scan_point α → α,
        ((scan.take (k + 1 + 1)).map f).sum = ((scan.take (k + 1)).map f).sum + f scan[k + 1] := by
      intro f
      rw [List.take_succ, List.getElem?_eq_getElem hj]
      simp only [Option.toList, List.map_append, List.sum_append, List.map_cons, List.map_nil,
        List.sum_cons, List.sum_nil, add_zero]
    rw [key, key]

theorem MinimizeScans_all_close (p0 : scan_point α) (rest : List (scan_point α))
    (h : ∀ r ∈ rest, closeEnough p0 r = true) :
    MinimizeScans (p0 :: rest)
      = [{ distance := mean ((p0 :: rest).map (fun s => s.distance))
           angle := mean ((p0 :: rest).map (fun s => s.angle)) }] := by
  have hclose : ∀ (j : Nat) (hj : j < (p0 :: rest).length), 1 ≤ j →
      closeEnough p0 (p0 :: rest)[j] = true := by
    intro j hj h1
    obtain ⟨j2, rfl⟩ : ∃ j2, j = j2 + 1 := ⟨j - 1, by omega⟩
    simp only [List.getElem_cons_succ]
    exact h _ (List.getElem_mem _)
  have hfold := cluster_fold_all_close (p0 :: rest) p0 (by simp) hclose rest.length (by simp)
  have hstep0 : minimizeStep (p0 :: rest) ([], []) 0
      = ([{ distance := mean ((p0 :: rest).map (fun s => s.distance))
            angle := mean ((p0 :: rest).map (fun s => s.angle)) }],
          List.range' 1 rest.length ++ [0]) := by
    have hlen : (p0 :: rest).length - (0 + 1) = rest.length := by simp
    simp only [minimizeStep, List.not_mem_nil, if_false, List.getElem?_cons_zero, hlen]
    by_cases hr : 0 + 1 ≠ (p0 :: rest).length
    · rw [if_pos hr]
      simp only [zero_add] at hfold ⊢
      rw [hfold]
      simp [mean]
    · rw [if_neg hr]
      have hr2 : rest = [] := by
        simp only [List.length_cons, zero_add, ne_eq, not_not] at hr
        exact List.eq_nil_of_length_eq_zero (by omega)
      subst hr2
      simp [mean]
  unfold MinimizeScans
  simp only [List.isEmpty_cons, Bool.false_eq_true, if_false, List.length_cons]
  rw [List.range_succ_eq_map, List.foldl_cons, hstep0]
  rw [foldl_fixed]
  intro i hi
  have hi2 : i ∈ List.range' 1 rest.length ++ [0] := by
    simp only [List.mem_map, List.mem_range] at hi
    obtain ⟨i2, hi3, rfl⟩ := hi
    simp only [List.mem_append, List.mem_range'_1]
    left; omega
  simp only [minimizeStep, hi2, if_true]

/-- C17: for a non-empty list of scan points in which every later point is within both
thresholds of the seed `p0`, `MinimizeScans` returns exactly one observation, whose angle is
the arithmetic mean of all angles and whose distance is the arithmetic mean of all
distances. -/
theorem MinimizeScans_cluster_mean (p0 : scan_point α) (rest : List (scan_point α))
    (h : ∀ r ∈ rest, |(p0.angle - r.angle) * p0.distance| < 0.2
      ∧ |p0.distance - r.distance| < 0.2) :
    MinimizeScans (p0 :: rest)
      = [{ distance := mean ((p0 :: rest).map (fun s => s.distance))
           angle := mean ((p0 :: rest).map (fun s => s.angle)) }]
    ∧ (MinimizeScans (p0 :: rest)).length = 1 := by
  have hc : ∀ r ∈ rest, closeEnough p0 r = true := by
    intro r hr
    obtain ⟨h1, h2⟩ := h r hr
    simp [closeEnough, h1, h2]
  have e := MinimizeScans_all_close p0 rest hc
  exact ⟨e, by rw [e]; rfl⟩

/-- C17 at a concrete input: readings at distances `1`, `1.1`, `1.15` and angles `0`, `0.01`,
`0.02` give the single observation `(3.25 / 3, 0.03 / 3)`. -/
theorem MinimizeScans_cluster_mean_witness :
    (∀ r ∈ ([⟨1.1, 0.01⟩, ⟨1.15, 0.02⟩] : List (scan_point ℚ)),
        |((⟨1, 0⟩ : scan_point ℚ).angle - r.angle) * (⟨1, 0⟩ : scan_point ℚ).distance| < 0.2
        ∧ |(⟨1, 0⟩ : scan_point ℚ).distance - r.distance| < 0.2)
    ∧ MinimizeScans ([⟨1, 0⟩, ⟨1.1, 0.01⟩, ⟨1.15, 0.02⟩] : List (scan_point ℚ))
        = [⟨3.25 / 3, 0.03 / 3⟩] := by
  have h : ∀ r ∈ ([⟨1.1, 0.01⟩, ⟨1.15, 0.02⟩] : List (scan_point ℚ)),
      |((⟨1, 0⟩ : scan_point ℚ).angle - r.angle) * (⟨1, 0⟩ : scan_point ℚ).distance| < 0.2
      ∧ |(⟨1, 0⟩ : scan_point ℚ).distance - r.distance| < 0.2 := by
    simp only [List.mem_cons, List.mem_singleton, List.not_mem_nil, or_false, forall_eq_or_imp,
      forall_eq, abs_lt]
    norm_num
  refine ⟨h, ?_⟩
  rw [(MinimizeScans_cluster_mean _ _ h).1]
  simp [mean]
  norm_num

/-! ## Initiation with fewer than two landmarks -/

theorem InitiatePoles_enough_frames (m : CMath α) (oobRange : α) (oobXY : xy_point α)
    (now : Nat → Nat) (frames : List (LaserScan α)) (loc : Loc α Q)
    (h25 : 25 ≤ frames.length) :
    InitiatePoles m oobRange oobXY now frames loc
      = { loc with
          poles_ := loc.poles_ ++
            (MinimizeScans ((frames.map (ExtractPoleScans oobRange)).foldl
              (fun acc l => acc ++ l) [])).enum.map
              (fun e => Pole.mk4
                ((ScanToXY m oobXY (MinimizeScans ((frames.map
                  (ExtractPoleScans oobRange)).foldl (fun acc l => acc ++ l) []))).getD e.1 oobXY)
                e.2 (now e.1) e.1)
          initiation_ := false } := by
  have h : ¬ ((frames.map (ExtractPoleScans oobRange)).length < 25) := by
    simp only [List.length_map]; omega
  simp only [InitiatePoles, h, if_false]

/-- C14: a window of at least 25 cycles that yields fewer than two averaged observations does
not make `InitiatePoles` fail: `ScanToXY` reads `xy_vector[1]` (and, with no observation,
`xy_vector[0]`) past the end, one landmark is created for each averaged observation, and
`initiation_` is set to `false`. -/
theorem InitiatePoles_too_few_landmarks (m : CMath α) (oobRange : α) (oobXY : xy_point α)
    (now : Nat → Nat) (frames : List (LaserScan α)) (loc : Loc α Q)
    (h25 : 25 ≤ frames.length)
    (hfew : (MinimizeScans ((frames.map (ExtractPoleScans oobRange)).foldl
      (fun acc l => acc ++ l) [])).length < 2) :
    (InitiatePoles m oobRange oobXY now frames loc).initiation_ = false
    ∧ (InitiatePoles m oobRange oobXY now frames loc).poles_.length
        = loc.poles_.length + (MinimizeScans ((frames.map (ExtractPoleScans oobRange)).foldl
            (fun acc l => acc ++ l) [])).length
    ∧ (InitiatePoles m oobRange oobXY now frames loc).poles_.length < loc.poles_.length + 2 := by
  rw [InitiatePoles_enough_frames m oobRange oobXY now frames loc h25]
  simp only [List.length_append, List.length_map, List.enum_length, true_and]
  omega

theorem ExtractPoleScans_one_reading (oob : α) :
    ExtractPoleScans oob
        { angle_min := 0, angle_increment := 0.01, ranges := [5], intensities := [2000] }
      = [⟨5, 0⟩] := by
  have e : (List.range ([2000] : List α).length).filterMap (fun i =>
      if ([2000] : List α).getD i 0 > 1000 then
        some ({ distance := ([5] : List α).getD i oob, angle := 0 + 0.01 * (i : α) } :
          scan_point α)
      else none) = [⟨5, 0⟩] := by
    have h2 : (1000 : α) < 2000 := by norm_num
    simp [List.range, List.range.loop, List.filterMap_cons, h2]
  simp only [ExtractPoleScans, e]
  exact MinimizeScans_of_separated _ (by simp [Separated])

theorem concat_replicate {β : Type} (x : β) : ∀ (n : Nat) (acc : List β),
    (List.replicate n [x]).foldl (fun acc l => acc ++ l) acc = acc ++ List.replicate n x := by
  intro n
  induction n with
  | zero => intro acc; simp
  | succ n ih =>
    intro acc
    rw [List.replicate_succ, List.foldl_cons, ih, List.replicate_succ]
    simp

theorem averaged_one_reading (oob : α) :
    MinimizeScans (((List.replicate 25
        ({ angle_min := 0, angle_increment := 0.01, ranges := [5], intensities := [2000] } :
          LaserScan α)).map (ExtractPoleScans oob)).foldl (fun acc l => acc ++ l) [])
      = [⟨5, 0⟩] := by
  rw [List.map_replicate, ExtractPoleScans_one_reading, concat_replicate, List.nil_append,
    List.replicate_succ]
  rw [MinimizeScans_all_close]
  · simp only [mean, List.map_cons, List.map_replicate, List.sum_cons, List.sum_replicate,
      List.length_cons, List.length_replicate]
    norm_num
  · intro r hr
    rw [List.eq_of_mem_replicate hr]
    simp [closeEnough]
    norm_num

/-- C14 at a concrete input: 25 frames with one reflective reading each, from the state left
by the constructor. One landmark is created and the phase is switched. -/
theorem InitiatePoles_too_few_landmarks_witness :
    25 ≤ (List.replicate 25
        ({ angle_min := 0, angle_increment := 0.01, ranges := [5], intensities := [2000] } :
          LaserScan ℝ)).length
    ∧ (MinimizeScans (((List.replicate 25
        ({ angle_min := 0, angle_increment := 0.01, ranges := [5], intensities := [2000] } :
          LaserScan ℝ)).map (ExtractPoleScans 0)).foldl (fun acc l => acc ++ l) [])).length < 2
    ∧ (InitiatePoles (CMath.mk Real.sqrt Real.cos Real.sin (fun y x => Complex.arg ⟨x, y⟩))
          0 ⟨0, 0⟩ (fun _ => 1)
          (List.replicate 25
            { angle_min := 0, angle_increment := 0.01, ranges := [5], intensities := [2000] })
          (Loc.initial (0 : ℝ))).initiation_ = false
    ∧ (InitiatePoles (CMath.mk Real.sqrt Real.cos Real.sin (fun y x => Complex.arg ⟨x, y⟩))
          0 ⟨0, 0⟩ (fun _ => 1)
          (List.replicate 25
            { angle_min := 0, angle_increment := 0.01, ranges := [5], intensities := [2000] })
          (Loc.initial (0 : ℝ))).poles_.length = 1 := by
  have h25 : 25 ≤ (List.replicate 25
      ({ angle_min := 0, angle_increment := 0.01, ranges := [5], intensities := [2000] } :
        LaserScan ℝ)).length := by simp
  have hfew : (MinimizeScans (((List.replicate 25
      ({ angle_min := 0, angle_increment := 0.01, ranges := [5], intensities := [2000] } :
        LaserScan ℝ)).map (ExtractPoleScans 0)).foldl (fun acc l => acc ++ l) [])).length < 2 := by
    rw [averaged_one_reading]; simp
  obtain ⟨h1, h2, _⟩ := InitiatePoles_too_few_landmarks
    (CMath.mk Real.sqrt Real.cos Real.sin (fun y x => Complex.arg ⟨x, y⟩)) 0 ⟨0, 0⟩
    (fun _ => 1) _ (Loc.initial (0 : ℝ)) h25 hfew
  refine ⟨h25, hfew, h1, ?_⟩
  rw [h2, averaged_one_reading]
  simp [Loc.initial]

/-! ## Failure of the association -/

theorem current_dist_bounded (m : CMath ℝ) (hcos : ∀ x, m.cos x = Real.cos x)
    (hsin : ∀ x, m.sin x = Real.sin x) (s c : scan_point ℝ)
    (hs : 0 ≤ s.distance ∧ s.distance ≤ 100) (hc : 0 ≤ c.distance ∧ c.distance ≤ 100) :
    current_dist m s c < 2000000 := by
  have h1 := Real.sin_sq_add_cos_sq s.angle
  have h2 := Real.sin_sq_add_cos_sq c.angle
  have h3 : 0 ≤ (Real.cos s.angle + Real.cos c.angle) ^ 2
      + (Real.sin s.angle + Real.sin c.angle) ^ 2 := by positivity
  have h4 : -1 ≤ Real.cos s.angle * Real.cos c.angle + Real.sin s.angle * Real.sin c.angle := by
    nlinarith
  have h5 : 0 ≤ s.distance * c.distance := mul_nonneg hs.1 hc.1
  have e : current_dist m s c
      = s.distance ^ 2 * (Real.sin s.angle ^ 2 + Real.cos s.angle ^ 2)
        + c.distance ^ 2 * (Real.sin c.angle ^ 2 + Real.cos c.angle ^ 2)
        - 2 * (s.distance * c.distance)
          * (Real.cos s.angle * Real.cos c.angle + Real.sin s.angle * Real.sin c.angle) := by
    simp only [current_dist, hcos, hsin]; ring
  rw [e, h1, h2]
  nlinarith [hs.1, hs.2, hc.1, hc.2]

theorem associate_ok_of_near (m : CMath α) (ct : Nat) :
    ∀ (scans : List (scan_point α)) (poles : List (Pole α)), poles ≠ [] →
      (∀ s ∈ scans, ∀ p ∈ poles, current_dist m s p.laser_coords < 2000000) →
      (∀ s ∈ scans, ∀ s2 ∈ scans, current_dist m s s2 < 2000000) →
      ∃ final : List (Pole α), associate m ct scans poles = .ok final := by
  intro scans
  induction scans with
  | nil => intro poles _ _ _; exact ⟨poles, rfl⟩
  | cons scan rest ih =>
    intro poles hne hp hs
    obtain ⟨k, hk, _⟩ := closestPole_spec m scan poles hne (hp scan (by simp))
    have hk1 : ¬ ((k : Int) = -1) := by omega
    have hne2 : poles.modify (fun p => p.update scan ct) k ≠ [] := by simpa using hne
    have hp2 : ∀ s ∈ rest, ∀ p ∈ poles.modify (fun p => p.update scan ct) k,
        current_dist m s p.laser_coords < 2000000 := by
      intro s hsr p hpm
      rcases mem_modify _ poles k p hpm with h | ⟨y, _, rfl⟩
      · exact hp s (by simp [hsr]) p h
      · exact hs s (by simp [hsr]) scan (by simp)
    have hs2 : ∀ s ∈ rest, ∀ s2 ∈ rest, current_dist m s s2 < 2000000 := by
      intro s hsr s2 hs2; exact hs s (by simp [hsr]) s2 (by simp [hs2])
    obtain ⟨final, hf⟩ := ih _ hne2 hp2 hs2
    exact ⟨final, by simp only [associate, hk, hk1, if_false, Int.toNat_ofNat, hf]⟩

/-- C15: with every range involved between `0` and `100`, the association loop of
`UpdatePoles` fails its `assert(index != -1)` if and only if the observation list is non-empty
and the landmark set is empty; it stops for no other reason. -/
theorem associate_fails_iff (m : CMath ℝ) (hcos : ∀ x, m.cos x = Real.cos x)
    (hsin : ∀ x, m.sin x = Real.sin x) (ct : Nat) (scans : List (scan_point ℝ))
    (poles : List (Pole ℝ))
    (hs : ∀ s ∈ scans, 0 ≤ s.distance ∧ s.distance ≤ 100)
    (hp : ∀ p ∈ poles, 0 ≤ p.laser_coords.distance ∧ p.laser_coords.distance ≤ 100) :
    (associate m ct scans poles = .error .assertion ↔ scans ≠ [] ∧ poles = [])
    ∧ (track m ct scans poles = .error .assertion ↔ scans ≠ [] ∧ poles = [])
    ∧ ∀ e : Fault, associate m ct scans poles = .error e → e = .assertion := by
  have key : (associate m ct scans poles = .error .assertion ↔ scans ≠ [] ∧ poles = [])
      ∧ ∀ e : Fault, associate m ct scans poles = .error e → e = .assertion := by
    by_cases hpe : poles = []
    · subst hpe
      cases scans with
      | nil => simp [associate]
      | cons s rest => simp [associate, closestPole, closestLoop]
    · obtain ⟨final, hf⟩ := associate_ok_of_near m ct scans poles hpe
        (fun s hs1 p hp1 => current_dist_bounded m hcos hsin s p.laser_coords (hs s hs1)
          (hp p hp1))
        (fun s hs1 s2 hs2 => current_dist_bounded m hcos hsin s s2 (hs s hs1) (hs s2 hs2))
      simp [hf, hpe]
  refine ⟨key.1, ?_, key.2⟩
  rw [← key.1]
  cases ha : associate m ct scans poles with
  | error e => simp [track, ha]
  | ok final => simp [track, ha]

/-- C15 at a concrete input: one reading against `examplePoles`, and one reading against no
landmark. -/
theorem associate_fails_iff_witness :
    (∀ s ∈ ([⟨5, 0⟩] : List (scan_point ℝ)), 0 ≤ s.distance ∧ s.distance ≤ 100)
    ∧ (∀ p ∈ examplePoles Real.pi, 0 ≤ p.laser_coords.distance ∧ p.laser_coords.distance ≤ 100)
    ∧ ¬ (associate (CMath.mk Real.sqrt Real.cos Real.sin (fun y x => Complex.arg ⟨x, y⟩)) 1
          [⟨5, 0⟩] (examplePoles Real.pi) = .error .assertion)
    ∧ associate (CMath.mk Real.sqrt Real.cos Real.sin (fun y x => Complex.arg ⟨x, y⟩)) 1
          [⟨5, 0⟩] ([] : List (Pole ℝ)) = .error .assertion := by
  have h1 : ∀ s ∈ ([⟨5, 0⟩] : List (scan_point ℝ)), 0 ≤ s.distance ∧ s.distance ≤ 100 := by
    simp; norm_num
  have h2 : ∀ p ∈ examplePoles Real.pi,
      0 ≤ p.laser_coords.distance ∧ p.laser_coords.distance ≤ 100 := by
    simp [examplePoles]; norm_num
  refine ⟨h1, h2, ?_, ?_⟩
  · rw [(associate_fails_iff _ (fun _ => rfl) (fun _ => rfl) 1 _ _ h1 h2).1]
    simp [examplePoles]
  · rw [(associate_fails_iff _ (fun _ => rfl) (fun _ => rfl) 1 _ _ h1 (by simp)).1]
    simp

/-! ## The phase changes one way -/

theorem to_root_nonneg_of_le (D a b : α) (hD : 0 ≤ D) (hab : |a - b| ≤ D) (h : D ≤ a + b) :
    0 ≤ to_root D a b := by
  rw [to_root_factor]
  have h1 : D ^ 2 ≤ (a + b) ^ 2 := pow_le_pow_left₀ hD h 2
  have h2 : (a - b) ^ 2 ≤ D ^ 2 := by
    rw [← sq_abs (a - b)]
    exact pow_le_pow_left₀ (abs_nonneg _) hab 2
  exact mul_nonneg (sub_nonneg.mpr h1) (sub_nonneg.mpr h2)

theorem to_root_neg_of_contained (D a b : α) (hD : 0 ≤ D) (hab : D < |a - b|)
    (h : |a - b| ≤ a + b) : to_root D a b < 0 := by
  rw [to_root_factor]
  have h2 : D ^ 2 < (a - b) ^ 2 := by
    rw [← sq_abs (a - b)]
    exact pow_lt_pow_left₀ hab hD (by norm_num)
  have h1 : D ^ 2 < (a + b) ^ 2 :=
    pow_lt_pow_left₀ (lt_of_lt_of_le hab h) hD (by norm_num)
  exact mul_neg_of_pos_of_neg (sub_pos.mpr h1) (sub_neg.mpr h2)

theorem abs_sub_le_add_of_nonneg (a b : α) (ha : 0 ≤ a) (hb : 0 ≤ b) : |a - b| ≤ a + b := by
  rw [abs_le]; constructor <;> linarith

theorem inflate_reaches_of_le (D : α) (hD : 0 ≤ D) :
    ∀ (n : Nat) (a b : α), |a - b| ≤ D → D ≤ a + b + 0.002 * (n : α) →
      ∃ r : α × α, inflate D n a b = .ok r ∧ 0 ≤ to_root D r.1 r.2 := by
  intro n
  induction n with
  | zero =>
    intro a b hab h
    have h0 : D ≤ a + b := by simpa using h
    have hT := to_root_nonneg_of_le D a b hD hab h0
    exact ⟨(a, b), by simp [inflate, not_lt.mpr hT], hT⟩
  | succ n ih =>
    intro a b hab h
    by_cases hT : to_root D a b < 0
    · have hab2 : |(a + 0.001) - (b + 0.001)| ≤ D := by
        rw [show (a + 0.001) - (b + 0.001) = a - b by ring]; exact hab
      have h2 : D ≤ (a + 0.001) + (b + 0.001) + 0.002 * (n : α) := by
        have e : (a + 0.001) + (b + 0.001) + 0.002 * (n : α)
            = a + b + 0.002 * ((n + 1 : Nat) : α) := by
          push_cast; ring
        rw [e]; exact h
      obtain ⟨r, hr, hr2⟩ := ih _ _ hab2 h2
      exact ⟨r, by simp [inflate, hT, hr], hr2⟩
    · exact ⟨(a, b), by simp [inflate, hT], not_lt.mp hT⟩

/-- C18: for `D, a, b >= 0` some number of inflation steps makes the discriminant
non-negative if and only if `|a - b| <= D`. In that case the loop of `calcPose` stops (with
enough fuel it returns ranges with a non-negative discriminant); when `|a - b| > D` it runs out
of every amount of fuel. -/
theorem inflate_stops_iff (D a b : ℝ) (hD : 0 ≤ D) (ha : 0 ≤ a) (hb : 0 ≤ b) :
    ((∃ n : Nat, 0 ≤ to_root D (a + 0.001 * (n : ℝ)) (b + 0.001 * (n : ℝ))) ↔ |a - b| ≤ D)
    ∧ (|a - b| ≤ D → ∃ (fuel0 : Nat) (r : ℝ × ℝ), ∀ fuel : Nat, fuel0 ≤ fuel →
        inflate D fuel a b = .ok r ∧ 0 ≤ to_root D r.1 r.2)
    ∧ (D < |a - b| → ∀ fuel : Nat, inflate D fuel a b = .error .fuel) := by
  have hnest : D < |a - b| → ∀ n : Nat,
      to_root D (a + 0.001 * (n : ℝ)) (b + 0.001 * (n : ℝ)) < 0 := by
    intro h n
    have hn : (0 : ℝ) ≤ 0.001 * (n : ℝ) := by positivity
    have e : a + 0.001 * (n : ℝ) - (b + 0.001 * (n : ℝ)) = a - b := by ring
    apply to_root_neg_of_contained D _ _ hD
    · rw [e]; exact h
    · exact abs_sub_le_add_of_nonneg _ _ (by linarith) (by linarith)
  have hreach : |a - b| ≤ D → ∃ n : Nat, D ≤ a + b + 0.002 * (n : ℝ) := by
    intro _
    obtain ⟨n, hn⟩ := exists_nat_ge ((D - a - b) / 0.002)
    refine ⟨n, ?_⟩
    rw [div_le_iff₀ (by norm_num)] at hn
    linarith
  refine ⟨⟨?_, ?_⟩, ?_, ?_⟩
  · rintro ⟨n, hn⟩
    by_contra hc
    exact absurd hn (not_le.mpr (hnest (not_le.mp hc) n))
  · intro hab
    obtain ⟨n, hn⟩ := hreach hab
    refine ⟨n, ?_⟩
    apply to_root_nonneg_of_le D _ _ hD
    · rw [show a + 0.001 * (n : ℝ) - (b + 0.001 * (n : ℝ)) = a - b by ring]; exact hab
    · linarith
  · intro hab
    obtain ⟨n, hn⟩ := hreach hab
    obtain ⟨r, hr, hr2⟩ := inflate_reaches_of_le D hD n a b hab hn
    exact ⟨n, r, fun fuel hf => ⟨inflate_mono D n a b r hr fuel hf, hr2⟩⟩
  · intro hab fuel
    exact inflate_stuck D fuel a b (fun k _ => hnest hab k)

/-- C18 at a concrete input: `D = 1`, `a = 2`, `b = 1.5`. -/
theorem inflate_stops_iff_witness :
    (0 : ℝ) ≤ 1 ∧ (0 : ℝ) ≤ 2 ∧ (0 : ℝ) ≤ 1.5
    ∧ ((∃ n : Nat, 0 ≤ to_root (1 : ℝ) (2 + 0.001 * (n : ℝ)) (1.5 + 0.001 * (n : ℝ)))
        ↔ |(2 : ℝ) - 1.5| ≤ 1) :=
  ⟨by norm_num, by norm_num, by norm_num,
    (inflate_stops_iff 1 2 1.5 (by norm_num) (by norm_num) (by norm_num)).1⟩

/-! ## Reads of GetPose past the end -/

theorem skipInvisibleReads_eq (poles : List (Pole α)) (oob : Pole α) :
    ∀ (fuel j : Nat), poles.length ≤ fuel + j → j ≤ poles.length →
      skipInvisibleReads poles oob fuel j
        = List.range' j (skipInvisible poles oob fuel j - j + 1) := by
  intro fuel
  induction fuel with
  | zero => intro j _ _; simp [skipInvisibleReads, skipInvisible]
  | succ n ih =>
    intro j h1 h2
    by_cases hc : (!visibleAt poles oob j && decide (j < poles.length)) = true
    · have hj : j < poles.length := by
        simp only [Bool.and_eq_true, decide_eq_true_eq] at hc; exact hc.2
      have hle := (skipInvisible_spec poles oob n (j + 1) (by omega) (by omega)).1
      have e : skipInvisible poles oob n (j + 1) - j + 1
          = (skipInvisible poles oob n (j + 1) - (j + 1) + 1) + 1 := by omega
      have e1 : skipInvisibleReads poles oob (n + 1) j
          = j :: skipInvisibleReads poles oob n (j + 1) := by
        simp only [skipInvisibleReads, hc, if_true]
      have e2 : skipInvisible poles oob (n + 1) j = skipInvisible poles oob n (j + 1) := by
        simp only [skipInvisible, hc, if_true]
      rw [e1, e2, ih (j + 1) (by omega) (by omega), e]
      rfl
    · have e1 : skipInvisibleReads poles oob (n + 1) j = [j] := by
        simp only [skipInvisibleReads, hc]; simp
      rw [e1, skipInvisible_stop poles oob (n + 1) j hc]
      simp

theorem GetPoseReads_mem (poles : List (Pole α)) (oob : Pole α) (n i : Nat)
    (hi : i < poles.length) (r : Nat) :
    r ∈ GetPoseReads poles oob (n + 1) i ↔
      if poles[i].visible = true then
        r = i
        ∨ (i + 1 ≤ r ∧ r ≤ skipInvisible poles oob poles.length (i + 1))
        ∨ (skipInvisible poles oob poles.length (i + 1) < poles.length
            ∧ (r = skipInvisible poles oob poles.length (i + 1)
              ∨ r ∈ GetPoseReads poles oob n
                  (skipInvisible poles oob poles.length (i + 1) + 1)))
      else r = i ∨ r ∈ GetPoseReads poles oob n (i + 1) := by
  obtain ⟨s1, s2, _, _⟩ :=
    skipInvisible_spec poles oob poles.length (i + 1) (by omega) (by omega)
  have hreads := skipInvisibleReads_eq poles oob poles.length (i + 1) (by omega) (by omega)
  by_cases hv : poles[i].visible = true
  · have hva : ¬ (visibleAt poles oob i = false) := by
      simp [visibleAt_of_lt poles oob i hi, hv]
    rw [if_pos hv]
    have e : GetPoseReads poles oob (n + 1) i
        = i :: (List.range' (i + 1) (skipInvisible poles oob poles.length (i + 1) - (i + 1) + 1)
          ++ (if skipInvisible poles oob poles.length (i + 1) > poles.length - 1 then []
              else
                i :: skipInvisible poles oob poles.length (i + 1) ::
                  GetPoseReads poles oob n
                    (skipInvisible poles oob poles.length (i + 1) + 1))) := by
      rw [← hreads]
      simp only [GetPoseReads, hi, hva, if_true, Bool.true_eq_false, if_false]
    rw [e]
    by_cases hj : skipInvisible poles oob poles.length (i + 1) > poles.length - 1
    · rw [if_pos hj]
      simp only [List.mem_cons, List.mem_append, List.mem_range'_1, List.not_mem_nil, or_false]
      constructor
      · rintro (h | ⟨h1, h2⟩)
        · exact Or.inl h
        · exact Or.inr (Or.inl ⟨h1, by omega⟩)
      · rintro (h | ⟨h1, h2⟩ | ⟨h1, _⟩)
        · exact Or.inl h
        · exact Or.inr ⟨h1, by omega⟩
        · omega
    · rw [if_neg hj]
      simp only [List.mem_cons, List.mem_append, List.mem_range'_1]
      constructor
      · rintro (h | ⟨h1, h2⟩ | h | h | h)
        · exact Or.inl h
        · exact Or.inr (Or.inl ⟨h1, by omega⟩)
        · exact Or.inl h
        · exact Or.inr (Or.inr ⟨by omega, Or.inl h⟩)
        · exact Or.inr (Or.inr ⟨by omega, Or.inr h⟩)
      · rintro (h | ⟨h1, h2⟩ | ⟨_, h | h⟩)
        · exact Or.inl h
        · exact Or.inr (Or.inl ⟨h1, by omega⟩)
        · exact Or.inr (Or.inr (Or.inr (Or.inl h)))
        · exact Or.inr (Or.inr (Or.inr (Or.inr h)))
  · have hv2 : poles[i].visible = false := by simpa using hv
    have hva : visibleAt poles oob i = false := by
      simp [visibleAt_of_lt poles oob i hi, hv2]
    rw [if_neg hv]
    have e : GetPoseReads poles oob (n + 1) i = i :: GetPoseReads poles oob n (i + 1) := by
      simp only [GetPoseReads, hi, hva, if_true]
    rw [e, List.mem_cons]

theorem GetPoseReads_spec (poles : List (Pole α)) (oob : Pole α) :
    ∀ (n i : Nat), poles.length ≤ n + i →
      (poles.length ∈ GetPoseReads poles oob n i
        ↔ (visiblePoles (poles.drop i)).length % 2 = 1)
      ∧ ∀ r ∈ GetPoseReads poles oob n i, r ≤ poles.length := by
  intro n
  induction n with
  | zero =>
    intro i h
    have : poles.drop i = [] := List.drop_eq_nil_of_le (by omega)
    simp [GetPoseReads, this, visiblePoles]
  | succ n ih =>
    intro i h
    by_cases hi : i < poles.length
    · obtain ⟨s1, s2, s3, s4⟩ :=
        skipInvisible_spec poles oob poles.length (i + 1) (by omega) (by omega)
      by_cases hv : poles[i].visible = true
      · rw [visiblePoles_drop_of_visible poles i hi hv, s3]
        by_cases hj : skipInvisible poles oob poles.length (i + 1) < poles.length
        · obtain ⟨i1, i2⟩ := ih (skipInvisible poles oob poles.length (i + 1) + 1) (by omega)
          rw [visiblePoles_drop_of_visible poles _ hj (s4 hj)]
          constructor
          · rw [GetPoseReads_mem poles oob n i hi, if_pos hv, List.length_cons, List.length_cons]
            constructor
            · rintro (h | ⟨_, h⟩ | ⟨_, h | h⟩)
              · omega
              · omega
              · omega
              · have := i1.mp h; omega
            · intro hodd
              exact Or.inr (Or.inr ⟨hj, Or.inr (i1.mpr (by omega))⟩)
          · intro r hr
            rw [GetPoseReads_mem poles oob n i hi, if_pos hv] at hr
            rcases hr with h | ⟨_, h⟩ | ⟨_, h | h⟩
            · omega
            · omega
            · omega
            · exact i2 r h
        · have hjl : skipInvisible poles oob poles.length (i + 1) = poles.length := by omega
          have hd : poles.drop (skipInvisible poles oob poles.length (i + 1)) = [] :=
            List.drop_eq_nil_of_le (by omega)
          constructor
          · rw [GetPoseReads_mem poles oob n i hi, if_pos hv, hd]
            constructor
            · intro _; simp [visiblePoles]
            · intro _; exact Or.inr (Or.inl ⟨by omega, by omega⟩)
          · intro r hr
            rw [GetPoseReads_mem poles oob n i hi, if_pos hv] at hr
            rcases hr with h | ⟨_, h⟩ | ⟨h, _⟩
            · omega
            · omega
            · omega
      · have hv2 : poles[i].visible = false := by simpa using hv
        obtain ⟨i1, i2⟩ := ih (i + 1) (by omega)
        rw [visiblePoles_drop_of_invisible poles i hi hv2]
        constructor
        · rw [GetPoseReads_mem poles oob n i hi, if_neg hv]
          constructor
          · rintro (h | h)
            · omega
            · exact i1.mp h
          · intro hodd; exact Or.inr (i1.mpr hodd)
        · intro r hr
          rw [GetPoseReads_mem poles oob n i hi, if_neg hv] at hr
          rcases hr with h | h
          · omega
          · exact i2 r h
    · have : poles.drop i = [] := List.drop_eq_nil_of_le (by omega)
      simp [GetPoseReads, hi, this, visiblePoles]

/-- C19: the pairing loop of `GetPose` reads `poles_` at the index `poles_.size()`, one past
the end, exactly when the number of visible landmarks is odd: line 186 reads `poles_[j]`
before it compares `j` with `poles_.size()`. No read goes further than that. -/
theorem GetPose_reads_past_end (poles : List (Pole α)) (oob : Pole α) :
    (poles.length ∈ GetPoseReads poles oob poles.length 0
      ↔ (visiblePoles poles).length % 2 = 1)
    ∧ ∀ r ∈ GetPoseReads poles oob poles.length 0, r ≤ poles.length := by
  have h := GetPoseReads_spec poles oob poles.length 0 (by omega)
  simpa using h

/-- With one landmark, visible, the reads of the pairing loop are `poles_[0]` and
`poles_[1]`. -/
theorem GetPoseReads_one_visible :
    GetPoseReads
        [({ xy_coords := ⟨0, 0⟩, laser_coords := ⟨5, 0⟩, time := 1, i := 0, visible := true } :
          Pole ℚ)]
        { xy_coords := ⟨0, 0⟩, laser_coords := ⟨0, 0⟩, time := 0, i := 0, visible := false }
        1 0 = [0, 1] := by
  simp [GetPoseReads, skipInvisibleReads, skipInvisible, visibleAt]

/-! ## The map is built by a rigid motion -/

theorem rigid_motion (c s x0 y0 a b a2 b2 : ℝ) (h : c ^ 2 + s ^ 2 = 1) :
    ((c * (a - x0) + s * (b - y0)) - (c * (a2 - x0) + s * (b2 - y0))) ^ 2
      + ((-s * (a - x0) + c * (b - y0)) - (-s * (a2 - x0) + c * (b2 - y0))) ^ 2
      = (a - a2) ^ 2 + (b - b2) ^ 2 := by
  linear_combination ((a - a2) ^ 2 + (b - b2) ^ 2) * h

theorem ScanToXY_motion (m : CMath α) (oob : xy_point α) (scan : List (scan_point α)) :
    ∃ (rot_ang x_dif y_dif : α),
      ScanToXY m oob scan = scan.map (fun p =>
        { x := m.cos rot_ang * (p.distance * m.cos p.angle - x_dif)
            + m.sin rot_ang * (p.distance * m.sin p.angle - y_dif)
          y := -m.sin rot_ang * (p.distance * m.cos p.angle - x_dif)
            + m.cos rot_ang * (p.distance * m.sin p.angle - y_dif) }) := by
  refine ⟨m.atan2
      (((scan.map (fun s =>
          (⟨s.distance * m.cos s.angle, s.distance * m.sin s.angle⟩ : xy_point α))).getD 1 oob).y
        - ((scan.map (fun s =>
          (⟨s.distance * m.cos s.angle, s.distance * m.sin s.angle⟩ : xy_point α))).getD 0 oob).y)
      (((scan.map (fun s =>
          (⟨s.distance * m.cos s.angle, s.distance * m.sin s.angle⟩ : xy_point α))).getD 1 oob).x
        - ((scan.map (fun s =>
          (⟨s.distance * m.cos s.angle, s.distance * m.sin s.angle⟩ : xy_point α))).getD 0 oob).x),
    ((scan.map (fun s =>
          (⟨s.distance * m.cos s.angle, s.distance * m.sin s.angle⟩ : xy_point α))).getD 0 oob).x,
    ((scan.map (fun s =>
          (⟨s.distance * m.cos s.angle, s.distance * m.sin s.angle⟩ : xy_point α))).getD 0 oob).y, ?_⟩
  simp only [ScanToXY, List.map_map]
  rfl

/-- C20: for a list of at least two polar observations and indices `i`, `j` of it, the
Euclidean distance between the positions `i` and `j` that `ScanToXY` returns is the
Euclidean distance between the points `(distance * cos angle, distance * sin angle)` of the
observations `i` and `j`. -/
theorem ScanToXY_rigid (m : CMath ℝ) (hcos : ∀ x, m.cos x = Real.cos x)
    (hsin : ∀ x, m.sin x = Real.sin x) (oob : xy_point ℝ)
    (scan : List (scan_point ℝ)) (_h : 2 ≤ scan.length)
    (i j : Nat) (hi : i < scan.length) (hj : j < scan.length) :
    ∃ (p q : xy_point ℝ),
      (ScanToXY m oob scan).length = scan.length
      ∧ (ScanToXY m oob scan)[i]? = some p ∧ (ScanToXY m oob scan)[j]? = some q
      ∧ Real.sqrt ((p.x - q.x) ^ 2 + (p.y - q.y) ^ 2)
        = Real.sqrt
            ((scan[i].distance * Real.cos scan[i].angle
                - scan[j].distance * Real.cos scan[j].angle) ^ 2
              + (scan[i].distance * Real.sin scan[i].angle
                - scan[j].distance * Real.sin scan[j].angle) ^ 2) := by
  obtain ⟨rot_ang, x_dif, y_dif, e⟩ := ScanToXY_motion m oob scan
  rw [e]
  refine ⟨_, _, List.length_map _ _,
    (List.getElem?_map _ _ _).trans (congrArg _ (List.getElem?_eq_getElem hi)),
    (List.getElem?_map _ _ _).trans (congrArg _ (List.getElem?_eq_getElem hj)), ?_⟩
  simp only [hcos, hsin]
  rw [rigid_motion _ _ _ _ _ _ _ _ (by rw [Real.cos_sq_add_sin_sq])]

/-- C20 at a concrete input: the readings `(5, 0)` and `(5, pi)`, which are `10` apart. -/
theorem ScanToXY_rigid_witness :
    2 ≤ ([⟨5, 0⟩, ⟨5, Real.pi⟩] : List (scan_point ℝ)).length
    ∧ ∃ (p q : xy_point ℝ),
      (ScanToXY (CMath.mk Real.sqrt Real.cos Real.sin (fun y x => Complex.arg ⟨x, y⟩)) ⟨0, 0⟩
          [⟨5, 0⟩, ⟨5, Real.pi⟩]).length = ([⟨5, 0⟩, ⟨5, Real.pi⟩] : List (scan_point ℝ)).length
      ∧ (ScanToXY (CMath.mk Real.sqrt Real.cos Real.sin (fun y x => Complex.arg ⟨x, y⟩)) ⟨0, 0⟩
          [⟨5, 0⟩, ⟨5, Real.pi⟩])[0]? = some p
      ∧ (ScanToXY (CMath.mk Real.sqrt Real.cos Real.sin (fun y x => Complex.arg ⟨x, y⟩)) ⟨0, 0⟩
          [⟨5, 0⟩, ⟨5, Real.pi⟩])[1]? = some q
      ∧ Real.sqrt ((p.x - q.x) ^ 2 + (p.y - q.y) ^ 2)
        = Real.sqrt
            (((5 : ℝ) * Real.cos 0 - 5 * Real.cos Real.pi) ^ 2
              + ((5 : ℝ) * Real.sin 0 - 5 * Real.sin Real.pi) ^ 2) :=
  ⟨by simp, ScanToXY_rigid _ (fun _ => rfl) (fun _ => rfl) ⟨0, 0⟩
    [⟨5, 0⟩, ⟨5, Real.pi⟩] (by simp) 0 1 (by simp) (by simp)⟩

/-! ## A vertical pair of landmarks; calls of `calcPose` that do not return -/

theorem arg_imag (y : ℝ) (hy : 0 < y) :
    Complex.arg ⟨0, y⟩ = Real.pi / 2 ∧ Complex.arg ⟨0, -y⟩ = -(Real.pi / 2) := by
  have hp := Real.pi_pos
  constructor
  · have := arg_polar y (Real.pi / 2) hy (by linarith) (by linarith)
    rwa [Real.cos_pi_div_two, Real.sin_pi_div_two, mul_zero, mul_one] at this
  · have := arg_polar y (-(Real.pi / 2)) hy (by linarith) (by linarith)
    rwa [Real.cos_neg, Real.sin_neg, Real.cos_pi_div_two, Real.sin_pi_div_two, mul_zero,
      mul_neg, mul_one] at this

theorem poleDistance_vertical (m : CMath ℝ) (hsqrt : ∀ x, m.sqrt x = Real.sqrt x) :
    poleDistance m 5 5 5 (-5) = 10 := by
  rw [poleDistance, hsqrt,
    show ((5 : ℝ) - 5) * (5 - 5) + (-5 - 5) * (-5 - 5) = 10 ^ 2 by norm_num,
    Real.sqrt_sq (by norm_num)]

/-- The circles of radius `a` about `(5, 5)` and `10 - a` about `(5, -5)` touch at
`(5, 5 - a)`. -/
theorem intersect_vertical (m : CMath ℝ) (hsqrt : ∀ x, m.sqrt x = Real.sqrt x) (fuel : Nat)
    (a : ℝ) :
    intersect m fuel 5 5 5 (-5) a (10 - a)
      = .ok (a, 10 - a,
          { x1_circle := 5, y1_circle := 5 - a, x2_circle := 5, y2_circle := 5 - a }) := by
  have hT : to_root (10 : ℝ) a (10 - a) = 0 := by rw [to_root]; ring
  simp only [intersect, poleDistance_vertical m hsqrt,
    inflate_of_nonneg (10 : ℝ) a (10 - a) fuel (by rw [hT])]
  rw [if_neg (by norm_num)]
  simp only [circlePoints, hsqrt, hT, Real.sqrt_zero]
  congr 3
  ring_nf

/-- The first pose from the landmarks `(5, 5)` and `(5, -5)` read at ranges `a` and `10 - a`
and bearings `-pi/2` and `pi/2`. -/
theorem calcPose_vertical_first (m : CMath ℝ) (hsqrt : ∀ x, m.sqrt x = Real.sqrt x)
    (hatan2 : ∀ y x, m.atan2 y x = Complex.arg ⟨x, y⟩) (t : Tf ℝ Q) (fuel : Nat)
    (pose_ : PoseStamped ℝ Q) (hp : pose_.pose.x = -2000) (a : ℝ) (ha : 0 < a) (ha2 : a < 10)
    (p1 p2 : Pole ℝ)
    (h1 : p1.xy_coords = ⟨5, 5⟩) (h2 : p2.xy_coords = ⟨5, -5⟩)
    (h3 : p1.laser_coords = ⟨a, -(Real.pi / 2)⟩) (h4 : p2.laser_coords = ⟨10 - a, Real.pi / 2⟩) :
    calcPose m t fuel pose_ p1 p2
      = .ok { x := 5, y := 5 - a, z := 0, orientation := t.createQuaternionMsgFromYaw kPi } := by
  have hI := intersect_vertical m hsqrt fuel a
  have e1 : Complex.arg ⟨5 - 5, 5 - a - 5⟩ = -(Real.pi / 2) := by
    rw [show ((5 : ℝ) - 5) = 0 by norm_num, show (5 - a - 5) = -a by ring]
    exact (arg_imag a ha).2
  have e2 : Complex.arg ⟨5 - 5, 5 - a - -5⟩ = Real.pi / 2 := by
    rw [show ((5 : ℝ) - 5) = 0 by norm_num, show (5 - a - -5) = 10 - a by ring]
    exact (arg_imag (10 - a) (by linarith)).1
  simp only [calcPose, h1, h2, h3, h4, hI, hp, hatan2]
  simp only [ne_eq, not_true_eq_false, if_false, e1, e2]
  rw [show (kPi : ℝ) - -(Real.pi / 2) + -(Real.pi / 2) = kPi by ring]
  simp only [correctAngle_kPi]
  norm_num

/-- The Newton step from a previous pose with yaw `kPi` is at a root: the iteration stops at
once and, the candidates being equal, the second is recorded. -/
theorem calcPose_vertical_newton (m : CMath ℝ) (hsqrt : ∀ x, m.sqrt x = Real.sqrt x)
    (hcos : ∀ x, m.cos x = Real.cos x) (hsin : ∀ x, m.sin x = Real.sin x)
    (hatan2 : ∀ y x, m.atan2 y x = Complex.arg ⟨x, y⟩) (t : Tf ℝ Q) (fuel : Nat)
    (hf : 1 ≤ fuel)
    (pose_ : PoseStamped ℝ Q) (hp : pose_.pose.x ≠ -2000)
    (hyaw : t.getYaw pose_.pose.orientation = kPi) (a : ℝ) (ha : 0 < a)
    (p1 p2 : Pole ℝ)
    (h1 : p1.xy_coords = ⟨5, 5⟩) (h2 : p2.xy_coords = ⟨5, -5⟩)
    (h3 : p1.laser_coords = ⟨a, -(Real.pi / 2)⟩) (h4 : p2.laser_coords = ⟨10 - a, Real.pi / 2⟩) :
    calcPose m t fuel pose_ p1 p2
      = .ok { x := 5, y := 5 - a, z := 0, orientation := t.createQuaternionMsgFromYaw kPi } := by
  have hI := intersect_vertical m hsqrt fuel a
  have e1 : Complex.arg ⟨5 - 5, 5 - a - 5⟩ = -(Real.pi / 2) := by
    rw [show ((5 : ℝ) - 5) = 0 by norm_num, show (5 - a - 5) = -a by ring]
    exact (arg_imag a ha).2
  obtain ⟨f, rfl⟩ : ∃ f, fuel = f + 1 := ⟨fuel - 1, by omega⟩
  have hk : (0 : ℝ) < kPi := kPi_pos
  have hgt : |(kPi : ℝ) - -2000| > 0.001 := by
    rw [abs_of_nonneg (by linarith)]; norm_num; linarith
  have c1 : Real.cos (-(Real.pi / 2) + kPi - kPi) = 0 := by
    rw [show -(Real.pi / 2) + (kPi : ℝ) - kPi = -(Real.pi / 2) by ring, Real.cos_neg,
      Real.cos_pi_div_two]
  have c2 : Real.cos (Real.pi / 2 + kPi - kPi) = 0 := by
    rw [show Real.pi / 2 + (kPi : ℝ) - kPi = Real.pi / 2 by ring, Real.cos_pi_div_two]
  have s1 : Real.sin (-(Real.pi / 2) + kPi - kPi) = -1 := by
    rw [show -(Real.pi / 2) + (kPi : ℝ) - kPi = -(Real.pi / 2) by ring, Real.sin_neg,
      Real.sin_pi_div_two]
  have s2 : Real.sin (Real.pi / 2 + kPi - kPi) = 1 := by
    rw [show Real.pi / 2 + (kPi : ℝ) - kPi = Real.pi / 2 by ring, Real.sin_pi_div_two]
  have hN : newton m a (-(Real.pi / 2)) (10 - a) (Real.pi / 2) 5 5 (f + 1) (-2000) kPi
      = .ok kPi := by
    have hd : ¬ (-a * -1 + (10 - a) * 1 = 0) := by
      rw [show -a * -1 + (10 - a) * 1 = 10 by ring]; norm_num
    have hstop : ¬ (|(kPi : ℝ) - (a * 0 + 5 - (10 - a) * 0 - 5) / (-a * -1 + (10 - a) * 1) - kPi|
        > 0.001) := by
      rw [show (kPi : ℝ) - (a * 0 + 5 - (10 - a) * 0 - 5) / (-a * -1 + (10 - a) * 1) - kPi = 0 by
        rw [show a * 0 + 5 - (10 - a) * 0 - 5 = 0 by ring]; simp]
      norm_num
    have hval : (kPi : ℝ) - (a * 0 + 5 - (10 - a) * 0 - 5) / (-a * -1 + (10 - a) * 1) = kPi := by
      rw [show a * 0 + 5 - (10 - a) * 0 - 5 = 0 by ring]; simp
    have hs0 : ¬ (|(kPi : ℝ) - kPi| > 0.001) := by
      rw [sub_self, abs_zero]; norm_num
    cases f with
    | zero =>
      simp only [newton, hgt, if_true, hcos, hsin, c1, c2, s1, s2, hd, if_false, hval, hs0]
    | succ n =>
      simp only [newton, hgt, if_true, hcos, hsin, c1, c2, s1, s2, hd, if_false, hval, hs0]
  simp only [calcPose, h1, h2, h3, h4, hI, hatan2, hyaw, hN]
  simp only [ne_eq, hp, not_false_eq_true, if_true, hcos, hsin, c1, c2, s1, s2, e1, lt_irrefl,
    if_false]
  rw [show (kPi : ℝ) - -(Real.pi / 2) + -(Real.pi / 2) = kPi by ring]

/-- Ranges `10` and `1` to landmarks `1` apart: the circle about the first landmark contains
the other circle, the inflation loop of `calcPose` uses up every amount of fuel. -/
theorem calcPose_nested_example (m : CMath ℝ) (hsqrt : ∀ x, m.sqrt x = Real.sqrt x)
    (t : Tf ℝ Q) (fuel : Nat) (pose_ : PoseStamped ℝ Q) (p1 p2 : Pole ℝ)
    (h1 : p1.xy_coords = ⟨0, 0⟩) (h2 : p2.xy_coords = ⟨1, 0⟩)
    (h3 : p1.laser_coords.distance = 10) (h4 : p2.laser_coords.distance = 1) :
    calcPose m t fuel pose_ p1 p2 = .error .fuel := by
  have hD : poleDistance m 0 0 1 0 = 1 := by
    rw [poleDistance, hsqrt, show ((1 : ℝ) - 0) * (1 - 0) + (0 - 0) * (0 - 0) = 1 by norm_num,
      Real.sqrt_one]
  have hI : inflate (1 : ℝ) fuel 10 1 = .error .fuel := by
    apply inflate_stuck
    intro k _
    have hk : (0 : ℝ) ≤ (k : ℝ) := Nat.cast_nonneg k
    have e : (10 : ℝ) + 0.001 * (k : ℝ) - (1 + 0.001 * (k : ℝ)) = 9 := by ring
    apply to_root_neg_of_nested _ _ _ (by norm_num)
    · rw [e]; norm_num
    · rw [e]; norm_num; linarith
  simp only [calcPose, intersect, h1, h2, h3, h4, hD, hI]

/-- Ranges `sqrt 50` to landmarks `10` apart with bearings `0` and `b_ang <= pi/2 - 0.1`:
neither test of lines 322-323 holds and the assertion of line 324 fails. -/
theorem calcPose_diagonal_assertion (b_ang : ℝ) (hb : b_ang ≤ Real.pi / 2 - 0.1) (fuel : Nat) :
    calcPose (CMath.mk Real.sqrt Real.cos Real.sin (fun y x => Complex.arg ⟨x, y⟩)) yawTf fuel
        initialPose
        { xy_coords := ⟨0, 0⟩, laser_coords := ⟨Real.sqrt 50, 0⟩, time := 0, i := 0,
          visible := true }
        { xy_coords := ⟨10, 0⟩, laser_coords := ⟨Real.sqrt 50, b_ang⟩, time := 0, i := 1,
          visible := true }
      = .error .assertion := by
  have hp := Real.pi_pos
  obtain ⟨d1, d2, d3⟩ := arg_diag 5 (by norm_num)
  have hI := intersect_example
    (CMath.mk Real.sqrt Real.cos Real.sin (fun y x => Complex.arg ⟨x, y⟩)) (fun _ => rfl) fuel
  have e1 : ((5 : ℝ) - 0) = 5 := by norm_num
  have e2 : ((-5 : ℝ) - 0) = -5 := by norm_num
  have e3 : ((5 : ℝ) - 10) = -5 := by norm_num
  have n1 : ¬ ((kPi : ℝ) + 3 * Real.pi / 4 - (kPi - 0 + Real.pi / 4) - b_ang < 0.1) := by
    rw [not_lt]; norm_num at hb ⊢; linarith
  have n2 : ¬ ((kPi : ℝ) + 3 * Real.pi / 4 - (kPi - 0 + -(Real.pi / 4)) - b_ang < 0.1) := by
    rw [not_lt]; norm_num at hb ⊢; linarith
  simp only [calcPose, hI, initialPose, ne_eq, not_true_eq_false, if_false, e1, e2, e3, d1, d2,
    d3, n1, n2, decide_False, Bool.or_self, Bool.not_false, if_true]

theorem runPairs_append_error (calcP : Pole α → Pole α → Except Fault (Pose α Q)) :
    ∀ (done : List (Pole α × Pole α)) (p : Pole α × Pole α) (rest : List (Pole α × Pole α))
      (ests pv : List (Pose α Q)) (e : Fault),
      List.Forall₂ (fun p e => calcP p.1 p.2 = .ok e) done ests →
      calcP p.1 p.2 = .error e →
      runPairs calcP (done ++ p :: rest) pv = .error e := by
  intro done
  induction done with
  | nil =>
    intro p rest ests pv e _ hp
    obtain ⟨a, b⟩ := p
    simp only at hp
    simp only [List.nil_append, runPairs, hp]
  | cons q done ih =>
    intro p rest ests pv e h hp
    obtain ⟨a, b⟩ := q
    cases h with
    | cons h1 h2 =>
      simp only at h1
      simp only [List.cons_append, runPairs, h1]
      exact ih p rest _ _ e h2 hp

/-! ## Pairs and means of `GetPose`, with calls that do not return -/

/-- C4, as stated, fails: a call of `calcPose` need not return, and then `GetPose` sets no
pose. First input: two visible landmarks `1` apart read at ranges `10` and `1`; the inflation
loop of the one call never stops, whatever the fuel. Second input: ranges `sqrt 50` to
landmarks `10` apart, both bearings `0`; the assertion of line 324 fails. -/
theorem GetPose_pairing_counterexample :
    (2 ≤ (visiblePoles
        [ ({ xy_coords := ⟨0, 0⟩, laser_coords := ⟨10, 0⟩, time := 1, i := 0, visible := true } :
            Pole ℝ),
          { xy_coords := ⟨1, 0⟩, laser_coords := ⟨1, 0⟩, time := 1, i := 1,
            visible := true } ]).length
      ∧ ∀ (fuel now : Nat) (oob : Pole ℝ) (pose_ : PoseStamped ℝ ℝ),
          GetPose (CMath.mk Real.sqrt Real.cos Real.sin (fun y x => Complex.arg ⟨x, y⟩)) yawTf
            fuel now oob pose_
            [ { xy_coords := ⟨0, 0⟩, laser_coords := ⟨10, 0⟩, time := 1, i := 0, visible := true },
              { xy_coords := ⟨1, 0⟩, laser_coords := ⟨1, 0⟩, time := 1, i := 1,
                visible := true } ]
          = .error .fuel)
    ∧ (2 ≤ (visiblePoles
        [ ({ xy_coords := ⟨0, 0⟩, laser_coords := ⟨Real.sqrt 50, 0⟩, time := 0, i := 0,
              visible := true } : Pole ℝ),
          { xy_coords := ⟨10, 0⟩, laser_coords := ⟨Real.sqrt 50, 0⟩, time := 0, i := 1,
            visible := true } ]).length
      ∧ ∀ (fuel now : Nat) (oob : Pole ℝ),
          GetPose (CMath.mk Real.sqrt Real.cos Real.sin (fun y x => Complex.arg ⟨x, y⟩)) yawTf
            fuel now oob initialPose
            [ { xy_coords := ⟨0, 0⟩, laser_coords := ⟨Real.sqrt 50, 0⟩, time := 0, i := 0,
                visible := true },
              { xy_coords := ⟨10, 0⟩, laser_coords := ⟨Real.sqrt 50, 0⟩, time := 0, i := 1,
                visible := true } ]
          = .error .assertion) := by
  have hp := Real.pi_gt_three
  refine ⟨⟨by simp [visiblePoles], ?_⟩, ⟨by simp [visiblePoles], ?_⟩⟩
  · intro fuel now oob pose_
    rw [GetPose, GetPoseWith_eq]
    simp only [visiblePoles, List.filter_cons, if_true, List.filter_nil, pairUp, runPairs]
    rw [calcPose_nested_example _ (fun _ => rfl) yawTf fuel pose_ _ _ rfl rfl rfl rfl]
  · intro fuel now oob
    rw [GetPose, GetPoseWith_eq]
    simp only [visiblePoles, List.filter_cons, if_true, List.filter_nil, pairUp, runPairs]
    rw [calcPose_diagonal_assertion 0 (by norm_num; linarith) fuel]

/-- C4, amended: with at least two visible landmarks the pairing loop of `GetPose` calls
`calcPose` on the non-overlapping pairs `(v0, v1)`, `(v2, v3)`, ... of the visible landmarks in
id order, `floor(k/2)` pairs in all, until a call does not return. When all calls return, with
the estimates `ests`, `GetPose` returns and the new pose holds the arithmetic means of their
`x`, `y` and yaw; when a call does not return, `GetPose` does not return either. -/
theorem GetPose_pairs_and_means (m : CMath α) (t : Tf α Q) (fuel now : Nat) (oob : Pole α)
    (pose_ : PoseStamped α Q) (poles : List (Pole α))
    (hk : 2 ≤ (visiblePoles poles).length) :
    (∀ calcP : Pole α → Pole α → Except Fault (Pose α Q),
        GetPoseLoop calcP poles oob poles.length 0 []
          = (pairUp (visiblePoles poles)).mapM (fun p => calcP p.1 p.2))
    ∧ (pairUp (visiblePoles poles)).length = (visiblePoles poles).length / 2
    ∧ (∀ ests : List (Pose α Q),
        List.Forall₂ (fun p e => calcPose m t fuel pose_ p.1 p.2 = .ok e)
          (pairUp (visiblePoles poles)) ests →
        ests.length = (visiblePoles poles).length / 2
        ∧ ∃ pose2 : PoseStamped α Q, GetPose m t fuel now oob pose_ poles = .ok pose2
          ∧ pose2.pose.x = mean (ests.map (fun e => e.x))
          ∧ pose2.pose.y = mean (ests.map (fun e => e.y))
          ∧ pose2.pose.orientation
              = t.createQuaternionMsgFromYaw
                  (mean (ests.map (fun e => t.getYaw e.orientation))))
    ∧ (∀ (done : List (Pole α × Pole α)) (p : Pole α × Pole α) (rest : List (Pole α × Pole α))
        (ests : List (Pose α Q)) (e : Fault),
        pairUp (visiblePoles poles) = done ++ p :: rest →
        List.Forall₂ (fun p e => calcPose m t fuel pose_ p.1 p.2 = .ok e) done ests →
        calcPose m t fuel pose_ p.1 p.2 = .error e →
        GetPose m t fuel now oob pose_ poles = .error e) := by
  have hlen := pairUp_length _ (visiblePoles poles) rfl
  refine ⟨?_, hlen, ?_, ?_⟩
  · intro calcP
    rw [GetPoseLoop_eq_runPairs calcP poles oob poles.length 0 [] (by omega), List.drop_zero,
      runPairs_eq_mapM]
    cases List.mapM (fun p => calcP p.1 p.2) (pairUp (visiblePoles poles)) with
    | error e => rfl
    | ok r => simp [Functor.map, Except.map]
  · intro ests hcalc
    have hel : ests.length = (visiblePoles poles).length / 2 := by
      rw [← hlen]; exact hcalc.length_eq.symm
    have hne : ests.length ≠ 0 := by omega
    refine ⟨hel, ?_⟩
    rw [GetPose, GetPoseWith_eq, runPairs_of_forall₂ _ _ ests [] hcalc]
    simp only [List.nil_append, averagePose, hne, if_false, sumPoses_eq]
    exact ⟨_, rfl, by simp [mean], by simp [mean], by simp [mean]⟩
  · intro done p rest ests e hsplit hdone hfail
    rw [GetPose, GetPoseWith_eq, hsplit,
      runPairs_append_error _ done p rest ests [] e hdone hfail]

/-- The two pairs formed from four visible landmarks and a hidden one return the estimates
`(5, 0)` and `(5, 1)`, both with yaw `kPi`. -/
theorem calcPose_two_pairs (fuel : Nat) :
    List.Forall₂
      (fun p e =>
        calcPose (CMath.mk Real.sqrt Real.cos Real.sin (fun y x => Complex.arg ⟨x, y⟩)) yawTf fuel
          initialPose p.1 p.2 = .ok e)
      (pairUp (visiblePoles
        [ ({ xy_coords := ⟨0, 0⟩, laser_coords := ⟨5, 0⟩, time := 1, i := 0, visible := true } :
            Pole ℝ),
          { xy_coords := ⟨10, 0⟩, laser_coords := ⟨5, Real.pi⟩, time := 1, i := 1,
            visible := true },
          { xy_coords := ⟨-10, 0⟩, laser_coords := ⟨15, 0⟩, time := 0, i := 2,
            visible := false },
          { xy_coords := ⟨5, 5⟩, laser_coords := ⟨4, -(Real.pi / 2)⟩, time := 1, i := 3,
            visible := true },
          { xy_coords := ⟨5, -5⟩, laser_coords := ⟨6, Real.pi / 2⟩, time := 1, i := 4,
            visible := true } ]))
      [{ x := 5, y := 0, z := 0, orientation := kPi },
       { x := 5, y := 1, z := 0, orientation := kPi }] := by
  simp only [visiblePoles, List.filter_cons, if_true, Bool.false_eq_true, if_false,
    List.filter_nil, pairUp]
  refine List.Forall₂.cons ?_ (List.Forall₂.cons ?_ List.Forall₂.nil)
  · exact calcPose_example _ (fun _ => rfl) (fun _ _ => rfl) yawTf fuel initialPose rfl _ _
      rfl rfl rfl rfl
  · have h := calcPose_vertical_first
      (CMath.mk Real.sqrt Real.cos Real.sin (fun y x => Complex.arg ⟨x, y⟩))
      (fun _ => rfl) (fun _ _ => rfl) yawTf fuel initialPose rfl
      4 (by norm_num) (by norm_num)
      { xy_coords := ⟨5, 5⟩, laser_coords := ⟨4, -(Real.pi / 2)⟩, time := 1, i := 3,
        visible := true }
      { xy_coords := ⟨5, -5⟩, laser_coords := ⟨6, Real.pi / 2⟩, time := 1, i := 4,
        visible := true } rfl rfl rfl (by norm_num)
    rw [show (5 : ℝ) - 4 = 1 by norm_num] at h
    exact h

/-- C4 at a concrete input: four visible landmarks and a hidden one between them are paired
as `(0, 1)` and `(3, 4)`; the estimates are `(5, 0)` and `(5, 1)` with yaw `kPi`, and the pose
is `(5, 1/2)` with yaw `kPi`. -/
theorem GetPose_pairs_and_means_witness :
    2 ≤ (visiblePoles
        [ ({ xy_coords := ⟨0, 0⟩, laser_coords := ⟨5, 0⟩, time := 1, i := 0, visible := true } :
            Pole ℝ),
          { xy_coords := ⟨10, 0⟩, laser_coords := ⟨5, Real.pi⟩, time := 1, i := 1,
            visible := true },
          { xy_coords := ⟨-10, 0⟩, laser_coords := ⟨15, 0⟩, time := 0, i := 2,
            visible := false },
          { xy_coords := ⟨5, 5⟩, laser_coords := ⟨4, -(Real.pi / 2)⟩, time := 1, i := 3,
            visible := true },
          { xy_coords := ⟨5, -5⟩, laser_coords := ⟨6, Real.pi / 2⟩, time := 1, i := 4,
            visible := true } ]).length
    ∧ (pairUp (visiblePoles
        [ ({ xy_coords := ⟨0, 0⟩, laser_coords := ⟨5, 0⟩, time := 1, i := 0, visible := true } :
            Pole ℝ),
          { xy_coords := ⟨10, 0⟩, laser_coords := ⟨5, Real.pi⟩, time := 1, i := 1,
            visible := true },
          { xy_coords := ⟨-10, 0⟩, laser_coords := ⟨15, 0⟩, time := 0, i := 2,
            visible := false },
          { xy_coords := ⟨5, 5⟩, laser_coords := ⟨4, -(Real.pi / 2)⟩, time := 1, i := 3,
            visible := true },
          { xy_coords := ⟨5, -5⟩, laser_coords := ⟨6, Real.pi / 2⟩, time := 1, i := 4,
            visible := true } ])).length = 2
    ∧ ∃ pose2 : PoseStamped ℝ ℝ,
        GetPose (CMath.mk Real.sqrt Real.cos Real.sin (fun y x => Complex.arg ⟨x, y⟩)) yawTf 100 7
          { xy_coords := ⟨0, 0⟩, laser_coords := ⟨0, 0⟩, time := 0, i := 0, visible := false }
          initialPose
          [ { xy_coords := ⟨0, 0⟩, laser_coords := ⟨5, 0⟩, time := 1, i := 0, visible := true },
            { xy_coords := ⟨10, 0⟩, laser_coords := ⟨5, Real.pi⟩, time := 1, i := 1,
              visible := true },
            { xy_coords := ⟨-10, 0⟩, laser_coords := ⟨15, 0⟩, time := 0, i := 2,
              visible := false },
            { xy_coords := ⟨5, 5⟩, laser_coords := ⟨4, -(Real.pi / 2)⟩, time := 1, i := 3,
              visible := true },
            { xy_coords := ⟨5, -5⟩, laser_coords := ⟨6, Real.pi / 2⟩, time := 1, i := 4,
              visible := true } ] = .ok pose2
        ∧ pose2.pose.x = 5 ∧ pose2.pose.y = 1 / 2 ∧ pose2.pose.orientation = kPi := by
  have hk : 2 ≤ (visiblePoles
      [ ({ xy_coords := ⟨0, 0⟩, laser_coords := ⟨5, 0⟩, time := 1, i := 0, visible := true } :
          Pole ℝ),
        { xy_coords := ⟨10, 0⟩, laser_coords := ⟨5, Real.pi⟩, time := 1, i := 1,
          visible := true },
        { xy_coords := ⟨-10, 0⟩, laser_coords := ⟨15, 0⟩, time := 0, i := 2,
          visible := false },
        { xy_coords := ⟨5, 5⟩, laser_coords := ⟨4, -(Real.pi / 2)⟩, time := 1, i := 3,
          visible := true },
        { xy_coords := ⟨5, -5⟩, laser_coords := ⟨6, Real.pi / 2⟩, time := 1, i := 4,
          visible := true } ]).length := by
    simp [visiblePoles]
  obtain ⟨_, h2, h3, _⟩ :=
    GetPose_pairs_and_means
      (CMath.mk Real.sqrt Real.cos Real.sin (fun y x => Complex.arg ⟨x, y⟩)) yawTf 100 7
      { xy_coords := ⟨0, 0⟩, laser_coords := ⟨0, 0⟩, time := 0, i := 0, visible := false }
      initialPose _ hk
  obtain ⟨_, pose2, h4, h5, h6, h7⟩ := h3 _ (calcPose_two_pairs 100)
  refine ⟨hk, ?_, pose2, h4, ?_, ?_, ?_⟩
  · rw [h2]; simp [visiblePoles]
  · rw [h5]; norm_num [mean]
  · rw [h6]; norm_num [mean]
  · rw [h7]; simp [mean, yawTf]

/-! ## The map is not changed by a cycle -/

theorem UpdatePoles_eq_UpdatePolesWith (m : CMath α) (t : Tf α Q) (fuel ct now : Nat)
    (oob : Pole α) (loc : Loc α Q) (scans : List (scan_point α)) :
    UpdatePoles m t fuel ct now oob loc scans
      = UpdatePolesWith m t fuel ct (GetPose m t fuel now oob) loc scans := rfl

theorem landmarkMap_UpdatePolesWith (m : CMath α) (t : Tf α Q) (fuel ct : Nat)
    (getPose : PoseStamped α Q → List (Pole α) → Except Fault (PoseStamped α Q))
    (loc loc2 : Loc α Q) (scans : List (scan_point α))
    (h : UpdatePolesWith m t fuel ct getPose loc scans = .ok loc2) :
    landmarkMap loc2.poles_ = landmarkMap loc.poles_ := by
  unfold UpdatePolesWith at h
  cases h1 : track m ct scans loc.poles_ with
  | error e => simp [h1] at h
  | ok poles2 =>
    cases h2 : getPose loc.pose_ poles2 with
    | error e => simp [h1, h2] at h
    | ok pose2 =>
      cases h3 : EstimateIniviblePoles m t fuel pose2 poles2 with
      | error e => simp [h1, h2, h3] at h
      | ok poles3 =>
        simp only [h1, h2, h3, Except.ok.injEq] at h
        subst h
        simp only []
        rw [landmarkMap_EstimateIniviblePoles m t fuel pose2 poles2 poles3 h3,
          landmarkMap_track m ct scans loc.poles_ poles2 h1]

/-- Over the reals `EstimateIniviblePoles` returns, given enough fuel, at every pose. -/
theorem EstimateIniviblePoles_returns (m : CMath ℝ) (t : Tf ℝ Q) (pose_ : PoseStamped ℝ Q) :
    ∀ poles : List (Pole ℝ), ∃ fuel0 : Nat, ∀ fuel : Nat, fuel0 ≤ fuel →
      ∃ ps : List (Pole ℝ), EstimateIniviblePoles m t fuel pose_ poles = .ok ps := by
  intro poles
  induction poles with
  | nil => exact ⟨0, fun fuel _ => ⟨[], rfl⟩⟩
  | cons p rest ih =>
    obtain ⟨f1, h1⟩ := ih
    obtain ⟨f2, r, _, h2, _⟩ := CorrectAngle_spec
      (m.atan2 (pose_.pose.y - p.xy_coords.y) (pose_.pose.x - p.xy_coords.x) + 3.1415927
        - t.getYaw pose_.pose.orientation)
    refine ⟨max f1 f2, ?_⟩
    intro fuel hf
    obtain ⟨ps, hps⟩ := h1 fuel (le_trans (le_max_left _ _) hf)
    have hr := (h2 fuel (le_trans (le_max_right _ _) hf)).1
    by_cases hv : p.visible = false
    · refine ⟨p.update1
          { distance := m.sqrt ((pose_.pose.x - p.xy_coords.x) ^ 2
              + (pose_.pose.y - p.xy_coords.y) ^ 2), angle := r } :: ps, ?_⟩
      simp only [EstimateIniviblePoles, estimatePole, hv, if_true, hr, hps]
    · refine ⟨p :: ps, ?_⟩
      simp only [EstimateIniviblePoles, estimatePole, hv, Bool.true_eq_false, if_false, hps]

/-- Over the reals a cycle completes, given enough fuel, when its association does not fail
and its `GetPose` stores a pose; so also with fewer than two visible landmarks. -/
theorem UpdatePolesWith_returns (m : CMath ℝ) (t : Tf ℝ Q) (ct : Nat)
    (getPose : PoseStamped ℝ Q → List (Pole ℝ) → Except Fault (PoseStamped ℝ Q))
    (loc : Loc ℝ Q) (scans : List (scan_point ℝ)) (poles2 : List (Pole ℝ))
    (pose2 : PoseStamped ℝ Q) (ht : track m ct scans loc.poles_ = .ok poles2)
    (hg : getPose loc.pose_ poles2 = .ok pose2) :
    ∃ fuel0 : Nat, ∀ fuel : Nat, fuel0 ≤ fuel →
      ∃ loc2 : Loc ℝ Q, UpdatePolesWith m t fuel ct getPose loc scans = .ok loc2 := by
  obtain ⟨f, hf⟩ := EstimateIniviblePoles_returns m t pose2 poles2
  refine ⟨f, ?_⟩
  intro fuel hfuel
  obtain ⟨ps, hps⟩ := hf fuel hfuel
  refine ⟨{ loc with poles_ := ps, pose_ := pose2 }, ?_⟩
  simp only [UpdatePolesWith, ht, hg, hps]

/-- A cycle with no observation hides every landmark not seen at this time, so that `GetPose`
forms no pair; whatever pose is stored then, the cycle completes, given enough fuel, and the
map is as before. -/
theorem UpdatePolesWith_no_observation (m : CMath ℝ) (t : Tf ℝ Q) (ct : Nat) (loc : Loc ℝ Q)
    (pose2 : PoseStamped ℝ Q) :
    ∃ fuel0 : Nat, ∀ fuel : Nat, fuel0 ≤ fuel →
      ∃ loc2 : Loc ℝ Q, UpdatePolesWith m t fuel ct (fun _ _ => .ok pose2) loc [] = .ok loc2
        ∧ landmarkMap loc2.poles_ = landmarkMap loc.poles_ := by
  have ht : track m ct [] loc.poles_ = .ok (hideMissing ct loc.poles_) := by
    simp only [track, associate]
  obtain ⟨f, hf⟩ := UpdatePolesWith_returns m t ct (fun _ _ => .ok pose2) loc [] _ pose2 ht rfl
  refine ⟨f, ?_⟩
  intro fuel hfuel
  obtain ⟨loc2, h2⟩ := hf fuel hfuel
  exact ⟨loc2, h2, landmarkMap_UpdatePolesWith m t fuel ct _ loc loc2 [] h2⟩

/-- C8: a localization cycle that completes leaves the number of landmarks and every
landmark's id and `map_position` unchanged, whatever the observations and whatever `GetPose`
stores in `pose_` (also in a cycle with fewer than two visible landmarks, where it stores the
quotients of divisions by zero); so does a second cycle fed the same observations.
`UpdatePoles` is the case in which `getPose` is `GetPose`. -/
theorem UpdatePoles_keeps_map (m : CMath α) (t : Tf α Q) (fuel ct : Nat)
    (getPose : PoseStamped α Q → List (Pole α) → Except Fault (PoseStamped α Q))
    (loc loc2 : Loc α Q) (scans : List (scan_point α))
    (h : UpdatePolesWith m t fuel ct getPose loc scans = .ok loc2) :
    loc2.poles_.length = loc.poles_.length
    ∧ loc2.poles_.map (fun p => (p.i, p.xy_coords)) = loc.poles_.map (fun p => (p.i, p.xy_coords))
    ∧ (∀ (fuel2 ct2 : Nat)
        (getPose2 : PoseStamped α Q → List (Pole α) → Except Fault (PoseStamped α Q))
        (loc3 : Loc α Q),
        UpdatePolesWith m t fuel2 ct2 getPose2 loc2 scans = .ok loc3 →
        loc3.poles_.length = loc.poles_.length
        ∧ loc3.poles_.map (fun p => p.xy_coords) = loc.poles_.map (fun p => p.xy_coords)
        ∧ loc3.poles_.map (fun p => p.i) = loc.poles_.map (fun p => p.i))
    ∧ ∀ (now : Nat) (oob : Pole α),
        UpdatePoles m t fuel ct now oob loc scans
          = UpdatePolesWith m t fuel ct (GetPose m t fuel now oob) loc scans := by
  have h1 := landmarkMap_UpdatePolesWith m t fuel ct getPose loc loc2 scans h
  refine ⟨?_, h1, ?_, fun _ _ => rfl⟩
  · have := congrArg List.length h1
    simpa [landmarkMap] using this
  · intro fuel2 ct2 getPose2 loc3 h3
    have h2 := landmarkMap_UpdatePolesWith m t fuel2 ct2 getPose2 loc2 loc3 scans h3
    rw [h1] at h2
    refine ⟨?_, ?_, ?_⟩
    · have := congrArg List.length h2
      simpa [landmarkMap] using this
    · have := congrArg (List.map Prod.snd) h2
      simpa [landmarkMap, List.map_map, Function.comp_def] using this
    · have := congrArg (List.map Prod.fst) h2
      simpa [landmarkMap, List.map_map, Function.comp_def] using this

/-- The readings `(5, -pi/2)` and `(5, pi/2)` are assigned to the two landmarks that hold
them; the third landmark, not seen at this time, is hidden. -/
theorem track_vertical (m : CMath ℝ) (hcos : ∀ x, m.cos x = Real.cos x)
    (hsin : ∀ x, m.sin x = Real.sin x) (ct t0 : Nat) (C : Pole ℝ) (hC : C.time ≠ ct) :
    track m ct [⟨5, -(Real.pi / 2)⟩, ⟨5, Real.pi / 2⟩]
        [ { xy_coords := ⟨5, 5⟩, laser_coords := ⟨5, -(Real.pi / 2)⟩, time := t0, i := 0,
            visible := true },
          { xy_coords := ⟨5, -5⟩, laser_coords := ⟨5, Real.pi / 2⟩, time := t0, i := 1,
            visible := true }, C ]
      = .ok [ { xy_coords := ⟨5, 5⟩, laser_coords := ⟨5, -(Real.pi / 2)⟩, time := ct, i := 0,
                visible := true },
              { xy_coords := ⟨5, -5⟩, laser_coords := ⟨5, Real.pi / 2⟩, time := ct, i := 1,
                visible := true }, C.disappear ] := by
  have c1 := closestPole_of_own_reading m
    [ { xy_coords := ⟨5, 5⟩, laser_coords := ⟨5, -(Real.pi / 2)⟩, time := t0, i := 0,
        visible := true },
      { xy_coords := ⟨5, -5⟩, laser_coords := ⟨5, Real.pi / 2⟩, time := t0, i := 1,
        visible := true }, C ] 0 ⟨5, -(Real.pi / 2)⟩ (by simp) (by intro l hl; omega)
  have c2 := closestPole_of_own_reading m
    [ { xy_coords := ⟨5, 5⟩, laser_coords := ⟨5, -(Real.pi / 2)⟩, time := ct, i := 0,
        visible := true },
      { xy_coords := ⟨5, -5⟩, laser_coords := ⟨5, Real.pi / 2⟩, time := t0, i := 1,
        visible := true }, C ] 1 ⟨5, Real.pi / 2⟩ (by simp)
    (by
      intro l hl pl hpl
      have hl0 : l = 0 := by omega
      subst hl0
      simp only [List.getElem?_cons_zero, Option.some.injEq] at hpl
      subst hpl
      simp only [current_dist, hcos, hsin, Real.cos_neg, Real.sin_neg, Real.cos_pi_div_two,
        Real.sin_pi_div_two]
      norm_num)
  simp only [track, associate, c1]
  simp only [Nat.cast_zero, Int.toNat_zero, List.modify_zero_cons, Pole.update,
    show ((0 : Int) = -1) = False by simp, if_false]
  simp only [c2]
  simp [hideMissing, Pole.update, hC]

/-- The first cycle over `examplePolesVertical` from the constructor state. -/
theorem UpdatePoles_vertical_first (m : CMath ℝ) (hsqrt : ∀ x, m.sqrt x = Real.sqrt x)
    (hcos : ∀ x, m.cos x = Real.cos x) (hsin : ∀ x, m.sin x = Real.sin x)
    (hatan2 : ∀ y x, m.atan2 y x = Complex.arg ⟨x, y⟩) (fuel now : Nat) (oob : Pole ℝ) :
    UpdatePoles m yawTf fuel 1 now oob
        { poles_ := examplePolesVertical (Real.pi / 2), pose_ := initialPose,
          initiation_ := false }
        [⟨5, -(Real.pi / 2)⟩, ⟨5, Real.pi / 2⟩]
      = .ok { poles_ :=
                [ { xy_coords := ⟨5, 5⟩, laser_coords := ⟨5, -(Real.pi / 2)⟩, time := 1, i := 0,
                    visible := true },
                  { xy_coords := ⟨5, -5⟩, laser_coords := ⟨5, Real.pi / 2⟩, time := 1, i := 1,
                    visible := true },
                  { xy_coords := ⟨-10, 0⟩, laser_coords := ⟨15, 3.1415927 - kPi⟩, time := 0,
                    i := 2, visible := false } ]
              pose_ := { seq := 1, stamp := now, frame_id := "fixed_frame"
                         pose := { x := 5, y := 0, z := 0, orientation := kPi } }
              initiation_ := false } := by
  have ht := track_vertical m hcos hsin 1 0
    { xy_coords := ⟨-10, 0⟩, laser_coords := ⟨15, 0⟩, time := 0, i := 2, visible := true }
    (by decide)
  have hg : GetPose m yawTf fuel now oob initialPose
      [ { xy_coords := ⟨5, 5⟩, laser_coords := ⟨5, -(Real.pi / 2)⟩, time := 1, i := 0,
          visible := true },
        { xy_coords := ⟨5, -5⟩, laser_coords := ⟨5, Real.pi / 2⟩, time := 1, i := 1,
          visible := true },
        { xy_coords := ⟨-10, 0⟩, laser_coords := ⟨15, 0⟩, time := 0, i := 2,
          visible := false } ]
      = .ok { seq := 1, stamp := now, frame_id := "fixed_frame"
              pose := { x := 5, y := 0, z := 0, orientation := kPi } } := by
    rw [GetPose, GetPoseWith_eq]
    simp only [visiblePoles, List.filter_cons, if_true, Bool.false_eq_true, if_false,
      List.filter_nil, pairUp, runPairs]
    rw [calcPose_vertical_first m hsqrt hatan2 yawTf fuel initialPose rfl 5 (by norm_num)
      (by norm_num) _ _ rfl rfl rfl (by norm_num)]
    simp [averagePose, sumPoses, yawTf]
  have he := EstimateIniviblePoles_hidden_third m hsqrt hatan2 fuel now
    { xy_coords := ⟨5, 5⟩, laser_coords := ⟨5, -(Real.pi / 2)⟩, time := 1, i := 0,
      visible := true }
    { xy_coords := ⟨5, -5⟩, laser_coords := ⟨5, Real.pi / 2⟩, time := 1, i := 1,
      visible := true } rfl rfl ⟨15, 0⟩ 0
  simp only [examplePolesVertical] at ht ⊢
  simp only [Pole.disappear] at ht
  simp only [UpdatePoles, ht, hg, he]

/-- The second cycle over `examplePolesVertical`, fed the same readings: the Newton iteration
starts from the yaw of the first cycle. -/
theorem UpdatePoles_vertical_second (m : CMath ℝ) (hsqrt : ∀ x, m.sqrt x = Real.sqrt x)
    (hcos : ∀ x, m.cos x = Real.cos x) (hsin : ∀ x, m.sin x = Real.sin x)
    (hatan2 : ∀ y x, m.atan2 y x = Complex.arg ⟨x, y⟩) (fuel now now2 : Nat) (hf : 1 ≤ fuel)
    (oob : Pole ℝ) :
    UpdatePoles m yawTf fuel 2 now2 oob
        { poles_ :=
            [ { xy_coords := ⟨5, 5⟩, laser_coords := ⟨5, -(Real.pi / 2)⟩, time := 1, i := 0,
                visible := true },
              { xy_coords := ⟨5, -5⟩, laser_coords := ⟨5, Real.pi / 2⟩, time := 1, i := 1,
                visible := true },
              { xy_coords := ⟨-10, 0⟩, laser_coords := ⟨15, 3.1415927 - kPi⟩, time := 0,
                i := 2, visible := false } ]
          pose_ := { seq := 1, stamp := now, frame_id := "fixed_frame"
                     pose := { x := 5, y := 0, z := 0, orientation := kPi } }
          initiation_ := false }
        [⟨5, -(Real.pi / 2)⟩, ⟨5, Real.pi / 2⟩]
      = .ok { poles_ :=
                [ { xy_coords := ⟨5, 5⟩, laser_coords := ⟨5, -(Real.pi / 2)⟩, time := 2, i := 0,
                    visible := true },
                  { xy_coords := ⟨5, -5⟩, laser_coords := ⟨5, Real.pi / 2⟩, time := 2, i := 1,
                    visible := true },
                  { xy_coords := ⟨-10, 0⟩, laser_coords := ⟨15, 3.1415927 - kPi⟩, time := 0,
                    i := 2, visible := false } ]
              pose_ := { seq := 1, stamp := now2, frame_id := "fixed_frame"
                         pose := { x := 5, y := 0, z := 0, orientation := kPi } }
              initiation_ := false } := by
  have ht := track_vertical m hcos hsin 2 1
    { xy_coords := ⟨-10, 0⟩, laser_coords := ⟨15, 3.1415927 - kPi⟩, time := 0, i := 2,
      visible := false }
    (by decide)
  have hg : GetPose m yawTf fuel now2 oob
      { seq := 1, stamp := now, frame_id := "fixed_frame"
        pose := { x := 5, y := 0, z := 0, orientation := kPi } }
      [ { xy_coords := ⟨5, 5⟩, laser_coords := ⟨5, -(Real.pi / 2)⟩, time := 2, i := 0,
          visible := true },
        { xy_coords := ⟨5, -5⟩, laser_coords := ⟨5, Real.pi / 2⟩, time := 2, i := 1,
          visible := true },
        { xy_coords := ⟨-10, 0⟩, laser_coords := ⟨15, 3.1415927 - kPi⟩, time := 0, i := 2,
          visible := false } ]
      = .ok { seq := 1, stamp := now2, frame_id := "fixed_frame"
              pose := { x := 5, y := 0, z := 0, orientation := kPi } } := by
    rw [GetPose, GetPoseWith_eq]
    simp only [visiblePoles, List.filter_cons, if_true, Bool.false_eq_true, if_false,
      List.filter_nil, pairUp, runPairs]
    rw [calcPose_vertical_newton m hsqrt hcos hsin hatan2 yawTf fuel hf
      { seq := 1, stamp := now, frame_id := "fixed_frame"
        pose := { x := 5, y := 0, z := 0, orientation := kPi } } (by norm_num) rfl
      5 (by norm_num) _ _ rfl rfl rfl (by norm_num)]
    simp [averagePose, sumPoses, yawTf]
  have he := EstimateIniviblePoles_hidden_third m hsqrt hatan2 fuel now2
    { xy_coords := ⟨5, 5⟩, laser_coords := ⟨5, -(Real.pi / 2)⟩, time := 2, i := 0,
      visible := true }
    { xy_coords := ⟨5, -5⟩, laser_coords := ⟨5, Real.pi / 2⟩, time := 2, i := 1,
      visible := true } rfl rfl ⟨15, 3.1415927 - kPi⟩ 0
  simp only [Pole.disappear] at ht
  simp only [UpdatePoles, ht, hg, he]

/-- C8 at a concrete input: two cycles in a row over `examplePolesVertical`, both fed the
readings `(5, -pi/2)` and `(5, pi/2)`; the third landmark is hidden in both. -/
theorem UpdatePoles_keeps_map_witness :
    ∃ loc2 loc3 : Loc ℝ ℝ,
      UpdatePolesWith (CMath.mk Real.sqrt Real.cos Real.sin (fun y x => Complex.arg ⟨x, y⟩))
          yawTf 100 1
          (GetPose (CMath.mk Real.sqrt Real.cos Real.sin (fun y x => Complex.arg ⟨x, y⟩)) yawTf
            100 1
            { xy_coords := ⟨0, 0⟩, laser_coords := ⟨0, 0⟩, time := 0, i := 0, visible := false })
          { poles_ := examplePolesVertical (Real.pi / 2), pose_ := initialPose,
            initiation_ := false }
          [⟨5, -(Real.pi / 2)⟩, ⟨5, Real.pi / 2⟩] = .ok loc2
      ∧ UpdatePolesWith (CMath.mk Real.sqrt Real.cos Real.sin (fun y x => Complex.arg ⟨x, y⟩))
          yawTf 100 2
          (GetPose (CMath.mk Real.sqrt Real.cos Real.sin (fun y x => Complex.arg ⟨x, y⟩)) yawTf
            100 2
            { xy_coords := ⟨0, 0⟩, laser_coords := ⟨0, 0⟩, time := 0, i := 0, visible := false })
          loc2 [⟨5, -(Real.pi / 2)⟩, ⟨5, Real.pi / 2⟩] = .ok loc3
      ∧ loc2.poles_.length = 3
      ∧ loc2.poles_.map (fun p => (p.i, p.xy_coords))
          = [(0, ⟨5, 5⟩), (1, ⟨5, -5⟩), (2, ⟨-10, 0⟩)]
      ∧ loc3.poles_.length = 3
      ∧ loc3.poles_.map (fun p => p.xy_coords) = [⟨5, 5⟩, ⟨5, -5⟩, ⟨-10, 0⟩]
      ∧ loc3.poles_.map (fun p => p.i) = [0, 1, 2] := by
  have h1 := UpdatePoles_vertical_first
    (CMath.mk Real.sqrt Real.cos Real.sin (fun y x => Complex.arg ⟨x, y⟩))
    (fun _ => rfl) (fun _ => rfl) (fun _ => rfl) (fun _ _ => rfl) 100 1
    { xy_coords := ⟨0, 0⟩, laser_coords := ⟨0, 0⟩, time := 0, i := 0, visible := false }
  have h2 := UpdatePoles_vertical_second
    (CMath.mk Real.sqrt Real.cos Real.sin (fun y x => Complex.arg ⟨x, y⟩))
    (fun _ => rfl) (fun _ => rfl) (fun _ => rfl) (fun _ _ => rfl) 100 1 2 (by norm_num)
    { xy_coords := ⟨0, 0⟩, laser_coords := ⟨0, 0⟩, time := 0, i := 0, visible := false }
  rw [UpdatePoles_eq_UpdatePolesWith] at h1 h2
  obtain ⟨a1, a2, a3, _⟩ := UpdatePoles_keeps_map _ _ _ _ _ _ _ _ h1
  obtain ⟨b1, b2, b3⟩ := a3 _ _ _ _ h2
  refine ⟨_, _, h1, h2, ?_, ?_, ?_, ?_, ?_⟩
  · rw [a1]; simp [examplePolesVertical]
  · rw [a2]; simp [examplePolesVertical]
  · rw [b1]; simp [examplePolesVertical]
  · rw [b2]; simp [examplePolesVertical]
  · rw [b3]; simp [examplePolesVertical]

/-! ## The first pose of `calcPose`: which candidate is recorded -/

theorem arg_diag_neg (x : ℝ) (hx : 0 < x) : Complex.arg ⟨-x, -x⟩ = -(3 * Real.pi / 4) := by
  have hp := Real.pi_pos
  have h2 : Real.sqrt 2 * Real.sqrt 2 = 2 := Real.mul_self_sqrt (by norm_num)
  have hr : 0 < x * Real.sqrt 2 := mul_pos hx (Real.sqrt_pos.mpr (by norm_num))
  have c1 : x * Real.sqrt 2 * (Real.sqrt 2 / 2) = x := by
    rw [mul_assoc, ← mul_div_assoc, h2]; ring
  have := arg_polar (x * Real.sqrt 2) (-(3 * Real.pi / 4)) hr (by linarith) (by linarith)
  rw [show -(3 * Real.pi / 4) = -(Real.pi - Real.pi / 4) by ring, Real.cos_neg, Real.sin_neg,
    Real.cos_pi_sub, Real.sin_pi_sub, Real.cos_pi_div_four, Real.sin_pi_div_four, mul_neg,
    c1] at this
  rw [this]; ring

/-- When the landmarks are apart and neither circle contains the other, the inflation loop
stops and lines 259-271 return the candidates, from some amount of fuel on. -/
theorem intersect_returns (m : CMath ℝ) (xp1 yp1 xp2 yp2 a b : ℝ)
    (hD : 0 < poleDistance m xp1 yp1 xp2 yp2)
    (hab : |a - b| ≤ poleDistance m xp1 yp1 xp2 yp2) :
    ∃ (fuel0 : Nat) (r : ℝ × ℝ × Candidates ℝ), ∀ fuel : Nat, fuel0 ≤ fuel →
      intersect m fuel xp1 yp1 xp2 yp2 a b = .ok r := by
  obtain ⟨n, hn⟩ := exists_nat_ge ((poleDistance m xp1 yp1 xp2 yp2 - a - b) / 0.002)
  rw [div_le_iff₀ (by norm_num)] at hn
  obtain ⟨r, hr, _⟩ := inflate_reaches_of_le (poleDistance m xp1 yp1 xp2 yp2) hD.le n a b hab
    (by linarith)
  refine ⟨n, (r.1, r.2, circlePoints m xp1 yp1 xp2 yp2 (poleDistance m xp1 yp1 xp2 yp2) r.1 r.2
    (to_root (poleDistance m xp1 yp1 xp2 yp2) r.1 r.2)), ?_⟩
  intro fuel hf
  have h2 := inflate_mono _ n a b r hr fuel hf
  simp only [intersect, h2]
  rw [if_neg (ne_of_gt (mul_pos hD hD))]

/-- C13, amended: when no previous pose exists (pose `x` is `-2000`), the landmarks are apart
and neither circle contains the other, then from some amount of fuel on the candidates `c` are
computed and `calcPose` records candidate 1, with its heading normalised, if candidate 1
passes the one-sided check `kPi + atan2(dy, dx) - theta_1 - bearing_B < 0.1` (`dy`, `dx` from
landmark B to candidate 1), also when candidate 2 passes as well. If candidate 1 does not
pass, `calcPose` records candidate 2 when candidate 2 passes the check, and fails its
assertion, recording nothing, when candidate 2 does not pass. The part on candidate 2 is
stated for the inputs at which its check has the same outcome with `dy`, `dx` taken from
landmark B to candidate 2 and taken, as line 323 does, from landmark B to candidate 1. -/
theorem calcPose_first_pose (m : CMath ℝ) (t : Tf ℝ Q) (pose_ : PoseStamped ℝ Q)
    (pole1 pole2 : Pole ℝ)
    (hp : pose_.pose.x = -2000)
    (hD : 0 < poleDistance m pole1.xy_coords.x pole1.xy_coords.y pole2.xy_coords.x
      pole2.xy_coords.y)
    (hab : |pole1.laser_coords.distance - pole2.laser_coords.distance|
      ≤ poleDistance m pole1.xy_coords.x pole1.xy_coords.y pole2.xy_coords.x
          pole2.xy_coords.y) :
    ∃ (fuel1 : Nat) (a b : ℝ) (c : Candidates ℝ) (r1 r2 : ℝ),
      (-kPi ≤ r1 ∧ r1 ≤ kPi) ∧ (-kPi ≤ r2 ∧ r2 ≤ kPi)
      ∧ ∀ fuel : Nat, fuel1 ≤ fuel →
        intersect m fuel pole1.xy_coords.x pole1.xy_coords.y pole2.xy_coords.x
            pole2.xy_coords.y pole1.laser_coords.distance pole2.laser_coords.distance
          = .ok (a, b, c)
        ∧ correctAngle fuel (kPi - pole1.laser_coords.angle
            + m.atan2 (c.y1_circle - pole1.xy_coords.y) (c.x1_circle - pole1.xy_coords.x))
          = .ok r1
        ∧ correctAngle fuel (kPi - pole1.laser_coords.angle
            + m.atan2 (c.y2_circle - pole1.xy_coords.y) (c.x2_circle - pole1.xy_coords.x))
          = .ok r2
        ∧ (kPi + m.atan2 (c.y1_circle - pole2.xy_coords.y) (c.x1_circle - pole2.xy_coords.x)
              - (kPi - pole1.laser_coords.angle
                  + m.atan2 (c.y1_circle - pole1.xy_coords.y) (c.x1_circle - pole1.xy_coords.x))
              - pole2.laser_coords.angle < 0.1 →
            calcPose m t fuel pose_ pole1 pole2
              = .ok { x := c.x1_circle, y := c.y1_circle, z := 0
                      orientation := t.createQuaternionMsgFromYaw r1 })
        ∧ (¬ (kPi + m.atan2 (c.y1_circle - pole2.xy_coords.y) (c.x1_circle - pole2.xy_coords.x)
              - (kPi - pole1.laser_coords.angle
                  + m.atan2 (c.y1_circle - pole1.xy_coords.y) (c.x1_circle - pole1.xy_coords.x))
              - pole2.laser_coords.angle < 0.1) →
            kPi + m.atan2 (c.y2_circle - pole2.xy_coords.y) (c.x2_circle - pole2.xy_coords.x)
              - (kPi - pole1.laser_coords.angle
                  + m.atan2 (c.y2_circle - pole1.xy_coords.y) (c.x2_circle - pole1.xy_coords.x))
              - pole2.laser_coords.angle < 0.1 →
            kPi + m.atan2 (c.y1_circle - pole2.xy_coords.y) (c.x1_circle - pole2.xy_coords.x)
              - (kPi - pole1.laser_coords.angle
                  + m.atan2 (c.y2_circle - pole1.xy_coords.y) (c.x2_circle - pole1.xy_coords.x))
              - pole2.laser_coords.angle < 0.1 →
            calcPose m t fuel pose_ pole1 pole2
              = .ok { x := c.x2_circle, y := c.y2_circle, z := 0
                      orientation := t.createQuaternionMsgFromYaw r2 })
        ∧ (¬ (kPi + m.atan2 (c.y1_circle - pole2.xy_coords.y) (c.x1_circle - pole2.xy_coords.x)
              - (kPi - pole1.laser_coords.angle
                  + m.atan2 (c.y1_circle - pole1.xy_coords.y) (c.x1_circle - pole1.xy_coords.x))
              - pole2.laser_coords.angle < 0.1) →
            ¬ (kPi + m.atan2 (c.y2_circle - pole2.xy_coords.y) (c.x2_circle - pole2.xy_coords.x)
              - (kPi - pole1.laser_coords.angle
                  + m.atan2 (c.y2_circle - pole1.xy_coords.y) (c.x2_circle - pole1.xy_coords.x))
              - pole2.laser_coords.angle < 0.1) →
            ¬ (kPi + m.atan2 (c.y1_circle - pole2.xy_coords.y) (c.x1_circle - pole2.xy_coords.x)
              - (kPi - pole1.laser_coords.angle
                  + m.atan2 (c.y2_circle - pole1.xy_coords.y) (c.x2_circle - pole1.xy_coords.x))
              - pole2.laser_coords.angle < 0.1) →
            calcPose m t fuel pose_ pole1 pole2 = .error .assertion) := by
  obtain ⟨f0, ⟨a, b, c⟩, hI⟩ := intersect_returns m pole1.xy_coords.x pole1.xy_coords.y
    pole2.xy_coords.x pole2.xy_coords.y pole1.laser_coords.distance
    pole2.laser_coords.distance hD hab
  obtain ⟨f1, r1, _, a1, a2, a3, _⟩ := CorrectAngle_spec (kPi - pole1.laser_coords.angle
    + m.atan2 (c.y1_circle - pole1.xy_coords.y) (c.x1_circle - pole1.xy_coords.x))
  obtain ⟨f2, r2, _, b1, b2, b3, _⟩ := CorrectAngle_spec (kPi - pole1.laser_coords.angle
    + m.atan2 (c.y2_circle - pole1.xy_coords.y) (c.x2_circle - pole1.xy_coords.x))
  refine ⟨max f0 (max f1 f2), a, b, c, r1, r2, ⟨a2, a3⟩, ⟨b2, b3⟩, ?_⟩
  intro fuel hf
  have hI2 := hI fuel (le_trans (le_max_left _ _) hf)
  have h1 := (a1 fuel (le_trans (le_trans (le_max_left _ _) (le_max_right _ _)) hf)).2
  have h2 := (b1 fuel (le_trans (le_trans (le_max_right _ _) (le_max_right _ _)) hf)).2
  rw [calcPose_first_branch m t fuel pose_ pole1 pole2 a b c r1 r2 hp hI2 h1 h2]
  refine ⟨hI2, h1, h2, ?_, ?_, ?_⟩
  · intro hfirst
    rw [if_pos hfirst]
  · intro hfirst _ hsecond
    rw [if_neg hfirst, if_pos hsecond]
  · intro hfirst _ hsecond
    rw [if_neg hfirst, if_neg hsecond]

/-- C13, as stated, fails. First input: ranges `5` and `5` to landmarks `10` apart; the two
candidates are `(5, 0)`, the check of the claim holds for both (its value is `pi - kPi`), and
`calcPose` records an estimate instead of failing. Second input: ranges `sqrt 50`, bearings
`0` and `1 + pi/2`; the check for candidate 1, `(5, 5)`, has the value `-1`, not within `0.1` of
zero, and `calcPose` records candidate 1: line 322 tests `< 0.1` without an absolute value.
Third input: ranges `sqrt 50`, bearings `0` and `-pi/2`; only candidate 2, `(5, -5)`, passes
the check of the claim, and `calcPose` fails its assertion: line 323 takes `dy`, `dx` from
landmark B to candidate 1. -/
theorem calcPose_first_pose_counterexample :
    (intersect (CMath.mk Real.sqrt Real.cos Real.sin (fun y x => Complex.arg ⟨x, y⟩)) 100
          0 0 10 0 5 5
        = .ok (5, 5, { x1_circle := 5, y1_circle := 0, x2_circle := 5, y2_circle := 0 })
      ∧ |Real.pi + Complex.arg ⟨5 - 10, 0 - 0⟩ - (kPi - 0 + Complex.arg ⟨5 - 0, 0 - 0⟩)
          - Real.pi| < 0.1
      ∧ calcPose (CMath.mk Real.sqrt Real.cos Real.sin (fun y x => Complex.arg ⟨x, y⟩)) yawTf
          100 initialPose
          { xy_coords := ⟨0, 0⟩, laser_coords := ⟨5, 0⟩, time := 0, i := 0, visible := true }
          { xy_coords := ⟨10, 0⟩, laser_coords := ⟨5, Real.pi⟩, time := 0, i := 1,
            visible := true }
        = .ok { x := 5, y := 0, z := 0, orientation := kPi })
    ∧ (intersect (CMath.mk Real.sqrt Real.cos Real.sin (fun y x => Complex.arg ⟨x, y⟩)) 100
          0 0 10 0 (Real.sqrt 50) (Real.sqrt 50)
        = .ok (Real.sqrt 50, Real.sqrt 50,
            { x1_circle := 5, y1_circle := 5, x2_circle := 5, y2_circle := -5 })
      ∧ ¬ |Real.pi + Complex.arg ⟨5 - 10, 5 - 0⟩ - (kPi - 0 + Complex.arg ⟨5 - 0, 5 - 0⟩)
          - (1 + Real.pi / 2)| < 0.1
      ∧ calcPose (CMath.mk Real.sqrt Real.cos Real.sin (fun y x => Complex.arg ⟨x, y⟩)) yawTf
          100 initialPose
          { xy_coords := ⟨0, 0⟩, laser_coords := ⟨Real.sqrt 50, 0⟩, time := 0, i := 0,
            visible := true }
          { xy_coords := ⟨10, 0⟩, laser_coords := ⟨Real.sqrt 50, 1 + Real.pi / 2⟩, time := 0,
            i := 1, visible := true }
        = .ok { x := 5, y := 5, z := 0, orientation := Real.pi / 4 - kPi })
    ∧ (¬ |Real.pi + Complex.arg ⟨5 - 10, 5 - 0⟩ - (kPi - 0 + Complex.arg ⟨5 - 0, 5 - 0⟩)
          - -(Real.pi / 2)| < 0.1
      ∧ |Real.pi + Complex.arg ⟨5 - 10, -5 - 0⟩ - (kPi - 0 + Complex.arg ⟨5 - 0, -5 - 0⟩)
          - -(Real.pi / 2)| < 0.1
      ∧ calcPose (CMath.mk Real.sqrt Real.cos Real.sin (fun y x => Complex.arg ⟨x, y⟩)) yawTf
          100 initialPose
          { xy_coords := ⟨0, 0⟩, laser_coords := ⟨Real.sqrt 50, 0⟩, time := 0, i := 0,
            visible := true }
          { xy_coords := ⟨10, 0⟩, laser_coords := ⟨Real.sqrt 50, -(Real.pi / 2)⟩, time := 0,
            i := 1, visible := true }
        = .error .assertion) := by
  have hk := kPi_pos
  have hkp := kPi_lt_pi
  have hp4 := Real.pi_lt_d2
  have hp3 := Real.pi_gt_three
  have hk3 : (3.14 : ℝ) < kPi := by norm_num [kPi]
  obtain ⟨d1, d2, d3⟩ := arg_diag 5 (by norm_num)
  have d4 := arg_diag_neg 5 (by norm_num)
  refine ⟨⟨intersect_tangent_example _ (fun _ => rfl) 100, ?_,
      calcPose_example _ (fun _ => rfl) (fun _ _ => rfl) yawTf 100 initialPose rfl _ _
        rfl rfl rfl rfl⟩,
    ⟨intersect_example _ (fun _ => rfl) 100, ?_,
      calcPose_diagonal_example _ (by norm_num; linarith) 100 (by norm_num)⟩,
    ⟨?_, ?_, calcPose_diagonal_assertion _ (by norm_num; linarith) 100⟩⟩
  · rw [show ((5 : ℝ) - 10) = -5 by norm_num, show ((5 : ℝ) - 0) = 5 by norm_num,
      show ((0 : ℝ) - 0) = 0 by norm_num, arg_pos_real 5 (by norm_num),
      arg_neg_real (-5) (by norm_num), abs_lt]
    constructor <;> norm_num at hp4 hk3 ⊢ <;> linarith
  · rw [show ((5 : ℝ) - 10) = -5 by norm_num, show ((5 : ℝ) - 0) = 5 by norm_num, d1, d2,
      show Real.pi + 3 * Real.pi / 4 - (kPi - 0 + Real.pi / 4) - (1 + Real.pi / 2)
        = -(1 - (Real.pi - kPi)) by ring, abs_neg, not_lt]
    rw [abs_of_nonneg (by norm_num at hp4 hk3 ⊢; linarith)]
    norm_num at hp4 hk3 ⊢; linarith
  · rw [show ((5 : ℝ) - 10) = -5 by norm_num, show ((5 : ℝ) - 0) = 5 by norm_num, d1, d2,
      show Real.pi + 3 * Real.pi / 4 - (kPi - 0 + Real.pi / 4) - -(Real.pi / 2)
        = 2 * Real.pi - kPi by ring, not_lt]
    rw [abs_of_nonneg (by linarith)]
    norm_num; linarith
  · rw [show ((5 : ℝ) - 10) = -5 by norm_num, show ((5 : ℝ) - 0) = 5 by norm_num,
      show ((-5 : ℝ) - 0) = -5 by norm_num, d3, d4,
      show Real.pi + -(3 * Real.pi / 4) - (kPi - 0 + -(Real.pi / 4)) - -(Real.pi / 2)
        = Real.pi - kPi by ring]
    rw [abs_of_nonneg (by linarith)]
    norm_num at hp4 hk3 ⊢; linarith

theorem poleDistance_mirrored (m : CMath ℝ) (hsqrt : ∀ x, m.sqrt x = Real.sqrt x) :
    poleDistance m 10 0 0 0 = 10 := by
  rw [poleDistance, hsqrt, show ((0 : ℝ) - 10) * (0 - 10) + (0 - 0) * (0 - 0) = 10 ^ 2 by norm_num,
    Real.sqrt_sq (by norm_num)]

/-- The landmarks of `intersect_example` in the other order: the candidates change places. -/
theorem intersect_mirrored_example (m : CMath ℝ) (hsqrt : ∀ x, m.sqrt x = Real.sqrt x)
    (fuel : Nat) :
    intersect m fuel 10 0 0 0 (Real.sqrt 50) (Real.sqrt 50)
      = .ok (Real.sqrt 50, Real.sqrt 50,
          { x1_circle := 5, y1_circle := -5, x2_circle := 5, y2_circle := 5 }) := by
  have hT : (0 : ℝ) ≤ to_root 10 (Real.sqrt 50) (Real.sqrt 50) := by
    rw [to_root_example]; norm_num
  simp only [intersect, poleDistance_mirrored m hsqrt, inflate_of_nonneg _ _ _ fuel hT]
  rw [if_neg (by norm_num)]
  simp only [circlePoints, hsqrt, to_root_example, Real.sqrt_sq (show (0 : ℝ) ≤ 100 by norm_num)]
  norm_num

/-- C13 at concrete inputs, ranges `sqrt 50` to landmarks `10` apart, candidates `(5, 5)` and
`(5, -5)`. With landmark A at `(0, 0)` and bearings `0` and `1 + pi/2` candidate 1, `(5, 5)`,
passes and is recorded; with bearings `0` and `-2` no candidate passes and the assertion
fails. With landmark A at `(10, 0)` and bearings `0` and `-pi/2`, the readings of a platform
at `(5, 5)`, candidate 1 is `(5, -5)` and does not pass, candidate 2 passes and is recorded. -/
theorem calcPose_first_pose_witness :
    ((initialPose : PoseStamped ℝ ℝ).pose.x = -2000
      ∧ 0 < poleDistance (CMath.mk Real.sqrt Real.cos Real.sin (fun y x => Complex.arg ⟨x, y⟩))
          0 0 10 0
      ∧ |Real.sqrt 50 - Real.sqrt 50|
          ≤ poleDistance (CMath.mk Real.sqrt Real.cos Real.sin (fun y x => Complex.arg ⟨x, y⟩))
              0 0 10 0
      ∧ 0 < poleDistance (CMath.mk Real.sqrt Real.cos Real.sin (fun y x => Complex.arg ⟨x, y⟩))
          10 0 0 0
      ∧ |Real.sqrt 50 - Real.sqrt 50|
          ≤ poleDistance (CMath.mk Real.sqrt Real.cos Real.sin (fun y x => Complex.arg ⟨x, y⟩))
              10 0 0 0)
    ∧ (∃ (fuel1 : Nat) (r1 : ℝ), ∀ fuel : Nat, fuel1 ≤ fuel →
        calcPose (CMath.mk Real.sqrt Real.cos Real.sin (fun y x => Complex.arg ⟨x, y⟩)) yawTf
          fuel initialPose
          { xy_coords := ⟨0, 0⟩, laser_coords := ⟨Real.sqrt 50, 0⟩, time := 0, i := 0,
            visible := true }
          { xy_coords := ⟨10, 0⟩, laser_coords := ⟨Real.sqrt 50, 1 + Real.pi / 2⟩, time := 0,
            i := 1, visible := true }
        = .ok { x := 5, y := 5, z := 0, orientation := r1 })
    ∧ (∃ (fuel1 : Nat), ∀ fuel : Nat, fuel1 ≤ fuel →
        calcPose (CMath.mk Real.sqrt Real.cos Real.sin (fun y x => Complex.arg ⟨x, y⟩)) yawTf
          fuel initialPose
          { xy_coords := ⟨0, 0⟩, laser_coords := ⟨Real.sqrt 50, 0⟩, time := 0, i := 0,
            visible := true }
          { xy_coords := ⟨10, 0⟩, laser_coords := ⟨Real.sqrt 50, -2⟩, time := 0,
            i := 1, visible := true }
        = .error .assertion)
    ∧ (∃ (fuel1 : Nat) (r2 : ℝ), ∀ fuel : Nat, fuel1 ≤ fuel →
        calcPose (CMath.mk Real.sqrt Real.cos Real.sin (fun y x => Complex.arg ⟨x, y⟩)) yawTf
          fuel initialPose
          { xy_coords := ⟨10, 0⟩, laser_coords := ⟨Real.sqrt 50, 0⟩, time := 0, i := 0,
            visible := true }
          { xy_coords := ⟨0, 0⟩, laser_coords := ⟨Real.sqrt 50, -(Real.pi / 2)⟩, time := 0,
            i := 1, visible := true }
        = .ok { x := 5, y := 5, z := 0, orientation := r2 }) := by
  have hp := Real.pi_pos
  have hp3 := Real.pi_gt_three
  have hp4 := Real.pi_lt_d2
  obtain ⟨d1, d2, d3⟩ := arg_diag 5 (by norm_num)
  have d4 := arg_diag_neg 5 (by norm_num)
  have e1 : ((5 : ℝ) - 10) = -5 := by norm_num
  have e2 : ((5 : ℝ) - 0) = 5 := by norm_num
  have e3 : ((-5 : ℝ) - 0) = -5 := by norm_num
  have hD := poleDistance_example
    (CMath.mk Real.sqrt Real.cos Real.sin (fun y x => Complex.arg ⟨x, y⟩)) (fun _ => rfl)
  have hD2 := poleDistance_mirrored
    (CMath.mk Real.sqrt Real.cos Real.sin (fun y x => Complex.arg ⟨x, y⟩)) (fun _ => rfl)
  have h1 : 0 < poleDistance
      (CMath.mk Real.sqrt Real.cos Real.sin (fun y x => Complex.arg ⟨x, y⟩)) 0 0 10 0 := by
    rw [hD]; norm_num
  have h2 : |Real.sqrt 50 - Real.sqrt 50|
      ≤ poleDistance (CMath.mk Real.sqrt Real.cos Real.sin (fun y x => Complex.arg ⟨x, y⟩))
          0 0 10 0 := by
    rw [hD, sub_self, abs_zero]; norm_num
  have h3 : 0 < poleDistance
      (CMath.mk Real.sqrt Real.cos Real.sin (fun y x => Complex.arg ⟨x, y⟩)) 10 0 0 0 := by
    rw [hD2]; norm_num
  have h4 : |Real.sqrt 50 - Real.sqrt 50|
      ≤ poleDistance (CMath.mk Real.sqrt Real.cos Real.sin (fun y x => Complex.arg ⟨x, y⟩))
          10 0 0 0 := by
    rw [hD2, sub_self, abs_zero]; norm_num
  refine ⟨⟨rfl, h1, h2, h3, h4⟩, ?_, ?_, ?_⟩
  · obtain ⟨fuel1, a, b, c, r1, r2, _, _, h⟩ := calcPose_first_pose
      (CMath.mk Real.sqrt Real.cos Real.sin (fun y x => Complex.arg ⟨x, y⟩)) yawTf initialPose
      { xy_coords := ⟨0, 0⟩, laser_coords := ⟨Real.sqrt 50, 0⟩, time := 0, i := 0,
        visible := true }
      { xy_coords := ⟨10, 0⟩, laser_coords := ⟨Real.sqrt 50, 1 + Real.pi / 2⟩, time := 0,
        i := 1, visible := true } rfl h1 h2
    have hc : c = { x1_circle := 5, y1_circle := 5, x2_circle := 5, y2_circle := -5 } := by
      have i1 := (h fuel1 le_rfl).1
      have i2 := intersect_example
        (CMath.mk Real.sqrt Real.cos Real.sin (fun y x => Complex.arg ⟨x, y⟩)) (fun _ => rfl)
        fuel1
      simp only at i1
      rw [i2] at i1
      simp only [Except.ok.injEq, Prod.mk.injEq] at i1
      exact i1.2.2.symm
    subst hc
    refine ⟨fuel1, r1, ?_⟩
    intro fuel hf
    obtain ⟨_, _, _, hfirst, _, _⟩ := h fuel hf
    apply hfirst
    simp only
    rw [e1, e2, d1, d2]
    norm_num
    linarith
  · obtain ⟨fuel1, a, b, c, r1, r2, _, _, h⟩ := calcPose_first_pose
      (CMath.mk Real.sqrt Real.cos Real.sin (fun y x => Complex.arg ⟨x, y⟩)) yawTf initialPose
      { xy_coords := ⟨0, 0⟩, laser_coords := ⟨Real.sqrt 50, 0⟩, time := 0, i := 0,
        visible := true }
      { xy_coords := ⟨10, 0⟩, laser_coords := ⟨Real.sqrt 50, -2⟩, time := 0,
        i := 1, visible := true } rfl h1 h2
    have hc : c = { x1_circle := 5, y1_circle := 5, x2_circle := 5, y2_circle := -5 } := by
      have i1 := (h fuel1 le_rfl).1
      have i2 := intersect_example
        (CMath.mk Real.sqrt Real.cos Real.sin (fun y x => Complex.arg ⟨x, y⟩)) (fun _ => rfl)
        fuel1
      simp only at i1
      rw [i2] at i1
      simp only [Except.ok.injEq, Prod.mk.injEq] at i1
      exact i1.2.2.symm
    subst hc
    refine ⟨fuel1, ?_⟩
    intro fuel hf
    obtain ⟨_, _, _, _, _, hnone⟩ := h fuel hf
    apply hnone
    · simp only
      rw [e1, e2, d1, d2, not_lt]
      norm_num
      linarith
    · simp only
      rw [e1, e2, e3, d3, d4, not_lt]
      norm_num
      linarith
    · simp only
      rw [e1, e2, e3, d2, d3, not_lt]
      norm_num
      linarith
  · obtain ⟨fuel1, a, b, c, r1, r2, _, _, h⟩ := calcPose_first_pose
      (CMath.mk Real.sqrt Real.cos Real.sin (fun y x => Complex.arg ⟨x, y⟩)) yawTf initialPose
      { xy_coords := ⟨10, 0⟩, laser_coords := ⟨Real.sqrt 50, 0⟩, time := 0, i := 0,
        visible := true }
      { xy_coords := ⟨0, 0⟩, laser_coords := ⟨Real.sqrt 50, -(Real.pi / 2)⟩, time := 0,
        i := 1, visible := true } rfl h3 h4
    have hc : c = { x1_circle := 5, y1_circle := -5, x2_circle := 5, y2_circle := 5 } := by
      have i1 := (h fuel1 le_rfl).1
      have i2 := intersect_mirrored_example
        (CMath.mk Real.sqrt Real.cos Real.sin (fun y x => Complex.arg ⟨x, y⟩)) (fun _ => rfl)
        fuel1
      simp only at i1
      rw [i2] at i1
      simp only [Except.ok.injEq, Prod.mk.injEq] at i1
      exact i1.2.2.symm
    subst hc
    refine ⟨fuel1, r2, ?_⟩
    intro fuel hf
    obtain ⟨_, _, _, _, hsecond, _⟩ := h fuel hf
    apply hsecond
    · simp only
      rw [e1, e2, e3, d3, d4, not_lt]
      norm_num
      linarith
    · simp only
      rw [e1, e2, d1, d2]
      norm_num
      linarith
    · simp only
      rw [e1, e2, e3, d2, d3]
      norm_num
      linarith

end Proofs

end Localization
